import Mathlib

/-!
# APNG encoder (`src/js/apng.js`): a shallow embedding and its verification

Byte buffers (`ArrayBuffer`, `Uint8Array`, `DataView`) are lists of naturals, one
entry per byte.  JavaScript numbers that pass through the bitwise operators are
integers: `^` and `&` return a signed 32-bit result, `>>>` an unsigned one, and
the typed-array stores reduce modulo the element width.  Reads of a `DataView`
outside the buffer raise a `RangeError`; here they return `none` and the
enclosing operation fails.
-/

namespace APNG

/-! ## JavaScript number conversions and bitwise operators -/

/-- The conversion `ToUint32` on integral numbers. -/
def ToUint32 (x : Int) : Nat := (x % 4294967296).toNat

/-- The conversion `ToInt32` on integral numbers. -/
def ToInt32 (x : Int) : Int :=
  if ToUint32 x < 2147483648 then (ToUint32 x : Int) else (ToUint32 x : Int) - 4294967296

/-- The operator `a ^ b`. -/
def jsXor (a b : Int) : Int := ToInt32 ((Nat.xor (ToUint32 a) (ToUint32 b) : Nat) : Int)

/-- The operator `a & b`. -/
def jsAnd (a b : Int) : Int := ToInt32 ((Nat.land (ToUint32 a) (ToUint32 b) : Nat) : Int)

/-- The operator `a >>> k`. -/
def jsUshr (a : Int) (k : Nat) : Int := ((ToUint32 a >>> (k % 32) : Nat) : Int)

/-! ## Checksum engine (constructor, `_crcUpdate`, `_crc`) -/

/-- One pass of the inner `for (k ...)` loop body of the constructor:
`if (c & 1) c = 0xedb88320 ^ (c >>> 1); else c = c >>> 1;`. -/
def tableStep (c : Int) : Int :=
  if jsAnd c 1 ≠ 0 then jsXor 3988292384 (jsUshr c 1) else jsUshr c 1

/-- The value stored in `this._crcTable[n]`: eight passes from `c = n`, reduced by the
`Uint32Array` store. -/
def tableEntry (n : Nat) : Nat := ToUint32 (tableStep^[8] (n : Int))

/-- The table `this._crcTable`, a `Uint32Array(256)` filled by the constructor. -/
def _crcTable : List Nat := (List.range 256).map tableEntry

/-- The element read `buf[i]` of a `Uint8Array` inside a bitwise expression; an index
outside the array reads `undefined`, which the operators take as `0`. -/
def byteAt (buf : List Nat) (i : Nat) : Int := ((buf.getD i 0 : Nat) : Int)

/-- The loop body of `_crcUpdate`:
`c = this._crcTable[(c ^ buf[off+i]) & 0xff] ^ (c >>> 8)`. -/
def crcStep (buf : List Nat) (off : Nat) (c : Int) (i : Nat) : Int :=
  jsXor ((_crcTable.getD (jsAnd (jsXor c (byteAt buf (off + i))) 255).toNat 0 : Nat) : Int)
    (jsUshr c 8)

/-- The method `_crcUpdate(c, buf, off, len)`. -/
def _crcUpdate (c : Int) (buf : List Nat) (off len : Nat) : Int :=
  (List.range len).foldl (crcStep buf off) c

/-- The method `_crc(b, o, l)`: `this._crcUpdate(0xffffffff,b,o,l) ^ 0xffffffff`. -/
def _crc (b : List Nat) (o l : Nat) : Int :=
  jsXor (_crcUpdate 4294967295 b o l) 4294967295

/-! ## Typed arrays and `DataView` accessors -/

/-- The four bytes `DataView.setUint32` stores for a non-negative value (big-endian,
reduced modulo `2^32`). -/
def be32 (v : Nat) : List Nat := [v / 16777216 % 256, v / 65536 % 256, v / 256 % 256, v % 256]

/-- The two bytes `DataView.setUint16` stores for a non-negative value. -/
def be16 (v : Nat) : List Nat := [v / 256 % 256, v % 256]

/-- Overwrite `bytes.length` entries of `arr` from index `pos` on. -/
def writeAt (arr : List Nat) (pos : Nat) (bytes : List Nat) : List Nat :=
  arr.take pos ++ bytes ++ arr.drop (pos + bytes.length)

/-- The call `view.setUint32(pos, v)`; fails outside the buffer. -/
def setUint32 (arr : List Nat) (pos : Nat) (v : Int) : Option (List Nat) :=
  if pos + 4 ≤ arr.length then some (writeAt arr pos (be32 (ToUint32 v))) else none

/-- The call `view.setUint16(pos, v)`; fails outside the buffer. -/
def setUint16 (arr : List Nat) (pos : Nat) (v : Int) : Option (List Nat) :=
  if pos + 2 ≤ arr.length then some (writeAt arr pos (be16 (v % 65536).toNat)) else none

/-- The call `view.setUint8(pos, v)`; fails outside the buffer. -/
def setUint8 (arr : List Nat) (pos : Nat) (v : Int) : Option (List Nat) :=
  if pos + 1 ≤ arr.length then some (writeAt arr pos [(v % 256).toNat]) else none

/-- The call `view.getUint32(pos)`; fails outside the buffer. -/
def getUint32 (buf : List Nat) (pos : Nat) : Option Nat :=
  if pos + 4 ≤ buf.length then
    some (buf.getD pos 0 * 16777216 + buf.getD (pos + 1) 0 * 65536
      + buf.getD (pos + 2) 0 * 256 + buf.getD (pos + 3) 0)
  else none

/-- The call `buffer.slice(a, b)` of an `ArrayBuffer`; both ends are clamped to the
buffer. -/
def slice (buf : List Nat) (a b : Nat) : List Nat := (buf.take b).drop a

/-- The method `_writeStr(arr, pos, str)`: `arr[pos+i] = str.charCodeAt(i)` for each
index of the string; a store outside a typed array is dropped. -/
def _writeStr (arr : List Nat) (pos : Nat) (str : String) : List Nat :=
  (List.range str.length).foldl
    (fun a i => a.set (pos + i) ((str.toList.getD i (Char.ofNat 0)).toNat % 256)) arr

/-! ## The muxer `createFromBlobs` -/

/-- The globals `VIDEO_WIDTH`, `VIDEO_HEIGHT`, `VIDEO_FPS` read by `createFromBlobs`. -/
structure Config where
  VIDEO_WIDTH : Nat
  VIDEO_HEIGHT : Nat
  VIDEO_FPS : Nat
  deriving Repr, DecidableEq

/-- How a run ends without calling `cb`. -/
inductive Failure where
  | rangeError
  | typeError
  | outOfFuel
  deriving Repr, DecidableEq

/-- The variables shared by the `onload` calls of one run. -/
structure State where
  chunks : List (List Nat)
  sequence_number : Nat
  deriving Repr, DecidableEq

/-- Lift a `DataView` store into the failure type of a run. -/
def orRange {α : Type} : Option α → Except Failure α
  | some a => .ok a
  | none => .error .rangeError

/-- The block building the `IHDR` array (lines 73-84). -/
def mkIHDR (cfg : Config) : Except Failure (List Nat) := do
  let a := List.replicate (8 + 13 + 4) 0
  let a ← orRange (setUint32 a 0 13)
  let a := _writeStr a 4 "IHDR"
  let a ← orRange (setUint32 a 8 cfg.VIDEO_WIDTH)
  let a ← orRange (setUint32 a 12 cfg.VIDEO_HEIGHT)
  let a ← orRange (setUint8 a 16 8)
  let a ← orRange (setUint8 a 17 6)
  let a ← orRange (setUint8 a 18 0)
  let a ← orRange (setUint8 a 19 0)
  let a ← orRange (setUint8 a 20 0)
  orRange (setUint32 a 21 (_crc a 4 (4 + 13)))

/-- The block building the `acTL` array (lines 90-96); `n` is `frame_blobs.length`. -/
def mkacTL (n : Nat) : Except Failure (List Nat) := do
  let a := List.replicate (8 + 8 + 4) 0
  let a ← orRange (setUint32 a 0 8)
  let a := _writeStr a 4 "acTL"
  let a ← orRange (setUint32 a 8 n)
  let a ← orRange (setUint32 a 12 0)
  orRange (setUint32 a 16 (_crc a 4 (4 + 8)))

/-- The block building the `fcTL` array (lines 103-122); `seq` is the value of
`sequence_number++`.  For a whole-number frame rate the quotient `1000/VIDEO_FPS`
truncated by the 16-bit store is the integer quotient (`0` when the rate is `0`). -/
def mkfcTL (cfg : Config) (seq : Nat) : Except Failure (List Nat) := do
  let a := List.replicate (8 + 26 + 4) 0
  let a ← orRange (setUint32 a 0 26)
  let a := _writeStr a 4 "fcTL"
  let a ← orRange (setUint32 a 8 seq)
  let a ← orRange (setUint32 a 12 cfg.VIDEO_WIDTH)
  let a ← orRange (setUint32 a 16 cfg.VIDEO_HEIGHT)
  let a ← orRange (setUint32 a 20 0)
  let a ← orRange (setUint32 a 24 0)
  let a ← orRange (setUint16 a 28 ((1000 / cfg.VIDEO_FPS : Nat) : Int))
  let a ← orRange (setUint16 a 30 1000)
  let a ← orRange (setUint8 a 32 0)
  let a ← orRange (setUint8 a 33 0)
  orRange (setUint32 a 34 (_crc a 4 (4 + 26)))

/-- The `fdAT` branch (lines 142-152) for the chunk at `pos` of declared length
`chunkLen`. -/
def fdATBranch (result : List Nat) (pos chunkLen : Nat) (st : State) : Except Failure State := do
  let fdAT := List.replicate 4 0
  let fdAT ← orRange (setUint32 fdAT 0 ((chunkLen + 4 : Nat) : Int))
  let chunks := st.chunks ++ [fdAT]
  let fdAT := slice result pos (pos + chunkLen + 8 + 4)
  let fdAT := _writeStr fdAT 0 "fdAT"
  let fdAT ← orRange (setUint32 fdAT 4 (st.sequence_number : Int))
  let sequence_number := st.sequence_number + 1
  let fdAT ← orRange (setUint32 fdAT (chunkLen + 8) (_crc fdAT 0 (chunkLen + 8)))
  pure { chunks := chunks ++ [fdAT], sequence_number := sequence_number }

/-- One pass of the `while (true)` body up to and including `pos += chunkLen + 12`
(lines 128-156); returns the new state and cursor. -/
def walkBody (frame_num : Nat) (result : List Nat) (pos : Nat) (st : State) :
    Except Failure (State × Nat) := do
  let chunkLen ← orRange (getUint32 result pos)
  let ty ← orRange (getUint32 result (pos + 4))
  let st ←
    if ty = 0x49444154 then
      if frame_num = 0 then
        pure { st with chunks := st.chunks ++ [slice result pos (pos + chunkLen + 8 + 4)] }
      else fdATBranch result pos chunkLen st
    else pure st
  pure (st, pos + chunkLen + 12)

/-- The `while (true)` loop (lines 127-158), with a bound on the number of passes. -/
def walk (frame_num : Nat) (result : List Nat) : Nat → Nat → State → Except Failure State
  | 0, _, _ => .error .outOfFuel
  | fuel + 1, pos, st => do
    let (st, pos) ← walkBody frame_num result pos st
    if pos ≥ result.length then pure st else walk frame_num result fuel pos st

/-- The handler `reader.onload` up to `frame_num++` (lines 63-158) for the buffer
`result` of frame `frame_num`; `n` is `frame_blobs.length`.  The cursor moves by at
least 12 per pass, so `result.length` passes are never used up. -/
def onload (cfg : Config) (n frame_num : Nat) (result : List Nat) (st : State) :
    Except Failure State := do
  let pos := 8
  let st ←
    if frame_num = 0 then do
      let IHDR ← mkIHDR cfg
      let acTL ← mkacTL n
      pure { st with chunks := st.chunks ++ [IHDR] ++ [acTL] }
    else pure st
  let fcTL ← mkfcTL cfg st.sequence_number
  let st := { chunks := st.chunks ++ [fcTL], sequence_number := st.sequence_number + 1 }
  walk frame_num result (result.length + 1) pos st

/-- The chain of `onload` calls over the frames still to be read, `frame_num` being
the index of the first of them. -/
def readFrames (cfg : Config) (n : Nat) : List (List Nat) → Nat → State → Except Failure State
  | [], _, st => pure st
  | result :: rest, frame_num, st => do
    let st ← onload cfg n frame_num result st
    readFrames cfg n rest (frame_num + 1) st

/-- The fixed `IEND` buffer (line 171). -/
def IEND : List Nat := [0, 0, 0, 0, 0x49, 0x45, 0x4E, 0x44, 0xAE, 0x42, 0x60, 0x82]

/-- The buffer list `chunks` at the time the `Blob` is built. -/
def createFromBlobsChunks (cfg : Config) (frame_blobs : List (List Nat)) :
    Except Failure (List (List Nat)) :=
  match frame_blobs with
  | [] => .error .typeError
  | _ :: _ => do
    let header : List Nat := [137, 80, 78, 71, 13, 10, 26, 10]
    let st : State := { chunks := [header], sequence_number := 0 }
    let st ← readFrames cfg frame_blobs.length frame_blobs 0 st
    pure (st.chunks ++ [IEND])

/-- The method `createFromBlobs(frame_blobs, cb)`: the bytes of the `Blob` passed to
`cb`, or the failure that keeps `cb` from being called.  With no frame,
`readAsArrayBuffer(undefined)` raises a `TypeError`. -/
def createFromBlobs (cfg : Config) (frame_blobs : List (List Nat)) :
    Except Failure (List Nat) :=
  (createFromBlobsChunks cfg frame_blobs).map List.flatten

/-! ## Chunks and frames as structured data -/

/-- The checksum of a whole byte list as the `DataView` store writes it:
`_crc(b, 0, b.length)` read as an unsigned 32-bit value. -/
def crc32 (bytes : List Nat) : Nat := ToUint32 (_crc bytes 0 bytes.length)

/-- The char codes of a type tag. -/
def strBytes (str : String) : List Nat := str.toList.map (fun ch => ch.toNat % 256)

/-- A chunk of a PNG stream: type tag, data bytes, stored checksum bytes.  The declared
length is the number of data bytes. -/
structure Chunk where
  type : List Nat
  data : List Nat
  crc : List Nat
  deriving Repr, DecidableEq

/-- The bytes a chunk occupies in a buffer: length, type, data, checksum. -/
def Chunk.bytes (c : Chunk) : List Nat := be32 c.data.length ++ c.type ++ c.data ++ c.crc

/-- A chunk the 32-bit chunk walk can read back: a 4-byte tag, a 4-byte checksum field
and a data length that fits the unsigned 32-bit length field. -/
def Chunk.Readable (c : Chunk) : Prop :=
  c.type.length = 4 ∧ (∀ b ∈ c.type, b < 256) ∧ c.crc.length = 4 ∧ c.data.length < 4294967296

instance (c : Chunk) : Decidable c.Readable := by unfold Chunk.Readable; exact inferInstance

/-- A chunk of a conformant PNG: as `Readable`, with the data length within the PNG
limit of `2^31 - 1` bytes. -/
def Chunk.WF (c : Chunk) : Prop :=
  c.type.length = 4 ∧ (∀ b ∈ c.type, b < 256) ∧ c.crc.length = 4 ∧ c.data.length < 2147483648

instance (c : Chunk) : Decidable c.WF := by unfold Chunk.WF; exact inferInstance

/-- Whether the chunk is a pixel-data chunk. -/
def Chunk.isIDAT (c : Chunk) : Bool := c.type = [0x49, 0x44, 0x41, 0x54]

/-- A single-image PNG buffer: 8 signature bytes followed by chunks. -/
structure Frame where
  signature : List Nat
  chunks : List Chunk
  deriving Repr, DecidableEq

/-- The bytes of a frame. -/
def Frame.bytes (f : Frame) : List Nat := f.signature ++ (f.chunks.map Chunk.bytes).flatten

/-- A well-formed frame: 8 signature bytes and at least one chunk, every chunk laid out
consistently with its declared length, the last one ending the buffer. -/
def Frame.WF (f : Frame) : Prop :=
  f.signature.length = 8 ∧ f.chunks ≠ [] ∧ ∀ c ∈ f.chunks, c.WF

instance (f : Frame) : Decidable f.WF := by unfold Frame.WF; exact inferInstance

/-- The pixel-data chunks of a frame, in order. -/
def Frame.idats (f : Frame) : List Chunk := f.chunks.filter Chunk.isIDAT

/-- The cursor logic of the `while (true)` loop (lines 126-158) applied to any buffer,
returning the chunks it steps over: at `pos` read the length and the tag, take the data
and checksum bytes that follow, move by `chunkLen + 12`, stop once `pos >= len`.  A read
outside the buffer gives `none`. -/
def chunkWalk (buf : List Nat) : Nat → Nat → Option (List Chunk)
  | 0, _ => none
  | fuel + 1, pos =>
    match getUint32 buf pos, getUint32 buf (pos + 4) with
    | some chunkLen, some _ =>
      let c : Chunk :=
        { type := slice buf (pos + 4) (pos + 8)
          data := slice buf (pos + 8) (pos + 8 + chunkLen)
          crc := slice buf (pos + 8 + chunkLen) (pos + 8 + chunkLen + 4) }
      if pos + chunkLen + 12 ≥ buf.length then some [c]
      else (chunkWalk buf fuel (pos + chunkLen + 12)).map (fun cs => c :: cs)
    | _, _ => none

/-- The chunks of a buffer, read from just after the 8-byte signature. -/
def readChunks (buf : List Nat) : Option (List Chunk) := chunkWalk buf (buf.length + 1) 8

/-- A chunk with the checksum the encoder computes: `_crc` over type and data. -/
def mkChunk (type data : List Nat) : Chunk :=
  { type := type, data := data, crc := be32 (crc32 (type ++ data)) }

/-- The `IHDR` chunk the encoder builds from the configuration. -/
def IHDRChunk (cfg : Config) : Chunk :=
  mkChunk (strBytes "IHDR") (be32 cfg.VIDEO_WIDTH ++ be32 cfg.VIDEO_HEIGHT ++ [8, 6, 0, 0, 0])

/-- The `acTL` chunk for `n` frames. -/
def acTLChunk (n : Nat) : Chunk := mkChunk (strBytes "acTL") (be32 n ++ be32 0)

/-- The `fcTL` chunk with sequence number `seq`. -/
def fcTLChunk (cfg : Config) (seq : Nat) : Chunk :=
  mkChunk (strBytes "fcTL") (be32 seq ++ be32 cfg.VIDEO_WIDTH ++ be32 cfg.VIDEO_HEIGHT
    ++ be32 0 ++ be32 0 ++ be16 (1000 / cfg.VIDEO_FPS) ++ be16 1000 ++ [0, 0])

/-- The `fdAT` chunk with sequence number `seq` wrapping the payload `data`. -/
def fdATChunk (seq : Nat) (data : List Nat) : Chunk :=
  mkChunk (strBytes "fdAT") (be32 seq ++ data)

/-- The fixed `IEND` chunk. -/
def IENDChunk : Chunk := { type := strBytes "IEND", data := [], crc := [0xAE, 0x42, 0x60, 0x82] }

/-- The `fdAT` chunks for a list of pixel-data chunks, numbered from `seq`. -/
def fdATChunks : Nat → List Chunk → List Chunk
  | _, [] => []
  | seq, c :: cs => fdATChunk seq c.data :: fdATChunks (seq + 1) cs

/-- The chunks for the frames after the first, the first `fcTL` numbered `seq`. -/
def restChunks (cfg : Config) : Nat → List Frame → List Chunk
  | _, [] => []
  | seq, f :: fs =>
    fcTLChunk cfg seq :: fdATChunks (seq + 1) f.idats
      ++ restChunks cfg (seq + 1 + f.idats.length) fs

/-- The chunk sequence of the animated image for a list of frames. -/
def apngChunks (cfg : Config) : List Frame → List Chunk
  | [] => []
  | f :: fs =>
    [IHDRChunk cfg, acTLChunk (fs.length + 1), fcTLChunk cfg 0] ++ f.idats
      ++ restChunks cfg 1 fs ++ [IENDChunk]

/-- The effect of one pass of the chunk loop on the shared variables for a chunk `c` of
frame `frame_num`. -/
def emitChunk (frame_num : Nat) (st : State) (c : Chunk) : State :=
  if c.isIDAT then
    if frame_num = 0 then { st with chunks := st.chunks ++ [c.bytes] }
    else
      { chunks := st.chunks ++ [be32 (c.data.length + 4)]
          ++ [strBytes "fdAT" ++ be32 st.sequence_number ++ c.data
            ++ be32 (crc32 (strBytes "fdAT" ++ be32 st.sequence_number ++ c.data))]
        sequence_number := st.sequence_number + 1 }
  else st

/-- The PNG signature pushed first. -/
def header : List Nat := [137, 80, 78, 71, 13, 10, 26, 10]

/-- The sequence numbers stored in the `fcTL` and `fdAT` chunks of a chunk list, in
order: the first four data bytes of each, read big-endian. -/
def seqNumbers (cs : List Chunk) : List Nat :=
  cs.filterMap (fun c =>
    if c.type = strBytes "fcTL" ∨ c.type = strBytes "fdAT" then getUint32 c.data 0 else none)

/-- The number of pixel-data chunks in a list of frames. -/
def idatTotal (fs : List Frame) : Nat := (fs.map (fun f => f.idats.length)).sum

/-- The sequence number of the `fcTL` of frame `i`: one for each earlier frame and one for
each pixel-data chunk of the earlier frames other than frame 0. -/
def fcTLSeq (frames : List Frame) (i : Nat) : Nat := i + idatTotal ((frames.take i).drop 1)

/-- The index of the `fcTL` of frame `i` among the chunks of the output: after `IHDR`,
`acTL`, and one `fcTL` and the data chunks for each earlier frame. -/
def fcTLIndex (frames : List Frame) (i : Nat) : Nat := 2 + i + idatTotal (frames.take i)

/-- The number of chunks with the given type tag. -/
def countType (tag : String) (cs : List Chunk) : Nat :=
  cs.countP (fun c => decide (c.type = strBytes tag))

/-! ## Sample inputs -/

/-- A 1x1 RGBA PNG holding one red pixel: signature, `IHDR`, one `IDAT`, `IEND`. -/
def redPixel : Frame :=
  { signature := [137, 80, 78, 71, 13, 10, 26, 10]
    chunks :=
      [ { type := [73, 72, 68, 82], data := [0, 0, 0, 1, 0, 0, 0, 1, 8, 6, 0, 0, 0],
          crc := [31, 21, 196, 137] },
        { type := [73, 68, 65, 84],
          data := [120, 156, 99, 248, 207, 192, 240, 31, 0, 5, 0, 1, 255],
          crc := [137, 153, 61, 29] },
        { type := [73, 69, 78, 68], data := [], crc := [174, 66, 96, 130] } ] }

/-- The `IDAT` chunk of a 1x1 RGBA PNG holding one blue pixel. -/
def blueIDAT : Chunk :=
  { type := [73, 68, 65, 84],
    data := [120, 156, 99, 96, 96, 248, 255, 31, 0, 3, 2, 1, 255],
    crc := [230, 119, 11, 174] }

/-- A 1x1 RGBA PNG holding one blue pixel. -/
def bluePixel : Frame :=
  { signature := [137, 80, 78, 71, 13, 10, 26, 10]
    chunks :=
      [ { type := [73, 72, 68, 82], data := [0, 0, 0, 1, 0, 0, 0, 1, 8, 6, 0, 0, 0],
          crc := [31, 21, 196, 137] },
        blueIDAT,
        { type := [73, 69, 78, 68], data := [], crc := [174, 66, 96, 130] } ] }

/-- A 1x1 RGB PNG (colour type 2, no alpha) holding one red pixel. -/
def rgbPixel : Frame :=
  { signature := [137, 80, 78, 71, 13, 10, 26, 10]
    chunks :=
      [ { type := [73, 72, 68, 82], data := [0, 0, 0, 1, 0, 0, 0, 1, 8, 2, 0, 0, 0],
          crc := [144, 119, 83, 222] },
        { type := [73, 68, 65, 84],
          data := [120, 156, 99, 248, 207, 192, 0, 0, 3, 1, 1, 0],
          crc := [201, 254, 146, 239] },
        { type := [73, 69, 78, 68], data := [], crc := [174, 66, 96, 130] } ] }

/-- A PNG with the same `IDAT` chunk as `redPixel` and everything else different: other
signature bytes, the `IHDR` of an RGB image, an added `tEXt` chunk, another `IEND`
checksum. -/
def redVariant : Frame :=
  { signature := [0, 1, 2, 3, 4, 5, 6, 7]
    chunks :=
      [ { type := [73, 72, 68, 82], data := [0, 0, 0, 1, 0, 0, 0, 1, 8, 2, 0, 0, 0],
          crc := [144, 119, 83, 222] },
        { type := [116, 69, 88, 116], data := [97, 0, 98], crc := [1, 2, 3, 4] },
        { type := [73, 68, 65, 84],
          data := [120, 156, 99, 248, 207, 192, 240, 31, 0, 5, 0, 1, 255],
          crc := [137, 153, 61, 29] },
        { type := [73, 69, 78, 68], data := [], crc := [0, 0, 0, 0] } ] }

/-- A PNG with the payload of `blueIDAT` under another stored checksum and with other
chunks around it. -/
def blueVariant : Frame :=
  { signature := [137, 80, 78, 71, 13, 10, 26, 10]
    chunks :=
      [ { type := [103, 65, 77, 65], data := [0, 0, 177, 143], crc := [11, 252, 97, 5] },
        { type := [73, 68, 65, 84],
          data := [120, 156, 99, 96, 96, 248, 255, 31, 0, 3, 2, 1, 255],
          crc := [9, 9, 9, 9] },
        { type := [73, 69, 78, 68], data := [], crc := [174, 66, 96, 130] } ] }

/-- The first 50 bytes of `redPixel`: the buffer ends inside the payload of the `IDAT`
chunk, whose declared length 13 runs past the end (9 payload bytes are present). -/
def truncatedRed : List Nat := redPixel.bytes.take 50

/-- The `IHDR` chunk of the sample RGBA frames. -/
def sampleIHDR : Chunk :=
  { type := [73, 72, 68, 82], data := [0, 0, 0, 1, 0, 0, 0, 1, 8, 6, 0, 0, 0],
    crc := [31, 21, 196, 137] }

/-- What is left of the `IDAT` chunk of `bluePixel` when the buffer ends after 5 of its 13
payload bytes: the length field, the type and 5 bytes. -/
def cutIDAT : List Nat := be32 13 ++ [0x49, 0x44, 0x41, 0x54] ++ [120, 156, 99, 96, 96]

/-- A configuration for 1x1 frames at 10 frames per second. -/
def sampleConfig : Config := { VIDEO_WIDTH := 1, VIDEO_HEIGHT := 1, VIDEO_FPS := 10 }

/-! ## The bit-serial CRC-32 of the PNG specification -/

/-- One bit step: shift right by 1, XOR `0xEDB88320` if the bit shifted out was 1. -/
def crcBitStep (c : Nat) : Nat :=
  if c % 2 = 1 then (c >>> 1) ^^^ 0xEDB88320 else c >>> 1

/-- One input byte: XOR it into the low byte, then 8 bit steps. -/
def crcBitByte (c b : Nat) : Nat := crcBitStep^[8] (c ^^^ b)

/-- The standard reflected CRC-32 of a byte list, bit by bit: initial value
`0xFFFFFFFF`, final XOR with `0xFFFFFFFF`. -/
def crc32BitSerial (bytes : List Nat) : Nat :=
  (bytes.foldl crcBitByte 0xFFFFFFFF) ^^^ 0xFFFFFFFF

/-! ## The chunk loop with its passes recorded -/

/-- What one pass of the chunk loop reads at its cursor: the cursor itself, the declared
length `view.getUint32(pos)` and the type tag `view.getUint32(pos+4)`. -/
structure Visit where
  offset : Nat
  chunkLen : Nat
  type : Nat
  deriving Repr, DecidableEq

/-- The loop `walk` with a record of its passes: the same body and the same exit test,
returning also the list of visits and the cursor at which the loop stopped. -/
def walkTrace (frame_num : Nat) (result : List Nat) :
    Nat → Nat → State → Except Failure (State × List Visit × Nat)
  | 0, _, _ => .error .outOfFuel
  | fuel + 1, pos, st => do
    let (st', pos') ← walkBody frame_num result pos st
    let v : Visit :=
      { offset := pos
        chunkLen := (getUint32 result pos).getD 0
        type := (getUint32 result (pos + 4)).getD 0 }
    if pos' ≥ result.length then pure (st', [v], pos')
    else do
      let (st'', vs, p) ← walkTrace frame_num result fuel pos' st'
      pure (st'', v :: vs, p)

/-- The number of passes of the chunk loop that are started, a pass that raises a
`RangeError` included. -/
def walkPasses (frame_num : Nat) (result : List Nat) : Nat → Nat → State → Nat
  | 0, _, _ => 0
  | fuel + 1, pos, st =>
    match walkBody frame_num result pos st with
    | .error _ => 1
    | .ok (st', pos') =>
      if pos' ≥ result.length then 1 else 1 + walkPasses frame_num result fuel pos' st'

/-- The 32-bit big-endian value of a 4-byte type tag. -/
def tagNat (ty : List Nat) : Nat :=
  ty.getD 0 0 * 16777216 + ty.getD 1 0 * 65536 + ty.getD 2 0 * 256 + ty.getD 3 0

/-- The visits for a list of chunks laid out one after the other from offset `o`: each
chunk takes its declared length plus 12 bytes. -/
def visitsOf : Nat → List Chunk → List Visit
  | _, [] => []
  | o, c :: cs =>
    { offset := o, chunkLen := c.data.length, type := tagNat c.type }
      :: visitsOf (o + c.data.length + 12) cs

/-! ## Configuration of the demo and decoding helpers -/

/-- The configuration set in `main.js` (lines 10-13). -/
def shippedConfig : Config := { VIDEO_WIDTH := 480, VIDEO_HEIGHT := 360, VIDEO_FPS := 15 }

/-- The 16-bit big-endian value of two bytes, as a decoder reads a delay field. -/
def u16 (bs : List Nat) : Nat := bs.getD 0 0 * 256 + bs.getD 1 0

/-- The output length as the specification's formula gives it, the length of the image
header chunk being `ihdrLen`: signature, header, 20 bytes of `acTL`, 38 bytes of `fcTL`
per frame, the bytes of frame 0's `IDAT` chunks, declared length plus 12 for each `IDAT`
chunk of the later frames, and 12 bytes of `IEND`. -/
def claimedLength (ihdrLen : Nat) (frames : List Frame) : Nat :=
  8 + ihdrLen + 20 + frames.length * 38
    + ((frames.take 1).map (fun f => (f.idats.map (fun c => c.bytes.length)).sum)).sum
    + ((frames.drop 1).map (fun f => (f.idats.map (fun c => c.data.length + 12)).sum)).sum
    + 12

/-- The length the encoder produces: as `claimedLength` with a 25-byte header chunk and
declared length plus 16 for each `IDAT` chunk of the later frames. -/
def emittedLength (frames : List Frame) : Nat :=
  8 + 25 + 20 + frames.length * 38
    + ((frames.take 1).map (fun f => (f.idats.map (fun c => c.bytes.length)).sum)).sum
    + ((frames.drop 1).map (fun f => (f.idats.map (fun c => c.data.length + 16)).sum)).sum
    + 12

end APNG

namespace APNG

/-! ## Numeric conversions -/

theorem ToUint32_natCast (n : Nat) : ToUint32 (n : Int) = n % 4294967296 := by
  unfold ToUint32
  omega

theorem ToUint32_lt (x : Int) : ToUint32 x < 4294967296 := by
  unfold ToUint32
  omega

theorem be32_mod (n : Nat) : be32 (n % 4294967296) = be32 n := by
  unfold be32
  have h1 : n % 4294967296 / 16777216 % 256 = n / 16777216 % 256 := by omega
  have h2 : n % 4294967296 / 65536 % 256 = n / 65536 % 256 := by omega
  have h3 : n % 4294967296 / 256 % 256 = n / 256 % 256 := by omega
  have h4 : n % 4294967296 % 256 = n % 256 := by omega
  rw [h1, h2, h3, h4]

@[simp] theorem be32_length (n : Nat) : (be32 n).length = 4 := rfl

@[simp] theorem be16_length (n : Nat) : (be16 n).length = 2 := rfl

theorem be32_natCast (n : Nat) : be32 (ToUint32 (n : Int)) = be32 n := by
  rw [ToUint32_natCast, be32_mod]

theorem be32_crc (b : List Nat) : be32 (ToUint32 (_crc b 0 b.length)) = be32 (crc32 b) := rfl

end APNG

namespace APNG

/-! ## The checksum reads only its window -/

theorem byteAt_window (pre mid post : List Nat) (i : Nat) (hi : i < mid.length) :
    byteAt (pre ++ mid ++ post) (pre.length + i) = byteAt mid (0 + i) := by
  unfold byteAt
  congr 1
  rw [List.getD_eq_getElem?_getD, List.getD_eq_getElem?_getD, List.append_assoc,
    List.getElem?_append_right (by omega)]
  simp [List.getElem?_append_left hi]

theorem _crcUpdate_window (c : Int) (pre mid post : List Nat) :
    _crcUpdate c (pre ++ mid ++ post) pre.length mid.length = _crcUpdate c mid 0 mid.length := by
  unfold _crcUpdate
  apply List.foldl_ext
  intro a i hi
  unfold crcStep
  rw [byteAt_window pre mid post i (List.mem_range.mp hi)]

theorem _crc_window (pre mid post : List Nat) :
    ToUint32 (_crc (pre ++ mid ++ post) pre.length mid.length) = crc32 mid := by
  unfold crc32 _crc
  rw [_crcUpdate_window]

end APNG

namespace APNG

/-! ## Closed forms of the synthesised chunks -/

theorem _writeStr_four (arr : List Nat) (pos : Nat) (a b c d : Char) :
    _writeStr arr pos (String.mk [a, b, c, d]) =
      (((arr.set (pos + 0) (a.toNat % 256)).set (pos + 1) (b.toNat % 256)).set (pos + 2)
        (c.toNat % 256)).set (pos + 3) (d.toNat % 256) := rfl

theorem ToUint32_lits :
    ToUint32 0 = 0 ∧ ToUint32 8 = 8 ∧ ToUint32 13 = 13 ∧ ToUint32 26 = 26 := by decide

theorem mkIHDR_eq (cfg : Config) :
    mkIHDR cfg = .ok (be32 13 ++ strBytes "IHDR" ++ be32 cfg.VIDEO_WIDTH ++ be32 cfg.VIDEO_HEIGHT
      ++ [8, 6, 0, 0, 0]
      ++ be32 (crc32 (strBytes "IHDR" ++ be32 cfg.VIDEO_WIDTH ++ be32 cfg.VIDEO_HEIGHT
          ++ [8, 6, 0, 0, 0]))) := by
  have hw := _crc_window (be32 13) (strBytes "IHDR" ++ be32 cfg.VIDEO_WIDTH
    ++ be32 cfg.VIDEO_HEIGHT ++ [8, 6, 0, 0, 0]) [0, 0, 0, 0]
  have hs : "IHDR" = String.mk ['I', 'H', 'D', 'R'] := rfl
  simp only [mkIHDR, hs, _writeStr_four, setUint32, be32_natCast, ToUint32_lits]
  simp [orRange, setUint8, writeAt, bind, Except.bind, strBytes, be32] at hw ⊢
  simp [hw]

theorem mkacTL_eq (n : Nat) :
    mkacTL n = .ok (be32 8 ++ strBytes "acTL" ++ be32 n ++ be32 0
      ++ be32 (crc32 (strBytes "acTL" ++ be32 n ++ be32 0))) := by
  have hw := _crc_window (be32 8) (strBytes "acTL" ++ be32 n ++ be32 0) [0, 0, 0, 0]
  have hs : "acTL" = String.mk ['a', 'c', 'T', 'L'] := rfl
  simp only [mkacTL, hs, _writeStr_four, setUint32, be32_natCast, ToUint32_lits]
  simp [orRange, writeAt, bind, Except.bind, strBytes, be32] at hw ⊢
  simp [hw]

theorem mkfcTL_eq (cfg : Config) (seq : Nat) :
    mkfcTL cfg seq = .ok (be32 26 ++ strBytes "fcTL" ++ be32 seq ++ be32 cfg.VIDEO_WIDTH
      ++ be32 cfg.VIDEO_HEIGHT ++ be32 0 ++ be32 0 ++ be16 (1000 / cfg.VIDEO_FPS) ++ be16 1000
      ++ [0, 0]
      ++ be32 (crc32 (strBytes "fcTL" ++ be32 seq ++ be32 cfg.VIDEO_WIDTH
          ++ be32 cfg.VIDEO_HEIGHT ++ be32 0 ++ be32 0 ++ be16 (1000 / cfg.VIDEO_FPS)
          ++ be16 1000 ++ [0, 0]))) := by
  have hw := _crc_window (be32 26) (strBytes "fcTL" ++ be32 seq ++ be32 cfg.VIDEO_WIDTH
          ++ be32 cfg.VIDEO_HEIGHT ++ be32 0 ++ be32 0 ++ be16 (1000 / cfg.VIDEO_FPS)
          ++ be16 1000 ++ [0, 0]) [0, 0, 0, 0]
  have hs : "fcTL" = String.mk ['f', 'c', 'T', 'L'] := rfl
  have hd : (((1000 / cfg.VIDEO_FPS : Nat) : Int) % 65536).toNat = 1000 / cfg.VIDEO_FPS := by
    have hq := Nat.div_le_self 1000 cfg.VIDEO_FPS
    generalize 1000 / cfg.VIDEO_FPS = q at hq
    omega
  simp only [mkfcTL, hs, _writeStr_four, setUint32, setUint16, be32_natCast, ToUint32_lits, hd]
  simp [orRange, setUint8, writeAt, bind, Except.bind, strBytes, be32, be16] at hw ⊢
  simp [hw]

end APNG

namespace APNG

/-! ## Reads and writes inside a concatenation -/

theorem writeAt_mid (a b c bytes : List Nat) (h : b.length = bytes.length) :
    writeAt (a ++ b ++ c) a.length bytes = a ++ bytes ++ c := by
  unfold writeAt
  have h1 : List.take a.length (a ++ b ++ c) = a := by
    rw [List.append_assoc]
    exact List.take_left' rfl
  have h2 : List.drop (a.length + bytes.length) (a ++ b ++ c) = c := by
    have hl : a.length + bytes.length = (a ++ b).length := by simp [h]
    rw [hl]
    exact List.drop_left' rfl
  rw [h1, h2]

theorem getD_append_add (pre l : List Nat) (k : Nat) :
    (pre ++ l).getD (pre.length + k) 0 = l.getD k 0 := by
  induction pre with
  | nil => simp
  | cons x xs ih =>
    have hk : (x :: xs).length + k = (xs.length + k) + 1 := by simp; omega
    rw [hk, List.cons_append, List.getD_cons_succ, ih]

theorem length_four {l : List Nat} (h : l.length = 4) :
    ∃ a b c d, l = [a, b, c, d] := by
  match l, h with
  | [a, b, c, d], _ => exact ⟨a, b, c, d, rfl⟩

/-- The 32-bit big-endian value of four bytes. -/
theorem getUint32_at (pre rest : List Nat) (a b c d : Nat) :
    getUint32 (pre ++ [a, b, c, d] ++ rest) pre.length
      = some (a * 16777216 + b * 65536 + c * 256 + d) := by
  unfold getUint32
  have h0 := getD_append_add pre ([a, b, c, d] ++ rest) 0
  have h1 := getD_append_add pre ([a, b, c, d] ++ rest) 1
  have h2 := getD_append_add pre ([a, b, c, d] ++ rest) 2
  have h3 := getD_append_add pre ([a, b, c, d] ++ rest) 3
  simp only [Nat.add_zero, ← List.append_assoc] at h0 h1 h2 h3
  rw [h0, h1, h2, h3]
  simp

theorem getUint32_be32 (pre rest : List Nat) (v : Nat) (hv : v < 4294967296) :
    getUint32 (pre ++ be32 v ++ rest) pre.length = some v := by
  unfold be32
  rw [getUint32_at]
  congr 1
  omega

theorem getUint32_none (buf : List Nat) (pos : Nat) (h : buf.length < pos + 4) :
    getUint32 buf pos = none := by
  unfold getUint32
  rw [if_neg (by omega)]

end APNG

namespace APNG

/-! ## One pass of the chunk loop on a well-laid-out chunk -/

theorem slice_mid (pre mid post : List Nat) :
    slice (pre ++ mid ++ post) pre.length (pre.length + mid.length) = mid := by
  unfold slice
  have h1 : List.take (pre.length + mid.length) (pre ++ mid ++ post) = pre ++ mid :=
    List.take_left' (by simp)
  rw [h1]
  exact List.drop_left' rfl

theorem Chunk.bytes_length (c : Chunk) (hc : c.Readable) :
    c.bytes.length = c.data.length + 12 := by
  obtain ⟨ht, _, hcrc, _⟩ := hc
  simp [Chunk.bytes, ht, hcrc]
  omega

theorem tag_eq_IDAT (a b c d : Nat) (hb : b < 256) (hc : c < 256) (hd : d < 256) :
    a * 16777216 + b * 65536 + c * 256 + d = 0x49444154
      ↔ [a, b, c, d] = [0x49, 0x44, 0x41, 0x54] := by
  simp only [List.cons.injEq, and_true]
  omega

theorem fdATBranch_chunk (pre post : List Nat) (c : Chunk) (hc : c.Readable) (st : State) :
    fdATBranch (pre ++ c.bytes ++ post) pre.length c.data.length st
      = .ok { chunks := st.chunks ++ [be32 (c.data.length + 4)]
                ++ [strBytes "fdAT" ++ be32 st.sequence_number ++ c.data
                  ++ be32 (crc32 (strBytes "fdAT" ++ be32 st.sequence_number ++ c.data))]
              sequence_number := st.sequence_number + 1 } := by
  have hlen := Chunk.bytes_length c hc
  obtain ⟨ht, _, hcrc, _⟩ := hc
  obtain ⟨t0, t1, t2, t3, htype⟩ := length_four ht
  have hsl : slice (pre ++ c.bytes ++ post) pre.length (pre.length + c.data.length + 8 + 4)
      = c.bytes := by
    have h := slice_mid pre c.bytes post
    rw [hlen] at h
    have e : pre.length + c.data.length + 8 + 4 = pre.length + (c.data.length + 12) := by omega
    rw [e]
    exact h
  have hs : "fdAT" = String.mk ['f', 'd', 'A', 'T'] := rfl
  have hw1 : _writeStr c.bytes 0 "fdAT" = strBytes "fdAT" ++ c.type ++ (c.data ++ c.crc) := by
    rw [hs, _writeStr_four]
    simp [Chunk.bytes, be32, strBytes]
  have hw2 : writeAt (strBytes "fdAT" ++ c.type ++ (c.data ++ c.crc)) 4
      (be32 st.sequence_number)
      = strBytes "fdAT" ++ be32 st.sequence_number ++ (c.data ++ c.crc) :=
    writeAt_mid (strBytes "fdAT") c.type (c.data ++ c.crc) (be32 st.sequence_number)
      (by simp [ht])
  have hl3 : (strBytes "fdAT" ++ be32 st.sequence_number ++ c.data).length
      = c.data.length + 8 := by
    simp [strBytes]
    omega
  have hw3 : ∀ v, writeAt (strBytes "fdAT" ++ be32 st.sequence_number ++ (c.data ++ c.crc))
      (c.data.length + 8) (be32 v)
      = strBytes "fdAT" ++ be32 st.sequence_number ++ c.data ++ be32 v := by
    intro v
    have := writeAt_mid (strBytes "fdAT" ++ be32 st.sequence_number ++ c.data) c.crc []
      (be32 v) (by simp [hcrc])
    rw [hl3] at this
    simpa using this
  have hcrcw : ToUint32 (_crc (strBytes "fdAT" ++ be32 st.sequence_number ++ (c.data ++ c.crc))
      0 (c.data.length + 8))
      = crc32 (strBytes "fdAT" ++ be32 st.sequence_number ++ c.data) := by
    have := _crc_window [] (strBytes "fdAT" ++ be32 st.sequence_number ++ c.data) c.crc
    rw [hl3] at this
    simpa using this
  have hlen1 : (strBytes "fdAT" ++ c.type ++ (c.data ++ c.crc)).length
      = c.data.length + 12 := by
    simp [strBytes, ht, hcrc]
    omega
  have hlen2 : (strBytes "fdAT" ++ be32 st.sequence_number ++ (c.data ++ c.crc)).length
      = c.data.length + 12 := by
    simp [strBytes, hcrc]
    omega
  unfold fdATBranch
  simp only [hsl, hw1, setUint32, hlen1, be32_natCast]
  rw [if_pos (by simp), if_pos (by omega)]
  simp only [orRange, bind, Except.bind, hw2, hlen2]
  rw [if_pos (by omega)]
  simp only [hcrcw, hw3]
  simp [writeAt, pure, Except.pure]

end APNG

namespace APNG

theorem walkBody_chunk (frame_num : Nat) (pre post : List Nat) (c : Chunk) (hc : c.Readable)
    (st : State) :
    walkBody frame_num (pre ++ c.bytes ++ post) pre.length st
      = .ok (emitChunk frame_num st c, pre.length + c.bytes.length) := by
  have hlen := Chunk.bytes_length c hc
  have hfd := fdATBranch_chunk pre post c hc st
  obtain ⟨ht, hb, hcrc, hd⟩ := hc
  obtain ⟨t0, t1, t2, t3, htype⟩ := length_four ht
  have hg1 : getUint32 (pre ++ c.bytes ++ post) pre.length = some c.data.length := by
    have := getUint32_be32 pre (c.type ++ c.data ++ c.crc ++ post) c.data.length hd
    simpa [Chunk.bytes, List.append_assoc] using this
  have hg2 : getUint32 (pre ++ c.bytes ++ post) (pre.length + 4)
      = some (t0 * 16777216 + t1 * 65536 + t2 * 256 + t3) := by
    have := getUint32_at (pre ++ be32 c.data.length) (c.data ++ c.crc ++ post) t0 t1 t2 t3
    simpa [Chunk.bytes, List.append_assoc, htype] using this
  have hsl : slice (pre ++ c.bytes ++ post) pre.length (pre.length + c.data.length + 8 + 4)
      = c.bytes := by
    have h := slice_mid pre c.bytes post
    rw [hlen] at h
    have e : pre.length + c.data.length + 8 + 4 = pre.length + (c.data.length + 12) := by omega
    rw [e]
    exact h
  have hb1 : t1 < 256 := hb t1 (by simp [htype])
  have hb2 : t2 < 256 := hb t2 (by simp [htype])
  have hb3 : t3 < 256 := hb t3 (by simp [htype])
  have htag := tag_eq_IDAT t0 t1 t2 t3 hb1 hb2 hb3
  have hpos : pre.length + c.data.length + 12 = pre.length + c.bytes.length := by omega
  have hsl2 := slice_mid pre c.bytes post
  rw [List.append_assoc] at hsl2
  unfold walkBody
  simp only [hg1, hg2, orRange, bind, Except.bind, hsl, hfd, hpos]
  by_cases hI : c.isIDAT = true
  · have h1 : t0 * 16777216 + t1 * 65536 + t2 * 256 + t3 = 0x49444154 := by
      rw [htag, ← htype]
      simpa [Chunk.isIDAT] using hI
    by_cases h0 : frame_num = 0
    · simp [emitChunk, hI, h0, h1, pure, Except.pure, hsl2]
    · simp [emitChunk, hI, h0, h1, pure, Except.pure, hsl2]
  · have h1 : ¬ t0 * 16777216 + t1 * 65536 + t2 * 256 + t3 = 0x49444154 := by
      rw [htag, ← htype]
      simpa [Chunk.isIDAT] using hI
    simp [emitChunk, hI, h1, pure, Except.pure]

theorem flatten_bytes_length_pos (c : Chunk) (cs : List Chunk) (hc : c.Readable) :
    0 < ((c :: cs).map Chunk.bytes).flatten.length := by
  have := Chunk.bytes_length c hc
  simp
  omega

/-- The chunk loop over a buffer made of well-laid-out chunks applies `emitChunk` to
each of them in order and stops at the end of the buffer. -/
theorem walk_chunks (frame_num : Nat) (cs : List Chunk) :
    ∀ (pre : List Nat) (st : State) (fuel : Nat), cs ≠ [] → (∀ c ∈ cs, c.Readable) →
      cs.length ≤ fuel →
      walk frame_num (pre ++ (cs.map Chunk.bytes).flatten) fuel pre.length st
        = .ok (cs.foldl (emitChunk frame_num) st) := by
  induction cs with
  | nil => intro _ _ _ h; exact absurd rfl h
  | cons c rest ih =>
    intro pre st fuel _ hr hf
    have hc : c.Readable := hr c (List.mem_cons_self _ _)
    obtain ⟨fuel, rfl⟩ : ∃ k, fuel = k + 1 := ⟨fuel - 1, by simp at hf; omega⟩
    have hbody := walkBody_chunk frame_num pre ((rest.map Chunk.bytes).flatten) c hc st
    have hres : pre ++ ((c :: rest).map Chunk.bytes).flatten
        = pre ++ c.bytes ++ (rest.map Chunk.bytes).flatten := by simp
    rw [hres]
    unfold walk
    simp only [hbody, bind, Except.bind]
    cases rest with
    | nil => simp [pure, Except.pure]
    | cons c2 rest2 =>
      have hc2 : c2.Readable := hr c2 (by simp)
      have hpos := flatten_bytes_length_pos c2 rest2 hc2
      have hlt : ¬ (pre.length + c.bytes.length
          ≥ (pre ++ c.bytes ++ ((c2 :: rest2).map Chunk.bytes).flatten).length) := by
        simp only [List.length_append]
        omega
      rw [if_neg hlt]
      have := ih (pre ++ c.bytes) (emitChunk frame_num st c) fuel (by simp)
        (fun x hx => hr x (List.mem_cons_of_mem _ hx)) (by simp at hf ⊢; omega)
      simpa using this

end APNG

namespace APNG

/-! ## One frame, then the whole run -/

theorem mkChunk_bytes (type data : List Nat) :
    (mkChunk type data).bytes
      = be32 data.length ++ type ++ data ++ be32 (crc32 (type ++ data)) := rfl

theorem fdATChunk_bytes (seq : Nat) (data : List Nat) :
    (fdATChunk seq data).bytes
      = be32 (data.length + 4) ++ (strBytes "fdAT" ++ be32 seq ++ data
          ++ be32 (crc32 (strBytes "fdAT" ++ be32 seq ++ data))) := by
  have hl : (be32 seq ++ data).length = data.length + 4 := by
    simp
    omega
  simp only [fdATChunk, mkChunk_bytes, hl, List.append_assoc]

theorem emit_fold_zero (cs : List Chunk) :
    ∀ st : State,
      ((cs.foldl (emitChunk 0) st).chunks.flatten
          = st.chunks.flatten ++ ((cs.filter Chunk.isIDAT).map Chunk.bytes).flatten)
        ∧ (cs.foldl (emitChunk 0) st).sequence_number = st.sequence_number := by
  induction cs with
  | nil => intro st; simp
  | cons c rest ih =>
    intro st
    rw [List.foldl_cons]
    obtain ⟨h1, h2⟩ := ih (emitChunk 0 st c)
    rw [h1, h2]
    by_cases hI : c.isIDAT = true
    · simp [emitChunk, hI, List.filter_cons]
    · simp [emitChunk, hI, List.filter_cons]

theorem emit_fold_succ (k : Nat) (hk : k ≠ 0) (cs : List Chunk) :
    ∀ st : State,
      ((cs.foldl (emitChunk k) st).chunks.flatten
          = st.chunks.flatten
            ++ ((fdATChunks st.sequence_number (cs.filter Chunk.isIDAT)).map
                Chunk.bytes).flatten)
        ∧ (cs.foldl (emitChunk k) st).sequence_number
            = st.sequence_number + (cs.filter Chunk.isIDAT).length := by
  induction cs with
  | nil => intro st; simp [fdATChunks]
  | cons c rest ih =>
    intro st
    rw [List.foldl_cons]
    obtain ⟨h1, h2⟩ := ih (emitChunk k st c)
    rw [h1, h2]
    by_cases hI : c.isIDAT = true
    · simp [emitChunk, hI, hk, List.filter_cons, fdATChunks, fdATChunk_bytes]
      omega
    · simp [emitChunk, hI, List.filter_cons]

theorem length_le_flatten_bytes (cs : List Chunk) (hr : ∀ c ∈ cs, c.Readable) :
    cs.length ≤ ((cs.map Chunk.bytes).flatten).length := by
  induction cs with
  | nil => simp
  | cons c rest ih =>
    have hc := Chunk.bytes_length c (hr c (List.mem_cons_self _ _))
    have := ih (fun x hx => hr x (List.mem_cons_of_mem _ hx))
    simp at this ⊢
    omega

theorem Chunk.WF.readable {c : Chunk} (h : c.WF) : c.Readable := by
  obtain ⟨h1, h2, h3, h4⟩ := h
  exact ⟨h1, h2, h3, by omega⟩

/-- The chunk loop of `onload` on a well-formed frame. -/
theorem walk_frame (frame_num : Nat) (f : Frame) (hf : f.WF) (st : State) :
    walk frame_num f.bytes (f.bytes.length + 1) 8 st
      = .ok (f.chunks.foldl (emitChunk frame_num) st) := by
  obtain ⟨hs, hne, hc⟩ := hf
  have hr : ∀ c ∈ f.chunks, c.Readable := fun c h => (hc c h).readable
  have h := walk_chunks frame_num f.chunks f.signature st (f.bytes.length + 1) hne hr (by
    have := length_le_flatten_bytes f.chunks hr
    simp only [Frame.bytes, List.length_append]
    omega)
  rw [hs] at h
  exact h

theorem bytes_IHDRChunk (cfg : Config) : mkIHDR cfg = .ok (IHDRChunk cfg).bytes := by
  rw [mkIHDR_eq]
  simp [IHDRChunk, mkChunk_bytes, List.append_assoc]

theorem bytes_acTLChunk (n : Nat) : mkacTL n = .ok (acTLChunk n).bytes := by
  rw [mkacTL_eq]
  simp [acTLChunk, mkChunk_bytes, List.append_assoc]

theorem bytes_fcTLChunk (cfg : Config) (seq : Nat) :
    mkfcTL cfg seq = .ok (fcTLChunk cfg seq).bytes := by
  rw [mkfcTL_eq]
  simp [fcTLChunk, mkChunk_bytes, List.append_assoc]

theorem onload_zero (cfg : Config) (n : Nat) (f : Frame) (hf : f.WF) (st : State) :
    ∃ st', onload cfg n 0 f.bytes st = .ok st'
      ∧ st'.chunks.flatten = st.chunks.flatten
          ++ (([IHDRChunk cfg, acTLChunk n, fcTLChunk cfg st.sequence_number]
              ++ f.idats).map Chunk.bytes).flatten
      ∧ st'.sequence_number = st.sequence_number + 1 := by
  unfold onload
  simp only [bytes_IHDRChunk, bytes_acTLChunk, bytes_fcTLChunk, walk_frame 0 f hf]
  simp only [↓reduceIte, bind, Except.bind, pure, Except.pure]
  refine ⟨_, rfl, ?_, ?_⟩
  · rw [(emit_fold_zero f.chunks _).1]
    simp [Frame.idats]
  · rw [(emit_fold_zero f.chunks _).2]

theorem onload_succ (cfg : Config) (n k : Nat) (hk : k ≠ 0) (f : Frame) (hf : f.WF)
    (st : State) :
    ∃ st', onload cfg n k f.bytes st = .ok st'
      ∧ st'.chunks.flatten = st.chunks.flatten
          ++ ((fcTLChunk cfg st.sequence_number
              :: fdATChunks (st.sequence_number + 1) f.idats).map Chunk.bytes).flatten
      ∧ st'.sequence_number = st.sequence_number + 1 + f.idats.length := by
  unfold onload
  rw [if_neg hk]
  simp only [bytes_fcTLChunk, walk_frame k f hf]
  simp only [bind, Except.bind, pure, Except.pure]
  refine ⟨_, rfl, ?_, ?_⟩
  · rw [(emit_fold_succ k hk f.chunks _).1]
    simp [Frame.idats]
  · rw [(emit_fold_succ k hk f.chunks _).2]
    simp [Frame.idats]

theorem readFrames_rest (cfg : Config) (n : Nat) (fs : List Frame) :
    ∀ (k : Nat) (st : State), k ≠ 0 → (∀ f ∈ fs, f.WF) →
      ∃ st', readFrames cfg n (fs.map Frame.bytes) k st = .ok st'
        ∧ st'.chunks.flatten = st.chunks.flatten
            ++ ((restChunks cfg st.sequence_number fs).map Chunk.bytes).flatten := by
  induction fs with
  | nil => intro k st _ _; exact ⟨st, rfl, by simp [restChunks]⟩
  | cons f rest ih =>
    intro k st hk hwf
    obtain ⟨st1, h1, h2, h3⟩ := onload_succ cfg n k hk f (hwf f (List.mem_cons_self _ _)) st
    obtain ⟨st2, h4, h5⟩ := ih (k + 1) st1 (by omega)
      (fun x hx => hwf x (List.mem_cons_of_mem _ hx))
    refine ⟨st2, ?_, ?_⟩
    · simp only [List.map_cons, readFrames, h1, bind, Except.bind]
      exact h4
    · rw [h5, h2, h3]
      simp [restChunks]

/-- The output for well-formed frames: the signature followed by the bytes of the chunk
sequence `apngChunks`. -/
theorem createFromBlobs_wf (cfg : Config) (frames : List Frame) (hne : frames ≠ [])
    (hwf : ∀ f ∈ frames, f.WF) :
    createFromBlobs cfg (frames.map Frame.bytes)
      = .ok (header ++ ((apngChunks cfg frames).map Chunk.bytes).flatten) := by
  cases frames with
  | nil => exact absurd rfl hne
  | cons f rest =>
    obtain ⟨st1, h1, h2, h3⟩ := onload_zero cfg (rest.length + 1) f
      (hwf f (List.mem_cons_self _ _)) { chunks := [header], sequence_number := 0 }
    obtain ⟨st2, h4, h5⟩ := readFrames_rest cfg (rest.length + 1) rest 1 st1 (by omega)
      (fun x hx => hwf x (List.mem_cons_of_mem _ hx))
    have hrun : readFrames cfg (rest.length + 1) (f.bytes :: rest.map Frame.bytes) 0
        { chunks := [header], sequence_number := 0 } = .ok st2 := by
      simp only [readFrames, h1, bind, Except.bind]
      exact h4
    have hI : IEND = IENDChunk.bytes := by decide
    simp only [createFromBlobs, createFromBlobsChunks, List.map_cons, List.length_cons,
      List.length_map]
    erw [hrun]
    simp only [bind, Except.bind, pure, Except.pure, Except.map, List.flatten_append, h5, h2,
      h3, hI]
    simp [apngChunks, header]

end APNG

namespace APNG

/-! ## Reading the chunks of a buffer back -/

theorem slice_at (buf a mid post : List Nat) (i j : Nat) (hbuf : buf = a ++ mid ++ post)
    (hi : i = a.length) (hj : j = i + mid.length) : slice buf i j = mid := by
  subst hbuf hi hj
  exact slice_mid a mid post

theorem chunkWalk_chunks (cs : List Chunk) :
    ∀ (pre : List Nat) (fuel : Nat), cs ≠ [] → (∀ c ∈ cs, c.Readable) → cs.length ≤ fuel →
      chunkWalk (pre ++ (cs.map Chunk.bytes).flatten) fuel pre.length = some cs := by
  induction cs with
  | nil => intro _ _ h; exact absurd rfl h
  | cons c rest ih =>
    intro pre fuel _ hr hf
    have hc : c.Readable := hr c (List.mem_cons_self _ _)
    have hlen := Chunk.bytes_length c hc
    obtain ⟨ht, hb, hcrc, hd⟩ := hc
    obtain ⟨t0, t1, t2, t3, htype⟩ := length_four ht
    obtain ⟨fuel, rfl⟩ : ∃ k, fuel = k + 1 := ⟨fuel - 1, by simp at hf; omega⟩
    generalize hpost : (rest.map Chunk.bytes).flatten = post
    have hres : pre ++ ((c :: rest).map Chunk.bytes).flatten = pre ++ c.bytes ++ post := by
      simp [hpost]
    have hg1 : getUint32 (pre ++ c.bytes ++ post) pre.length = some c.data.length := by
      have := getUint32_be32 pre (c.type ++ c.data ++ c.crc ++ post) c.data.length hd
      simpa [Chunk.bytes, List.append_assoc] using this
    have hg2 : getUint32 (pre ++ c.bytes ++ post) (pre.length + 4)
        = some (t0 * 16777216 + t1 * 65536 + t2 * 256 + t3) := by
      have := getUint32_at (pre ++ be32 c.data.length) (c.data ++ c.crc ++ post) t0 t1 t2 t3
      simpa [Chunk.bytes, List.append_assoc, htype] using this
    have hs1 : slice (pre ++ c.bytes ++ post) (pre.length + 4) (pre.length + 8) = c.type :=
      slice_at _ (pre ++ be32 c.data.length) c.type (c.data ++ c.crc ++ post) _ _
        (by simp [Chunk.bytes, List.append_assoc]) (by simp) (by omega)
    have hs2 : slice (pre ++ c.bytes ++ post) (pre.length + 8) (pre.length + 8 + c.data.length)
        = c.data :=
      slice_at _ (pre ++ be32 c.data.length ++ c.type) c.data (c.crc ++ post) _ _
        (by simp [Chunk.bytes, List.append_assoc]) (by simp [ht]) rfl
    have hs3 : slice (pre ++ c.bytes ++ post) (pre.length + 8 + c.data.length)
        (pre.length + 8 + c.data.length + 4) = c.crc :=
      slice_at _ (pre ++ be32 c.data.length ++ c.type ++ c.data) c.crc post _ _
        (by simp [Chunk.bytes, List.append_assoc]) (by simp [ht]; omega) (by omega)
    rw [hres]
    unfold chunkWalk
    simp only [hg1, hg2, hs1, hs2, hs3]
    cases rest with
    | nil =>
      have hp : post = [] := by simpa using hpost.symm
      subst hp
      rw [if_pos (by simp only [List.length_append, List.length_nil]; omega)]
    | cons c2 rest2 =>
      have hc2 : c2.Readable := hr c2 (by simp)
      have hpos := flatten_bytes_length_pos c2 rest2 hc2
      rw [hpost] at hpos
      rw [if_neg (by simp only [List.length_append]; omega)]
      have := ih (pre ++ c.bytes) fuel (by simp)
        (fun x hx => hr x (List.mem_cons_of_mem _ hx)) (by simp at hf ⊢; omega)
      rw [hpost] at this
      have hcur : pre.length + c.data.length + 12 = (pre ++ c.bytes).length := by
        simp only [List.length_append]
        omega
      rw [hcur, this]
      rfl

/-- Reading back a signature followed by readable chunks returns those chunks. -/
theorem readChunks_bytes (sig : List Nat) (cs : List Chunk) (hs : sig.length = 8)
    (hne : cs ≠ []) (hr : ∀ c ∈ cs, c.Readable) :
    readChunks (sig ++ (cs.map Chunk.bytes).flatten) = some cs := by
  unfold readChunks
  have h := chunkWalk_chunks cs sig ((sig ++ (cs.map Chunk.bytes).flatten).length + 1) hne hr (by
    have := length_le_flatten_bytes cs hr
    simp only [List.length_append]
    omega)
  rw [hs] at h
  exact h

end APNG

namespace APNG

/-! ## The bound on the number of passes is never reached -/

theorem orRange_error {α : Type} (o : Option α) (e : Failure) (h : orRange o = .error e) :
    e = .rangeError := by
  cases o with
  | none => simp only [orRange, Except.error.injEq] at h; exact h.symm
  | some a => simp [orRange] at h

theorem fdATBranch_error (result : List Nat) (pos chunkLen : Nat) (st : State) (e : Failure)
    (h : fdATBranch result pos chunkLen st = .error e) : e = .rangeError := by
  unfold fdATBranch at h
  simp only [bind, Except.bind, pure, Except.pure] at h
  split at h
  next e1 h1 =>
    injection h with h
    subst h
    exact orRange_error _ _ h1
  next =>
    split at h
    next e2 h2 =>
      injection h with h
      subst h
      exact orRange_error _ _ h2
    next =>
      split at h
      next e3 h3 =>
        injection h with h
        subst h
        exact orRange_error _ _ h3
      next => simp at h

theorem walkBody_result (frame_num : Nat) (result : List Nat) (pos : Nat) (st : State) :
    walkBody frame_num result pos st = .error .rangeError
      ∨ ∃ st' pos', walkBody frame_num result pos st = .ok (st', pos') ∧ pos + 12 ≤ pos' := by
  unfold walkBody
  cases h1 : getUint32 result pos with
  | none => left; rfl
  | some chunkLen =>
    cases h2 : getUint32 result (pos + 4) with
    | none => left; rfl
    | some ty =>
      simp only [orRange, bind, Except.bind, pure, Except.pure]
      by_cases ht : ty = 0x49444154
      · by_cases h0 : frame_num = 0
        · right
          rw [if_pos ht, if_pos h0]
          exact ⟨_, _, rfl, by omega⟩
        · rw [if_pos ht, if_neg h0]
          cases hb : fdATBranch result pos chunkLen st with
          | error e =>
            left
            rw [fdATBranch_error _ _ _ _ _ hb]
          | ok st' =>
            right
            exact ⟨_, _, rfl, by omega⟩
      · right
        rw [if_neg ht]
        exact ⟨_, _, rfl, by omega⟩

/-- With `fuel` passes allowed and the cursor within `12 * fuel` bytes of the end, the
chunk loop ends by itself: it returns a state or raises a `RangeError`. -/
theorem walk_fuel (frame_num : Nat) (result : List Nat) :
    ∀ (fuel pos : Nat) (st : State), result.length < pos + 12 * (fuel + 1) →
      walk frame_num result (fuel + 1) pos st ≠ .error .outOfFuel := by
  intro fuel
  induction fuel with
  | zero =>
    intro pos st h
    unfold walk
    rcases walkBody_result frame_num result pos st with hb | ⟨st', pos', hb, hp⟩
    · simp [hb, bind, Except.bind]
    · simp only [hb, bind, Except.bind]
      rw [if_pos (by omega)]
      simp [pure, Except.pure]
  | succ n ih =>
    intro pos st h
    unfold walk
    rcases walkBody_result frame_num result pos st with hb | ⟨st', pos', hb, hp⟩
    · simp [hb, bind, Except.bind]
    · simp only [hb, bind, Except.bind]
      by_cases hend : pos' ≥ result.length
      · rw [if_pos hend]
        simp [pure, Except.pure]
      · rw [if_neg hend]
        exact ih pos' st' (by omega)

/-- The chunk loop as `onload` runs it never stops for lack of passes, whatever the
buffer holds. -/
theorem onload_walk_fuel (frame_num : Nat) (result : List Nat) (st : State) :
    walk frame_num result (result.length + 1) 8 st ≠ .error .outOfFuel :=
  walk_fuel frame_num result result.length 8 st (by omega)

end APNG

namespace APNG

/-! ## The table-driven checksum computes the bit-serial CRC-32 -/

theorem ToUint32_ToInt32 (n : Nat) (hn : n < 4294967296) : ToUint32 (ToInt32 (n : Int)) = n := by
  unfold ToInt32
  rw [ToUint32_natCast, Nat.mod_eq_of_lt hn]
  split
  · rw [ToUint32_natCast, Nat.mod_eq_of_lt hn]
  · unfold ToUint32
    omega

theorem ToUint32_jsXor (a b : Int) : ToUint32 (jsXor a b) = ToUint32 a ^^^ ToUint32 b := by
  unfold jsXor
  exact ToUint32_ToInt32 _ (Nat.xor_lt_two_pow (n := 32) (ToUint32_lt a) (ToUint32_lt b))

theorem ToUint32_jsAnd (a b : Int) : ToUint32 (jsAnd a b) = ToUint32 a &&& ToUint32 b := by
  unfold jsAnd
  exact ToUint32_ToInt32 _ (Nat.and_lt_two_pow (n := 32) _ (ToUint32_lt b))

theorem ToUint32_jsUshr (a : Int) (k : Nat) :
    ToUint32 (jsUshr a k) = ToUint32 a >>> (k % 32) := by
  unfold jsUshr
  rw [ToUint32_natCast]
  apply Nat.mod_eq_of_lt
  rw [Nat.shiftRight_eq_div_pow]
  exact lt_of_le_of_lt (Nat.div_le_self _ _) (ToUint32_lt a)

theorem jsAnd_one_ne_zero (c : Int) : jsAnd c 1 ≠ 0 ↔ ToUint32 c % 2 = 1 := by
  have h1 : ToUint32 (1 : Int) = 1 := by decide
  have h2 : Nat.land (ToUint32 c) 1 = ToUint32 c % 2 := Nat.and_one_is_mod _
  unfold jsAnd
  rw [h1, h2]
  rcases Nat.mod_two_eq_zero_or_one (ToUint32 c) with h | h
  · rw [h]
    simp [ToInt32, ToUint32]
  · rw [h]
    simp [ToInt32, ToUint32]

theorem ToUint32_tableStep (c : Int) : ToUint32 (tableStep c) = crcBitStep (ToUint32 c) := by
  have hP : ToUint32 (3988292384 : Int) = 3988292384 := by decide
  unfold tableStep crcBitStep
  by_cases h : ToUint32 c % 2 = 1
  · rw [if_pos ((jsAnd_one_ne_zero c).2 h), if_pos h, ToUint32_jsXor, ToUint32_jsUshr, hP,
      Nat.xor_comm]
  · rw [if_neg (fun hh => h ((jsAnd_one_ne_zero c).1 hh)), if_neg h, ToUint32_jsUshr]

theorem ToUint32_tableStep_iterate (k : Nat) (c : Int) :
    ToUint32 (tableStep^[k] c) = crcBitStep^[k] (ToUint32 c) := by
  induction k with
  | zero => rfl
  | succ k ih =>
    rw [Function.iterate_succ_apply', Function.iterate_succ_apply', ToUint32_tableStep, ih]

theorem tableEntry_eq (n : Nat) (hn : n < 4294967296) : tableEntry n = crcBitStep^[8] n := by
  unfold tableEntry
  rw [ToUint32_tableStep_iterate, ToUint32_natCast, Nat.mod_eq_of_lt hn]

theorem _crcTable_getD (n : Nat) (hn : n < 256) : _crcTable.getD n 0 = tableEntry n := by
  unfold _crcTable
  rw [List.getD_eq_getElem?_getD, List.getElem?_map, List.getElem?_range hn]
  rfl

end APNG

namespace APNG

theorem shiftRight_one_xor (a b : Nat) : (a ^^^ b) >>> 1 = (a >>> 1) ^^^ (b >>> 1) := by
  apply Nat.eq_of_testBit_eq
  intro i
  simp only [Nat.testBit_shiftRight, Nat.testBit_xor]

theorem crcBitStep_xor (a b : Nat) : crcBitStep (a ^^^ b) = crcBitStep a ^^^ crcBitStep b := by
  have hbit : decide ((a ^^^ b) % 2 = 1) = xor (decide (a % 2 = 1)) (decide (b % 2 = 1)) := by
    rw [← Nat.testBit_zero, ← Nat.testBit_zero, ← Nat.testBit_zero, Nat.testBit_xor]
  unfold crcBitStep
  rw [shiftRight_one_xor]
  by_cases ha : a % 2 = 1 <;> by_cases hb : b % 2 = 1
  · have hab : ¬ (a ^^^ b) % 2 = 1 := by simpa [ha, hb] using hbit
    rw [if_neg hab, if_pos ha, if_pos hb]
    rw [Nat.xor_assoc, ← Nat.xor_assoc 3988292384, Nat.xor_comm 3988292384 (b >>> 1),
      Nat.xor_assoc (b >>> 1), Nat.xor_self, Nat.xor_zero]
  · have hab : (a ^^^ b) % 2 = 1 := by simpa [ha, hb] using hbit
    rw [if_pos hab, if_pos ha, if_neg hb]
    rw [Nat.xor_assoc, Nat.xor_assoc, Nat.xor_comm (b >>> 1)]
  · have hab : (a ^^^ b) % 2 = 1 := by simpa [ha, hb] using hbit
    rw [if_pos hab, if_neg ha, if_pos hb, Nat.xor_assoc]
  · have hab : ¬ (a ^^^ b) % 2 = 1 := by simpa [ha, hb] using hbit
    rw [if_neg hab, if_neg ha, if_neg hb]

theorem crcBitStep_iterate_xor (k a b : Nat) :
    crcBitStep^[k] (a ^^^ b) = crcBitStep^[k] a ^^^ crcBitStep^[k] b := by
  induction k with
  | zero => rfl
  | succ k ih =>
    rw [Function.iterate_succ_apply', Function.iterate_succ_apply',
      Function.iterate_succ_apply', ih, crcBitStep_xor]

theorem crcBitStep_shiftLeft_succ (y k : Nat) : crcBitStep (y <<< (k + 1)) = y <<< k := by
  have h : y <<< (k + 1) = (y <<< k) * 2 := by
    rw [Nat.shiftLeft_eq, Nat.shiftLeft_eq, pow_succ, Nat.mul_assoc]
  unfold crcBitStep
  rw [h, Nat.shiftRight_eq_div_pow, pow_one]
  generalize y <<< k = z
  rw [if_neg (by omega)]
  omega

theorem crcBitStep_iterate_shiftLeft (k y : Nat) : crcBitStep^[k] (y <<< k) = y := by
  induction k with
  | zero => rfl
  | succ k ih => rw [Function.iterate_succ_apply, crcBitStep_shiftLeft_succ, ih]

theorem split_low_byte (x : Nat) : x = (x &&& 255) ^^^ ((x >>> 8) <<< 8) := by
  apply Nat.eq_of_testBit_eq
  intro i
  have h255 : (255 : Nat) = 2 ^ 8 - 1 := rfl
  rw [Nat.testBit_xor, h255, Nat.and_pow_two_sub_one_eq_mod, Nat.testBit_mod_two_pow,
    Nat.testBit_shiftLeft, Nat.testBit_shiftRight]
  by_cases hi : i < 8
  · have h8 : ¬ 8 ≤ i := by omega
    simp [hi, h8]
  · have : 8 + (i - 8) = i := by omega
    simp [hi, this]
    omega

/-- Eight bit steps on a value equal a table lookup on its low byte combined with the
value shifted right by 8. -/
theorem crcBitStep_eight (x : Nat) :
    crcBitStep^[8] x = crcBitStep^[8] (x &&& 255) ^^^ (x >>> 8) := by
  conv_lhs => rw [split_low_byte x]
  rw [crcBitStep_iterate_xor, crcBitStep_iterate_shiftLeft]

end APNG

namespace APNG

theorem ToInt32_small (n : Nat) (hn : n < 2147483648) : ToInt32 (n : Int) = (n : Int) := by
  unfold ToInt32
  rw [ToUint32_natCast, Nat.mod_eq_of_lt (by omega), if_pos hn]

theorem shiftRight_eight_xor_byte (u b : Nat) (hb : b < 256) : (u ^^^ b) >>> 8 = u >>> 8 := by
  apply Nat.eq_of_testBit_eq
  intro i
  have hlt : b < 2 ^ (8 + i) :=
    lt_of_lt_of_le hb (by
      have : 2 ^ 8 ≤ 2 ^ (8 + i) := Nat.pow_le_pow_right (by decide) (by omega)
      simpa using this)
  simp only [Nat.testBit_shiftRight, Nat.testBit_xor, Nat.testBit_lt_two_pow hlt,
    Bool.xor_false]

theorem ToUint32_crcStep (buf : List Nat) (off : Nat) (c : Int) (i : Nat)
    (hb : buf.getD (off + i) 0 < 256) :
    ToUint32 (crcStep buf off c i) = crcBitByte (ToUint32 c) (buf.getD (off + i) 0) := by
  have h255 : ToUint32 (255 : Int) = 255 := by decide
  have hbyte : ToUint32 (byteAt buf (off + i)) = buf.getD (off + i) 0 := by
    unfold byteAt
    rw [ToUint32_natCast, Nat.mod_eq_of_lt (by omega)]
  have hidxlt : (ToUint32 c ^^^ buf.getD (off + i) 0) &&& 255 < 256 :=
    Nat.and_lt_two_pow (n := 8) _ (by decide)
  have hidx : (jsAnd (jsXor c (byteAt buf (off + i))) 255).toNat
      = (ToUint32 c ^^^ buf.getD (off + i) 0) &&& 255 := by
    unfold jsAnd
    rw [ToUint32_jsXor, hbyte, h255]
    show (ToInt32 (((ToUint32 c ^^^ buf.getD (off + i) 0) &&& 255 : Nat) : Int)).toNat = _
    rw [ToInt32_small _ (by omega)]
    rfl
  unfold crcStep crcBitByte
  rw [ToUint32_jsXor, ToUint32_jsUshr, hidx, _crcTable_getD _ hidxlt, ToUint32_natCast,
    Nat.mod_eq_of_lt (by unfold tableEntry; exact ToUint32_lt _),
    tableEntry_eq _ (by omega), crcBitStep_eight (ToUint32 c ^^^ buf.getD (off + i) 0),
    shiftRight_eight_xor_byte _ _ hb]

theorem ToUint32_crcUpdate (buf : List Nat) (hbuf : ∀ x ∈ buf, x < 256) (off : Nat) (c : Int) :
    ∀ len, off + len ≤ buf.length →
      ToUint32 (_crcUpdate c buf off len)
        = ((buf.drop off).take len).foldl crcBitByte (ToUint32 c) := by
  intro len
  induction len with
  | zero => intro _; simp [_crcUpdate]
  | succ n ih =>
    intro h
    have hlt : off + n < buf.length := by omega
    have hget : buf.getD (off + n) 0 = buf[off + n] := by
      rw [List.getD_eq_getElem?_getD, List.getElem?_eq_getElem hlt]
      rfl
    have hb : buf.getD (off + n) 0 < 256 := by
      rw [hget]
      exact hbuf _ (List.getElem_mem _)
    have htake : (buf.drop off).take (n + 1)
        = (buf.drop off).take n ++ [buf.getD (off + n) 0] := by
      rw [List.take_succ, List.getElem?_drop, List.getElem?_eq_getElem hlt, hget]
      rfl
    have hstep : _crcUpdate c buf off (n + 1) = crcStep buf off (_crcUpdate c buf off n) n := by
      unfold _crcUpdate
      rw [List.range_succ, List.foldl_append]
      rfl
    rw [hstep, ToUint32_crcStep buf off _ n hb, ih (by omega), htake, List.foldl_append]
    rfl

end APNG

namespace APNG

/-! ## Checksum engine: the claims -/

/-- C3: for a byte array `b` and a range `o + l ≤ b.length`, the table-driven `_crc(b, o, l)`
read as an unsigned 32-bit value equals the bit-serial reflected CRC-32 of the bytes
`b[o..o+l)`: initial value `0xFFFFFFFF`, each byte XORed into the low byte followed by 8
steps of shift right by 1 with XOR `0xEDB88320` when the bit shifted out was 1, final XOR
with `0xFFFFFFFF`. -/
theorem crc_refines_bit_serial (b : List Nat) (hb : ∀ x ∈ b, x < 256) (o l : Nat)
    (h : o + l ≤ b.length) :
    ToUint32 (_crc b o l) = crc32BitSerial ((b.drop o).take l) := by
  have hF : ToUint32 (4294967295 : Int) = 4294967295 := by decide
  unfold _crc crc32BitSerial
  rw [ToUint32_jsXor, ToUint32_crcUpdate b hb o _ l h, hF]

theorem crc_refines_bit_serial_witness :
    (∀ x ∈ [7, 49, 50, 51, 9], x < 256) ∧ 1 + 3 ≤ [7, 49, 50, 51, 9].length
      ∧ ToUint32 (_crc [7, 49, 50, 51, 9] 1 3)
          = crc32BitSerial (([7, 49, 50, 51, 9].drop 1).take 3) :=
  ⟨by decide, by decide, crc_refines_bit_serial [7, 49, 50, 51, 9] (by decide) 1 3 (by decide)⟩

set_option maxRecDepth 100000 in
/-- C4, as stated, fails: on the 9 ASCII bytes of "123456789" the number `_crc` returns is
not `0xCBF43926` (3421780262); the final `^ 0xffffffff` yields a signed 32-bit number. -/
theorem crc_check_value_is_signed :
    _crc [49, 50, 51, 52, 53, 54, 55, 56, 57] 0 9 ≠ 3421780262 := by decide

set_option maxRecDepth 100000 in
/-- C4, amended: on the 9 ASCII bytes of "123456789" `_crc` returns the signed 32-bit
number -873187034, whose unsigned 32-bit reading (the value a `setUint32` store writes) is
`0xCBF43926`; on an empty range (length 0, any buffer and offset) it returns 0. -/
theorem crc_check_value :
    _crc [49, 50, 51, 52, 53, 54, 55, 56, 57] 0 9 = -873187034
      ∧ ToUint32 (_crc [49, 50, 51, 52, 53, 54, 55, 56, 57] 0 9) = 0xCBF43926
      ∧ ∀ (b : List Nat) (o : Nat), _crc b o 0 = 0 := by
  refine ⟨by decide, by decide, ?_⟩
  intro b o
  show jsXor 4294967295 4294967295 = 0
  decide

end APNG

namespace APNG

/-! ## The chunks of the output are readable -/

theorem strBytes_lt (tag : String) : ∀ b ∈ strBytes tag, b < 256 := by
  intro b hb
  unfold strBytes at hb
  obtain ⟨ch, _, rfl⟩ := List.mem_map.mp hb
  exact Nat.mod_lt _ (by decide)

theorem mkChunk_readable (tag : String) (data : List Nat) (ht : (strBytes tag).length = 4)
    (hd : data.length < 4294967296) : (mkChunk (strBytes tag) data).Readable :=
  ⟨ht, strBytes_lt tag, rfl, hd⟩

theorem IHDRChunk_readable (cfg : Config) : (IHDRChunk cfg).Readable :=
  mkChunk_readable "IHDR" _ rfl (by simp)

theorem acTLChunk_readable (n : Nat) : (acTLChunk n).Readable :=
  mkChunk_readable "acTL" _ rfl (by simp)

theorem fcTLChunk_readable (cfg : Config) (seq : Nat) : (fcTLChunk cfg seq).Readable :=
  mkChunk_readable "fcTL" _ rfl (by simp)

theorem IENDChunk_readable : IENDChunk.Readable := by decide

theorem fdATChunk_readable (seq : Nat) (data : List Nat) (hd : data.length < 2147483648) :
    (fdATChunk seq data).Readable :=
  mkChunk_readable "fdAT" _ rfl (by simp; omega)

theorem mem_idats {f : Frame} {c : Chunk} (h : c ∈ f.idats) :
    c ∈ f.chunks ∧ c.type = [0x49, 0x44, 0x41, 0x54] := by
  unfold Frame.idats at h
  obtain ⟨h1, h2⟩ := List.mem_filter.mp h
  exact ⟨h1, by simpa [Chunk.isIDAT] using h2⟩

theorem idats_wf {f : Frame} (hf : f.WF) : ∀ c ∈ f.idats, c.WF :=
  fun c hc => hf.2.2 c (mem_idats hc).1

theorem fdATChunks_readable (cs : List Chunk) :
    ∀ seq, (∀ c ∈ cs, c.WF) → ∀ x ∈ fdATChunks seq cs, x.Readable := by
  induction cs with
  | nil => intro _ _ x hx; simp [fdATChunks] at hx
  | cons c rest ih =>
    intro seq hwf x hx
    simp only [fdATChunks, List.mem_cons] at hx
    rcases hx with rfl | hx
    · exact fdATChunk_readable seq c.data (hwf c (List.mem_cons_self _ _)).2.2.2
    · exact ih (seq + 1) (fun y hy => hwf y (List.mem_cons_of_mem _ hy)) x hx

theorem restChunks_readable (cfg : Config) (fs : List Frame) :
    ∀ seq, (∀ f ∈ fs, f.WF) → ∀ x ∈ restChunks cfg seq fs, x.Readable := by
  induction fs with
  | nil => intro _ _ x hx; simp [restChunks] at hx
  | cons f rest ih =>
    intro seq hwf x hx
    simp only [restChunks, List.cons_append, List.mem_cons, List.mem_append] at hx
    rcases hx with rfl | hx | hx
    · exact fcTLChunk_readable cfg seq
    · exact fdATChunks_readable f.idats (seq + 1) (idats_wf (hwf f (List.mem_cons_self _ _))) x hx
    · exact ih _ (fun y hy => hwf y (List.mem_cons_of_mem _ hy)) x hx

theorem apngChunks_readable (cfg : Config) (frames : List Frame) (hwf : ∀ f ∈ frames, f.WF) :
    ∀ x ∈ apngChunks cfg frames, x.Readable := by
  cases frames with
  | nil => intro x hx; simp [apngChunks] at hx
  | cons f rest =>
    intro x hx
    simp only [apngChunks, List.cons_append, List.nil_append, List.mem_cons, List.mem_append,
      List.mem_singleton] at hx
    rcases hx with rfl | rfl | rfl | hx
    · exact IHDRChunk_readable cfg
    · exact acTLChunk_readable _
    · exact fcTLChunk_readable cfg 0
    · rcases hx with (hx | hx) | hx
      · exact (idats_wf (hwf f (List.mem_cons_self _ _)) x hx).readable
      · exact restChunks_readable cfg rest 1 (fun y hy => hwf y (List.mem_cons_of_mem _ hy)) x hx
      · rcases hx with rfl | hx
        · exact IENDChunk_readable
        · exact absurd hx (List.not_mem_nil _)

theorem apngChunks_ne_nil (cfg : Config) (frames : List Frame) (hne : frames ≠ []) :
    apngChunks cfg frames ≠ [] := by
  cases frames with
  | nil => exact absurd rfl hne
  | cons f rest => simp [apngChunks]

/-- For well-formed frames the run succeeds, and reading the chunks of its output back
gives `apngChunks`. -/
theorem output_chunks (cfg : Config) (frames : List Frame) (hne : frames ≠ [])
    (hwf : ∀ f ∈ frames, f.WF) :
    ∃ out, createFromBlobs cfg (frames.map Frame.bytes) = .ok out
      ∧ out = header ++ ((apngChunks cfg frames).map Chunk.bytes).flatten
      ∧ readChunks out = some (apngChunks cfg frames) :=
  ⟨_, createFromBlobs_wf cfg frames hne hwf, rfl,
    readChunks_bytes header _ rfl (apngChunks_ne_nil cfg frames hne)
      (apngChunks_readable cfg frames hwf)⟩

end APNG

namespace APNG

/-! ## Counting chunk types -/

theorem countType_append (tag : String) (a b : List Chunk) :
    countType tag (a ++ b) = countType tag a + countType tag b := by
  unfold countType
  exact List.countP_append _ _ _

theorem countType_cons (tag : String) (c : Chunk) (cs : List Chunk) :
    countType tag (c :: cs) = countType tag cs + if c.type = strBytes tag then 1 else 0 := by
  unfold countType
  rw [List.countP_cons]
  simp

theorem countType_nil (tag : String) : countType tag [] = 0 := rfl

theorem countType_of_type (tag : String) (ty : List Nat) (cs : List Chunk)
    (h : ∀ c ∈ cs, c.type = ty) :
    countType tag cs = if ty = strBytes tag then cs.length else 0 := by
  induction cs with
  | nil => simp [countType_nil]
  | cons c rest ih =>
    rw [countType_cons, ih (fun x hx => h x (List.mem_cons_of_mem _ hx)),
      h c (List.mem_cons_self _ _)]
    by_cases ht : ty = strBytes tag <;> simp [ht]

theorem fdATChunks_type (cs : List Chunk) :
    ∀ seq, ∀ x ∈ fdATChunks seq cs, x.type = strBytes "fdAT" := by
  induction cs with
  | nil => intro _ x hx; simp [fdATChunks] at hx
  | cons c rest ih =>
    intro seq x hx
    simp only [fdATChunks, List.mem_cons] at hx
    rcases hx with rfl | hx
    · rfl
    · exact ih _ x hx

theorem fdATChunks_length (cs : List Chunk) : ∀ seq, (fdATChunks seq cs).length = cs.length := by
  induction cs with
  | nil => intro _; rfl
  | cons c rest ih => intro seq; simp [fdATChunks, ih]

theorem countType_idats (tag : String) (f : Frame) :
    countType tag f.idats
      = if [0x49, 0x44, 0x41, 0x54] = strBytes tag then f.idats.length else 0 :=
  countType_of_type tag _ f.idats (fun _ hc => (mem_idats hc).2)

theorem countType_fdATChunks (tag : String) (seq : Nat) (cs : List Chunk) :
    countType tag (fdATChunks seq cs)
      = if strBytes "fdAT" = strBytes tag then cs.length else 0 := by
  rw [countType_of_type tag _ _ (fdATChunks_type cs seq), fdATChunks_length]

theorem idatTotal_cons (f : Frame) (fs : List Frame) :
    idatTotal (f :: fs) = f.idats.length + idatTotal fs := by
  simp [idatTotal]

theorem idatTotal_nil : idatTotal [] = 0 := rfl

theorem countType_restChunks (tag : String) (cfg : Config) (fs : List Frame) :
    ∀ seq, countType tag (restChunks cfg seq fs)
      = (if strBytes "fcTL" = strBytes tag then fs.length else 0)
        + (if strBytes "fdAT" = strBytes tag then idatTotal fs else 0) := by
  induction fs with
  | nil => intro _; simp [restChunks, countType_nil, idatTotal_nil]
  | cons f rest ih =>
    intro seq
    have hty : (fcTLChunk cfg seq).type = strBytes "fcTL" := rfl
    rw [restChunks, List.cons_append, countType_cons, countType_append, countType_fdATChunks, ih,
      idatTotal_cons, hty]
    by_cases h1 : strBytes "fcTL" = strBytes tag <;>
      by_cases h2 : strBytes "fdAT" = strBytes tag <;> simp [h1, h2]
    all_goals omega

/-- The number of chunks of each type in the chunk sequence of the output. -/
theorem countType_apngChunks (tag : String) (cfg : Config) (f : Frame) (fs : List Frame) :
    countType tag (apngChunks cfg (f :: fs))
      = (if strBytes "IHDR" = strBytes tag then 1 else 0)
        + (if strBytes "acTL" = strBytes tag then 1 else 0)
        + (if strBytes "fcTL" = strBytes tag then fs.length + 1 else 0)
        + (if [0x49, 0x44, 0x41, 0x54] = strBytes tag then f.idats.length else 0)
        + (if strBytes "fdAT" = strBytes tag then idatTotal fs else 0)
        + (if strBytes "IEND" = strBytes tag then 1 else 0) := by
  have h1 : (IHDRChunk cfg).type = strBytes "IHDR" := rfl
  have h2 : (acTLChunk (fs.length + 1)).type = strBytes "acTL" := rfl
  have h3 : (fcTLChunk cfg 0).type = strBytes "fcTL" := rfl
  have h4 : IENDChunk.type = strBytes "IEND" := rfl
  simp only [apngChunks, List.cons_append, List.nil_append, countType_cons, countType_append,
    countType_idats, countType_restChunks, countType_nil, h1, h2, h3, h4]
  by_cases c3 : strBytes "fcTL" = strBytes tag <;> simp [c3] <;> omega

end APNG

namespace APNG

/-! ## Sequence numbers read from the output -/

theorem seqNumbers_append (a b : List Chunk) :
    seqNumbers (a ++ b) = seqNumbers a ++ seqNumbers b := by
  unfold seqNumbers
  exact List.filterMap_append _ _ _

theorem seqNumbers_cons_other (c : Chunk) (cs : List Chunk)
    (h1 : c.type ≠ strBytes "fcTL") (h2 : c.type ≠ strBytes "fdAT") :
    seqNumbers (c :: cs) = seqNumbers cs := by
  unfold seqNumbers
  rw [List.filterMap_cons]
  simp [h1, h2]

theorem getUint32_seq (seq : Nat) (rest : List Nat) (h : seq < 4294967296) :
    getUint32 (be32 seq ++ rest) 0 = some seq := by
  have := getUint32_be32 [] rest seq h
  simpa using this

theorem seqNumbers_cons_fcTL (cfg : Config) (seq : Nat) (cs : List Chunk)
    (h : seq < 4294967296) :
    seqNumbers (fcTLChunk cfg seq :: cs) = seq :: seqNumbers cs := by
  have hg : getUint32 (fcTLChunk cfg seq).data 0 = some seq := by
    have := getUint32_seq seq (be32 cfg.VIDEO_WIDTH ++ be32 cfg.VIDEO_HEIGHT
      ++ be32 0 ++ be32 0 ++ be16 (1000 / cfg.VIDEO_FPS) ++ be16 1000 ++ [0, 0]) h
    simpa [fcTLChunk, mkChunk, List.append_assoc] using this
  have ht : (fcTLChunk cfg seq).type = strBytes "fcTL" := rfl
  unfold seqNumbers
  rw [List.filterMap_cons, ht, hg]
  simp

theorem seqNumbers_cons_fdAT (seq : Nat) (data : List Nat) (cs : List Chunk)
    (h : seq < 4294967296) :
    seqNumbers (fdATChunk seq data :: cs) = seq :: seqNumbers cs := by
  have hg : getUint32 (fdATChunk seq data).data 0 = some seq := getUint32_seq seq data h
  have ht : (fdATChunk seq data).type = strBytes "fdAT" := rfl
  unfold seqNumbers
  rw [List.filterMap_cons, ht, hg]
  simp

theorem seqNumbers_idats (f : Frame) : seqNumbers f.idats = [] := by
  unfold seqNumbers
  rw [List.filterMap_eq_nil_iff]
  intro c hc
  have ht := (mem_idats hc).2
  have h1 : c.type ≠ strBytes "fcTL" := by rw [ht]; decide
  have h2 : c.type ≠ strBytes "fdAT" := by rw [ht]; decide
  simp [h1, h2]

theorem seqNumbers_fdATChunks (cs : List Chunk) :
    ∀ seq, seq + cs.length ≤ 4294967296 →
      seqNumbers (fdATChunks seq cs) = List.range' seq cs.length := by
  induction cs with
  | nil => intro _ _; rfl
  | cons c rest ih =>
    intro seq h
    simp only [List.length_cons] at h
    rw [fdATChunks, seqNumbers_cons_fdAT _ _ _ (by omega), ih (seq + 1) (by omega)]
    rfl

theorem seqNumbers_restChunks (cfg : Config) (fs : List Frame) :
    ∀ seq, seq + fs.length + idatTotal fs ≤ 4294967296 →
      seqNumbers (restChunks cfg seq fs) = List.range' seq (fs.length + idatTotal fs) := by
  induction fs with
  | nil => intro _ _; rfl
  | cons f rest ih =>
    intro seq h
    rw [idatTotal_cons] at h ⊢
    simp only [List.length_cons] at h ⊢
    rw [restChunks, List.cons_append, seqNumbers_cons_fcTL _ _ _ (by omega), seqNumbers_append,
      seqNumbers_fdATChunks _ _ (by omega), ih _ (by omega)]
    have e : rest.length + 1 + (f.idats.length + idatTotal rest)
        = ((rest.length + idatTotal rest) + f.idats.length) + 1 := by omega
    have e2 : List.range' (seq + 1) ((rest.length + idatTotal rest) + f.idats.length)
        = List.range' (seq + 1) f.idats.length
          ++ List.range' (seq + 1 + f.idats.length) (rest.length + idatTotal rest) :=
      (List.range'_append_1 _ _ _).symm
    rw [e, List.range'_succ, e2]

end APNG

namespace APNG

/-! ## Where each frame lands in the chunk sequence -/

theorem fdATChunks_getElem? (cs : List Chunk) :
    ∀ (seq j : Nat) (c : Chunk), cs[j]? = some c →
      (fdATChunks seq cs)[j]? = some (fdATChunk (seq + j) c.data) := by
  induction cs with
  | nil => intro _ j c h; simp at h
  | cons x rest ih =>
    intro seq j c h
    cases j with
    | zero =>
      simp only [List.getElem?_cons_zero, Option.some.injEq] at h
      subst h
      simp [fdATChunks]
    | succ j =>
      simp only [List.getElem?_cons_succ] at h
      have := ih (seq + 1) j c h
      simp only [fdATChunks, List.getElem?_cons_succ, this]
      congr 2
      omega

theorem restChunks_segment (cfg : Config) (fs : List Frame) :
    ∀ (seq i : Nat) (f : Frame), fs[i]? = some f →
      ∃ pre post, restChunks cfg seq fs
          = pre ++ (fcTLChunk cfg (seq + i + idatTotal (fs.take i))
              :: fdATChunks (seq + i + idatTotal (fs.take i) + 1) f.idats) ++ post
        ∧ pre.length = i + idatTotal (fs.take i) := by
  induction fs with
  | nil => intro _ i f h; simp at h
  | cons g rest ih =>
    intro seq i f h
    cases i with
    | zero =>
      simp only [List.getElem?_cons_zero, Option.some.injEq] at h
      subst h
      exact ⟨[], restChunks cfg (seq + 1 + g.idats.length) rest, by
        simp [restChunks, idatTotal_nil], by simp [idatTotal_nil]⟩
    | succ i =>
      simp only [List.getElem?_cons_succ] at h
      obtain ⟨pre, post, h1, h2⟩ := ih (seq + 1 + g.idats.length) i f h
      have e : seq + (i + 1) + idatTotal ((g :: rest).take (i + 1))
          = seq + 1 + g.idats.length + i + idatTotal (rest.take i) := by
        rw [List.take_succ_cons, idatTotal_cons]
        omega
      refine ⟨fcTLChunk cfg seq :: fdATChunks (seq + 1) g.idats ++ pre, post, ?_, ?_⟩
      · rw [e, restChunks, h1]
        simp
      · rw [List.take_succ_cons, idatTotal_cons]
        simp [fdATChunks_length, h2]
        omega

/-- The chunks for frame `i` in the chunk sequence of the output: its `fcTL` at index
`fcTLIndex`, numbered `fcTLSeq`, followed by its data chunks. -/
theorem apngChunks_segment (cfg : Config) (frames : List Frame) (i : Nat) (f : Frame)
    (h : frames[i]? = some f) :
    ∃ pre post, apngChunks cfg frames
        = pre ++ (fcTLChunk cfg (fcTLSeq frames i)
            :: (if i = 0 then f.idats else fdATChunks (fcTLSeq frames i + 1) f.idats)) ++ post
      ∧ pre.length = fcTLIndex frames i := by
  cases frames with
  | nil => simp at h
  | cons f0 rest =>
    cases i with
    | zero =>
      simp only [List.getElem?_cons_zero, Option.some.injEq] at h
      subst h
      exact ⟨[IHDRChunk cfg, acTLChunk (rest.length + 1)], restChunks cfg 1 rest ++ [IENDChunk],
        by simp [apngChunks, fcTLSeq, idatTotal_nil], by simp [fcTLIndex, idatTotal_nil]⟩
    | succ k =>
      simp only [List.getElem?_cons_succ] at h
      obtain ⟨pre, post, h1, h2⟩ := restChunks_segment cfg rest 1 k f h
      have e : fcTLSeq (f0 :: rest) (k + 1) = 1 + k + idatTotal (rest.take k) := by
        simp [fcTLSeq]
        omega
      refine ⟨[IHDRChunk cfg, acTLChunk (rest.length + 1), fcTLChunk cfg 0] ++ f0.idats ++ pre,
        post ++ [IENDChunk], ?_, ?_⟩
      · rw [e, apngChunks, h1]
        simp
      · simp [fcTLIndex, idatTotal_cons, h2]
        omega

theorem getElem?_of_segment {α : Type} (l pre post : List α) (x : α) (n : Nat)
    (h : l = pre ++ x :: post) (hn : pre.length = n) : l[n]? = some x := by
  subst h hn
  rw [List.getElem?_append_right (Nat.le_refl _)]
  simp

theorem take_drop_of_segment {α : Type} (l pre mid post : List α) (n : Nat)
    (h : l = pre ++ mid ++ post) (hn : pre.length = n) :
    (l.drop n).take mid.length = mid := by
  subst h hn
  simp

end APNG

namespace APNG

/-! ## The muxer: the claims -/

theorem getElem?_in_segment {α : Type} (l pre mid post : List α) (a x : α) (n j : Nat)
    (h : l = pre ++ (a :: mid) ++ post) (hn : pre.length = n) (hj : mid[j]? = some x) :
    l[n + 1 + j]? = some x := by
  subst h hn
  have hlt : j < mid.length := (List.getElem?_eq_some_iff.mp hj).1
  rw [List.append_assoc, List.getElem?_append_right (by omega)]
  have e : pre.length + 1 + j - pre.length = j + 1 := by omega
  rw [e, List.cons_append, List.getElem?_cons_succ, List.getElem?_append_left hlt, hj]

theorem mem_of_getElem?_eq {α : Type} {l : List α} {n : Nat} {a : α} (h : l[n]? = some a) :
    a ∈ l := by
  obtain ⟨hlt, rfl⟩ := List.getElem?_eq_some_iff.mp h
  exact List.getElem_mem _

theorem ne_nil_of_getElem? {α : Type} {l : List α} {n : Nat} {a : α} (h : l[n]? = some a) :
    l ≠ [] := by
  intro hl
  subst hl
  simp at h

/-- C1: for well-formed frames, a frame `i ≥ 1` of the run (so there are at least two
frames) and its `j`-th `IDAT` chunk `c` with payload `P = c.data` of declared length `L`,
the run succeeds and the chunk at index `fcTLIndex frames i + 1 + j` of the output has
exactly the bytes `BE32(L+4) ++ 'fdAT' ++ BE32(s) ++ P ++ BE32(crc32('fdAT' ++ BE32(s) ++ P))`
with `s = fcTLSeq frames i + 1 + j` the sequence number assigned to it: the payload is
passed through unchanged, the length field read back is `L + 4`, and the checksum is
computed over the new type and data. -/
theorem fdAT_chunk_bytes (cfg : Config) (frames : List Frame) (hwf : ∀ f ∈ frames, f.WF)
    (i j : Nat) (f : Frame) (c : Chunk) (hi : 1 ≤ i) (hf : frames[i]? = some f)
    (hc : f.idats[j]? = some c) :
    ∃ out cs x,
      createFromBlobs cfg (frames.map Frame.bytes) = .ok out
        ∧ out = header ++ (cs.map Chunk.bytes).flatten
        ∧ readChunks out = some cs
        ∧ cs[fcTLIndex frames i + 1 + j]? = some x
        ∧ x.bytes = be32 (c.data.length + 4) ++ strBytes "fdAT"
            ++ be32 (fcTLSeq frames i + 1 + j) ++ c.data
            ++ be32 (crc32 (strBytes "fdAT" ++ be32 (fcTLSeq frames i + 1 + j) ++ c.data))
        ∧ getUint32 x.bytes 0 = some (c.data.length + 4) := by
  obtain ⟨out, h1, h2, h3⟩ := output_chunks cfg frames (ne_nil_of_getElem? hf) hwf
  obtain ⟨pre, post, h4, h5⟩ := apngChunks_segment cfg frames i f hf
  rw [if_neg (by omega)] at h4
  have h6 := fdATChunks_getElem? f.idats (fcTLSeq frames i + 1) j c hc
  have h7 := getElem?_in_segment _ pre _ post _ _ _ j h4 h5 h6
  have hL : c.data.length < 2147483648 :=
    (idats_wf (hwf f (mem_of_getElem?_eq hf)) c (mem_of_getElem?_eq hc)).2.2.2
  refine ⟨out, apngChunks cfg frames, _, h1, h2, h3, h7, ?_, ?_⟩
  · rw [fdATChunk_bytes]
    simp only [List.append_assoc]
  · rw [fdATChunk_bytes]
    exact getUint32_seq _ _ (by omega)

theorem fdAT_chunk_bytes_witness :
    (∀ f ∈ [redPixel, bluePixel], f.WF) ∧ 1 ≤ 1 ∧ [redPixel, bluePixel][1]? = some bluePixel
      ∧ bluePixel.idats[0]? = some blueIDAT
      ∧ ∃ out cs x,
        createFromBlobs sampleConfig ([redPixel, bluePixel].map Frame.bytes) = .ok out
          ∧ out = header ++ (cs.map Chunk.bytes).flatten
          ∧ readChunks out = some cs
          ∧ cs[fcTLIndex [redPixel, bluePixel] 1 + 1 + 0]? = some x
          ∧ x.bytes = be32 (blueIDAT.data.length + 4) ++ strBytes "fdAT"
              ++ be32 (fcTLSeq [redPixel, bluePixel] 1 + 1 + 0) ++ blueIDAT.data
              ++ be32 (crc32 (strBytes "fdAT" ++ be32 (fcTLSeq [redPixel, bluePixel] 1 + 1 + 0)
                  ++ blueIDAT.data))
          ∧ getUint32 x.bytes 0 = some (blueIDAT.data.length + 4) :=
  ⟨by decide, by decide, by decide, by decide,
    fdAT_chunk_bytes sampleConfig [redPixel, bluePixel] (by decide) 1 0 bluePixel blueIDAT
      (by decide) (by decide) (by decide)⟩

end APNG

namespace APNG

theorem seqNumbers_apngChunks (cfg : Config) (f : Frame) (fs : List Frame)
    (hK : fs.length + 1 + idatTotal fs ≤ 4294967296) :
    seqNumbers (apngChunks cfg (f :: fs)) = List.range (fs.length + 1 + idatTotal fs) := by
  have h1 : (IHDRChunk cfg).type ≠ strBytes "fcTL" := by
    show strBytes "IHDR" ≠ strBytes "fcTL"
    decide
  have h2 : (IHDRChunk cfg).type ≠ strBytes "fdAT" := by
    show strBytes "IHDR" ≠ strBytes "fdAT"
    decide
  have h3 : (acTLChunk (fs.length + 1)).type ≠ strBytes "fcTL" := by
    show strBytes "acTL" ≠ strBytes "fcTL"
    decide
  have h4 : (acTLChunk (fs.length + 1)).type ≠ strBytes "fdAT" := by
    show strBytes "acTL" ≠ strBytes "fdAT"
    decide
  have h5 : IENDChunk.type ≠ strBytes "fcTL" := by decide
  have h6 : IENDChunk.type ≠ strBytes "fdAT" := by decide
  have hend : seqNumbers [IENDChunk] = [] := by
    rw [seqNumbers_cons_other _ _ h5 h6]
    rfl
  have e : fs.length + 1 + idatTotal fs = (fs.length + idatTotal fs) + 1 := by omega
  simp only [apngChunks, List.cons_append, List.nil_append]
  rw [seqNumbers_cons_other _ _ h1 h2, seqNumbers_cons_other _ _ h3 h4,
    seqNumbers_cons_fcTL _ _ _ (by omega), seqNumbers_append, seqNumbers_append,
    seqNumbers_idats, seqNumbers_restChunks cfg fs 1 (by omega), hend, List.range_eq_range', e,
    List.range'_succ]
  simp

/-- C2: for `N ≥ 1` well-formed frames with `K = N + (number of IDAT chunks in frames
1..N-1)` at most `2^32`, the run succeeds and the sequence numbers stored in the `fcTL` and
`fdAT` chunks of the output, read in the order the chunks appear, are exactly
`0, 1, ..., K-1`; the `IDAT` chunks of frame 0 take none.  For two frames with one `IDAT`
chunk each they are `[0, 1, 2]`: frame 0's `fcTL`, frame 1's `fcTL`, frame 1's `fdAT`. -/
theorem sequence_numbers_consecutive (cfg : Config) (frames : List Frame) (hne : frames ≠ [])
    (hwf : ∀ f ∈ frames, f.WF)
    (hK : frames.length + idatTotal (frames.drop 1) ≤ 4294967296) :
    ∃ out cs,
      createFromBlobs cfg (frames.map Frame.bytes) = .ok out
        ∧ readChunks out = some cs
        ∧ seqNumbers cs = List.range (frames.length + idatTotal (frames.drop 1))
        ∧ (∀ f0 f1 c0 c1, frames = [f0, f1] → f0.idats = [c0] → f1.idats = [c1] →
            seqNumbers cs = [0, 1, 2]
              ∧ cs = [IHDRChunk cfg, acTLChunk 2, fcTLChunk cfg 0, c0, fcTLChunk cfg 1,
                  fdATChunk 2 c1.data, IENDChunk]) := by
  obtain ⟨out, h1, _, h3⟩ := output_chunks cfg frames hne hwf
  cases frames with
  | nil => exact absurd rfl hne
  | cons f fs =>
    simp only [List.length_cons, List.drop_succ_cons, List.drop_zero] at hK ⊢
    have hseq := seqNumbers_apngChunks cfg f fs hK
    refine ⟨out, _, h1, h3, hseq, ?_⟩
    intro f0 f1 c0 c1 hfr h0 h1'
    simp only [List.cons.injEq] at hfr
    obtain ⟨rfl, rfl⟩ := hfr
    refine ⟨?_, ?_⟩
    · rw [hseq]
      simp [idatTotal, h1']
      rfl
    · simp [apngChunks, restChunks, fdATChunks, h0, h1']

theorem sequence_numbers_consecutive_witness :
    [redPixel, bluePixel] ≠ [] ∧ (∀ f ∈ [redPixel, bluePixel], f.WF)
      ∧ [redPixel, bluePixel].length + idatTotal ([redPixel, bluePixel].drop 1) ≤ 4294967296
      ∧ ∃ out cs,
        createFromBlobs sampleConfig ([redPixel, bluePixel].map Frame.bytes) = .ok out
          ∧ readChunks out = some cs
          ∧ seqNumbers cs
              = List.range ([redPixel, bluePixel].length + idatTotal ([redPixel, bluePixel].drop 1))
          ∧ (∀ f0 f1 c0 c1, [redPixel, bluePixel] = [f0, f1] → f0.idats = [c0] →
              f1.idats = [c1] →
              seqNumbers cs = [0, 1, 2]
                ∧ cs = [IHDRChunk sampleConfig, acTLChunk 2, fcTLChunk sampleConfig 0, c0,
                    fcTLChunk sampleConfig 1, fdATChunk 2 c1.data, IENDChunk]) :=
  ⟨by decide, by decide, by decide,
    sequence_numbers_consecutive sampleConfig [redPixel, bluePixel] (by decide) (by decide)
      (by decide)⟩

end APNG

namespace APNG

set_option maxRecDepth 100000 in
theorem IENDChunk_crc : IENDChunk.crc = be32 (crc32 (IENDChunk.type ++ IENDChunk.data)) := by
  decide

theorem fdATChunks_crc (cs : List Chunk) :
    ∀ seq, ∀ x ∈ fdATChunks seq cs, x.crc = be32 (crc32 (x.type ++ x.data)) := by
  induction cs with
  | nil => intro _ x hx; simp [fdATChunks] at hx
  | cons c rest ih =>
    intro seq x hx
    simp only [fdATChunks, List.mem_cons] at hx
    rcases hx with rfl | hx
    · rfl
    · exact ih _ x hx

theorem restChunks_crc (cfg : Config) (fs : List Frame) :
    ∀ seq, ∀ x ∈ restChunks cfg seq fs, x.crc = be32 (crc32 (x.type ++ x.data)) := by
  induction fs with
  | nil => intro _ x hx; simp [restChunks] at hx
  | cons f rest ih =>
    intro seq x hx
    simp only [restChunks, List.cons_append, List.mem_cons, List.mem_append] at hx
    rcases hx with rfl | hx | hx
    · rfl
    · exact fdATChunks_crc f.idats _ x hx
    · exact ih _ x hx

/-- C5: for `N ≥ 1` well-formed frames in which every `IDAT` chunk of frame 0 carries a
correct checksum, the run succeeds and every chunk of the output (`IHDR`, `acTL`, every
`fcTL`, `IDAT` and `fdAT`, `IEND`) has as its stored 4 checksum bytes the big-endian
`crc32` of its type tag followed by its data bytes; the length field is not covered. -/
theorem output_checksums (cfg : Config) (frames : List Frame) (f0 : Frame)
    (h0 : frames[0]? = some f0) (hwf : ∀ f ∈ frames, f.WF)
    (hcrc : ∀ c ∈ f0.idats, c.crc = be32 (crc32 (c.type ++ c.data))) :
    ∃ out cs,
      createFromBlobs cfg (frames.map Frame.bytes) = .ok out
        ∧ out = header ++ (cs.map Chunk.bytes).flatten
        ∧ readChunks out = some cs
        ∧ ∀ c ∈ cs, c.crc = be32 (crc32 (c.type ++ c.data)) := by
  obtain ⟨out, h1, h2, h3⟩ := output_chunks cfg frames (ne_nil_of_getElem? h0) hwf
  refine ⟨out, _, h1, h2, h3, ?_⟩
  cases frames with
  | nil => simp at h0
  | cons f fs =>
    simp only [List.getElem?_cons_zero, Option.some.injEq] at h0
    subst h0
    intro x hx
    simp only [apngChunks, List.cons_append, List.nil_append, List.mem_cons, List.mem_append,
      List.mem_singleton] at hx
    rcases hx with rfl | rfl | rfl | hx
    · rfl
    · rfl
    · rfl
    · rcases hx with (hx | hx) | hx
      · exact hcrc x hx
      · exact restChunks_crc cfg fs 1 x hx
      · rcases hx with rfl | hx
        · exact IENDChunk_crc
        · exact absurd hx (List.not_mem_nil _)

set_option maxRecDepth 100000 in
theorem output_checksums_witness :
    [redPixel, bluePixel][0]? = some redPixel ∧ (∀ f ∈ [redPixel, bluePixel], f.WF)
      ∧ (∀ c ∈ redPixel.idats, c.crc = be32 (crc32 (c.type ++ c.data)))
      ∧ ∃ out cs,
        createFromBlobs sampleConfig ([redPixel, bluePixel].map Frame.bytes) = .ok out
          ∧ out = header ++ (cs.map Chunk.bytes).flatten
          ∧ readChunks out = some cs
          ∧ ∀ c ∈ cs, c.crc = be32 (crc32 (c.type ++ c.data)) :=
  ⟨by decide, by decide, by decide,
    output_checksums sampleConfig [redPixel, bluePixel] redPixel (by decide) (by decide)
      (by decide)⟩

end APNG

namespace APNG

theorem slice_after (a mid tail : List Nat) (n m : Nat) (hn : a.length = n)
    (hm : n + mid.length = m) : slice (a ++ mid ++ tail) n m = mid := by
  subst hn hm
  exact slice_mid a mid tail

theorem IHDRChunk_bytes (cfg : Config) :
    (IHDRChunk cfg).bytes = be32 13 ++ strBytes "IHDR" ++ be32 cfg.VIDEO_WIDTH
      ++ be32 cfg.VIDEO_HEIGHT ++ [8, 6, 0, 0, 0]
      ++ be32 (crc32 (strBytes "IHDR" ++ be32 cfg.VIDEO_WIDTH ++ be32 cfg.VIDEO_HEIGHT
          ++ [8, 6, 0, 0, 0])) := by
  simp [IHDRChunk, mkChunk_bytes, List.append_assoc]

theorem IHDRChunk_bytes_length (cfg : Config) : (IHDRChunk cfg).bytes.length = 25 := by
  rw [Chunk.bytes_length _ (IHDRChunk_readable cfg)]
  simp [IHDRChunk, mkChunk]

theorem apngChunks_head (cfg : Config) (frames : List Frame) (hne : frames ≠ []) :
    ∃ rest, apngChunks cfg frames
      = IHDRChunk cfg :: acTLChunk frames.length :: fcTLChunk cfg 0 :: rest
      ∧ rest ≠ [] := by
  cases frames with
  | nil => exact absurd rfl hne
  | cons f fs => exact ⟨f.idats ++ restChunks cfg 1 fs ++ [IENDChunk], by simp [apngChunks], by simp⟩

/-- C6, as stated, fails: for the well-formed 1x1 RGB frame `rgbPixel` (colour type 2) as
frame 0 the run succeeds, but bytes `[8, 33)` of the output differ from bytes `[8, 33)`
of the frame: the output `IHDR` declares colour type 6. -/
theorem IHDR_not_copied :
    rgbPixel.WF ∧ ∃ out, createFromBlobs sampleConfig [rgbPixel.bytes] = .ok out
      ∧ slice out 8 33 ≠ slice rgbPixel.bytes 8 33
      ∧ out.getD 25 0 = 6 ∧ rgbPixel.bytes.getD 25 0 = 2 :=
  ⟨by decide, _, createFromBlobs_wf sampleConfig [rgbPixel] (by decide) (by decide),
    by decide, by decide, by decide⟩

/-- C6, amended: for `N ≥ 1` well-formed frames the run succeeds and the output holds
exactly one `IHDR` chunk, placed right after the 8-byte signature (bytes `[8, 33)`); it
is built from the configuration, not copied from frame 0:
`BE32(13) ++ 'IHDR' ++ BE32(W) ++ BE32(H) ++ 08 06 00 00 00 ++ BE32(crc32 of the 17
type and data bytes)`, whatever frame 0's own `IHDR` holds. -/
theorem IHDR_from_config (cfg : Config) (frames : List Frame) (hne : frames ≠ [])
    (hwf : ∀ f ∈ frames, f.WF) :
    ∃ out cs,
      createFromBlobs cfg (frames.map Frame.bytes) = .ok out
        ∧ readChunks out = some cs
        ∧ countType "IHDR" cs = 1
        ∧ cs[0]? = some (IHDRChunk cfg)
        ∧ out.take 8 = header
        ∧ slice out 8 33 = be32 13 ++ strBytes "IHDR" ++ be32 cfg.VIDEO_WIDTH
            ++ be32 cfg.VIDEO_HEIGHT ++ [8, 6, 0, 0, 0]
            ++ be32 (crc32 (strBytes "IHDR" ++ be32 cfg.VIDEO_WIDTH ++ be32 cfg.VIDEO_HEIGHT
                ++ [8, 6, 0, 0, 0])) := by
  obtain ⟨out, h1, h2, h3⟩ := output_chunks cfg frames hne hwf
  obtain ⟨rest, h4, _⟩ := apngChunks_head cfg frames hne
  refine ⟨out, _, h1, h3, ?_, ?_, ?_, ?_⟩
  · cases frames with
    | nil => exact absurd rfl hne
    | cons f fs =>
      rw [countType_apngChunks]
      have e1 : ¬ strBytes "acTL" = strBytes "IHDR" := by decide
      have e2 : ¬ strBytes "fcTL" = strBytes "IHDR" := by decide
      have e3 : ¬ [0x49, 0x44, 0x41, 0x54] = strBytes "IHDR" := by decide
      have e4 : ¬ strBytes "fdAT" = strBytes "IHDR" := by decide
      have e5 : ¬ strBytes "IEND" = strBytes "IHDR" := by decide
      simp [e1, e2, e3, e4, e5]
  · rw [h4]
    rfl
  · rw [h2]
    exact List.take_left' rfl
  · rw [h2, h4, ← IHDRChunk_bytes]
    have hsplit : header ++ ((IHDRChunk cfg :: acTLChunk frames.length :: fcTLChunk cfg 0
        :: rest).map Chunk.bytes).flatten
        = header ++ (IHDRChunk cfg).bytes ++ ((acTLChunk frames.length :: fcTLChunk cfg 0
        :: rest).map Chunk.bytes).flatten := by simp
    rw [hsplit]
    exact slice_after _ _ _ 8 33 rfl (by rw [IHDRChunk_bytes_length])

theorem IHDR_from_config_witness :
    [rgbPixel] ≠ [] ∧ (∀ f ∈ [rgbPixel], f.WF)
      ∧ ∃ out cs,
        createFromBlobs sampleConfig ([rgbPixel].map Frame.bytes) = .ok out
          ∧ readChunks out = some cs
          ∧ countType "IHDR" cs = 1
          ∧ cs[0]? = some (IHDRChunk sampleConfig)
          ∧ out.take 8 = header
          ∧ slice out 8 33 = be32 13 ++ strBytes "IHDR" ++ be32 sampleConfig.VIDEO_WIDTH
              ++ be32 sampleConfig.VIDEO_HEIGHT ++ [8, 6, 0, 0, 0]
              ++ be32 (crc32 (strBytes "IHDR" ++ be32 sampleConfig.VIDEO_WIDTH
                  ++ be32 sampleConfig.VIDEO_HEIGHT ++ [8, 6, 0, 0, 0])) :=
  ⟨by decide, by decide, IHDR_from_config sampleConfig [rgbPixel] (by decide) (by decide)⟩

end APNG

namespace APNG

/-- C7: for `N ≥ 1` well-formed frames the run succeeds and the `IDAT` chunks of frame 0
appear in the output unchanged (length field, type, payload and original checksum), in
source order, directly after frame 0's `fcTL` chunk, which follows `IHDR` and `acTL`; they
are the only `IDAT` chunks of the output; the chunk loop over frame 0 leaves the sequence
counter as it found it, so a second frame's `fcTL` is numbered 1. -/
theorem frame0_IDAT_verbatim (cfg : Config) (frames : List Frame) (f0 : Frame)
    (h0 : frames[0]? = some f0) (hwf : ∀ f ∈ frames, f.WF) :
    ∃ out cs tail,
      createFromBlobs cfg (frames.map Frame.bytes) = .ok out
        ∧ readChunks out = some cs
        ∧ out = header ++ (IHDRChunk cfg).bytes ++ (acTLChunk frames.length).bytes
            ++ (fcTLChunk cfg 0).bytes ++ (f0.idats.map Chunk.bytes).flatten ++ tail
        ∧ cs[2]? = some (fcTLChunk cfg 0)
        ∧ (cs.drop 3).take f0.idats.length = f0.idats
        ∧ countType "IDAT" cs = f0.idats.length
        ∧ (∀ st, ∃ st', walk 0 f0.bytes (f0.bytes.length + 1) 8 st = .ok st'
            ∧ st'.sequence_number = st.sequence_number)
        ∧ (∀ f1, frames[1]? = some f1 →
            cs[3 + f0.idats.length]? = some (fcTLChunk cfg 1)) := by
  obtain ⟨out, h1, h2, h3⟩ := output_chunks cfg frames (ne_nil_of_getElem? h0) hwf
  cases frames with
  | nil => simp at h0
  | cons f fs =>
    simp only [List.getElem?_cons_zero, Option.some.injEq] at h0
    subst h0
    refine ⟨out, _, ((restChunks cfg 1 fs ++ [IENDChunk]).map Chunk.bytes).flatten, h1, h3,
      ?_, ?_, ?_, ?_, ?_, ?_⟩
    · rw [h2]
      simp [apngChunks, List.append_assoc]
    · simp [apngChunks]
    · simp [apngChunks]
    · rw [countType_apngChunks]
      have e1 : ¬ strBytes "IHDR" = strBytes "IDAT" := by decide
      have e2 : ¬ strBytes "acTL" = strBytes "IDAT" := by decide
      have e3 : ¬ strBytes "fcTL" = strBytes "IDAT" := by decide
      have e4 : [0x49, 0x44, 0x41, 0x54] = strBytes "IDAT" := by decide
      have e5 : ¬ strBytes "fdAT" = strBytes "IDAT" := by decide
      have e6 : ¬ strBytes "IEND" = strBytes "IDAT" := by decide
      rw [if_neg e1, if_neg e2, if_neg e3, if_pos e4, if_neg e5, if_neg e6]
      omega
    · intro st
      exact ⟨_, walk_frame 0 f (hwf f (List.mem_cons_self _ _)) st,
        (emit_fold_zero f.chunks st).2⟩
    · intro f1 hf1
      obtain ⟨pre, post, h4, h5⟩ := apngChunks_segment cfg (f :: fs) 1 f1 hf1
      have e1 : fcTLSeq (f :: fs) 1 = 1 := by simp [fcTLSeq, idatTotal_nil]
      have e2 : fcTLIndex (f :: fs) 1 = 3 + f.idats.length := by
        simp [fcTLIndex, idatTotal_cons, idatTotal_nil]
      rw [e1] at h4
      rw [e2] at h5
      rw [List.append_assoc] at h4
      exact getElem?_of_segment _ pre _ _ _ h4 h5

theorem frame0_IDAT_verbatim_witness :
    [redPixel, bluePixel][0]? = some redPixel ∧ (∀ f ∈ [redPixel, bluePixel], f.WF)
      ∧ ∃ out cs tail,
        createFromBlobs sampleConfig ([redPixel, bluePixel].map Frame.bytes) = .ok out
          ∧ readChunks out = some cs
          ∧ out = header ++ (IHDRChunk sampleConfig).bytes
              ++ (acTLChunk [redPixel, bluePixel].length).bytes
              ++ (fcTLChunk sampleConfig 0).bytes
              ++ (redPixel.idats.map Chunk.bytes).flatten ++ tail
          ∧ cs[2]? = some (fcTLChunk sampleConfig 0)
          ∧ (cs.drop 3).take redPixel.idats.length = redPixel.idats
          ∧ countType "IDAT" cs = redPixel.idats.length
          ∧ (∀ st, ∃ st', walk 0 redPixel.bytes (redPixel.bytes.length + 1) 8 st = .ok st'
              ∧ st'.sequence_number = st.sequence_number)
          ∧ (∀ f1, [redPixel, bluePixel][1]? = some f1 →
              cs[3 + redPixel.idats.length]? = some (fcTLChunk sampleConfig 1)) :=
  ⟨by decide, by decide,
    frame0_IDAT_verbatim sampleConfig [redPixel, bluePixel] redPixel (by decide) (by decide)⟩

end APNG

namespace APNG

theorem acTLChunk_bytes (n : Nat) :
    (acTLChunk n).bytes = be32 8 ++ strBytes "acTL" ++ be32 n ++ be32 0
      ++ be32 (crc32 (strBytes "acTL" ++ be32 n ++ be32 0)) := by
  simp [acTLChunk, mkChunk_bytes, List.append_assoc]

theorem acTLChunk_bytes_length (n : Nat) : (acTLChunk n).bytes.length = 20 := by
  rw [Chunk.bytes_length _ (acTLChunk_readable n)]
  simp [acTLChunk, mkChunk]

/-- C8: for `N ≥ 1` well-formed frames the run succeeds and the output holds exactly one
`acTL` chunk, right after the `IHDR` chunk (bytes `[33, 53)`), and it is the 20 bytes
`BE32(8) ++ 'acTL' ++ BE32(N) ++ BE32(0) ++ BE32(crc32('acTL' ++ BE32(N) ++ BE32(0)))`: the
frame count field reads back `N` (modulo `2^32`, the width of the field) and the play
count field reads back 0. -/
theorem acTL_chunk (cfg : Config) (frames : List Frame) (hne : frames ≠ [])
    (hwf : ∀ f ∈ frames, f.WF) :
    ∃ out cs,
      createFromBlobs cfg (frames.map Frame.bytes) = .ok out
        ∧ readChunks out = some cs
        ∧ countType "acTL" cs = 1
        ∧ cs[0]? = some (IHDRChunk cfg)
        ∧ cs[1]? = some (acTLChunk frames.length)
        ∧ slice out 33 53 = be32 8 ++ strBytes "acTL" ++ be32 frames.length ++ be32 0
            ++ be32 (crc32 (strBytes "acTL" ++ be32 frames.length ++ be32 0))
        ∧ getUint32 out 41 = some (frames.length % 4294967296)
        ∧ getUint32 out 45 = some 0 := by
  obtain ⟨out, h1, h2, h3⟩ := output_chunks cfg frames hne hwf
  obtain ⟨rest, h4, _⟩ := apngChunks_head cfg frames hne
  have hsplit : out = (header ++ (IHDRChunk cfg).bytes) ++ (acTLChunk frames.length).bytes
      ++ ((fcTLChunk cfg 0 :: rest).map Chunk.bytes).flatten := by
    rw [h2, h4]
    simp
  have hpre : (header ++ (IHDRChunk cfg).bytes).length = 33 := by
    rw [List.length_append, IHDRChunk_bytes_length]
    rfl
  refine ⟨out, _, h1, h3, ?_, ?_, ?_, ?_, ?_, ?_⟩
  · cases frames with
    | nil => exact absurd rfl hne
    | cons f fs =>
      rw [countType_apngChunks]
      have e1 : ¬ strBytes "IHDR" = strBytes "acTL" := by decide
      have e2 : ¬ strBytes "fcTL" = strBytes "acTL" := by decide
      have e3 : ¬ [0x49, 0x44, 0x41, 0x54] = strBytes "acTL" := by decide
      have e4 : ¬ strBytes "fdAT" = strBytes "acTL" := by decide
      have e5 : ¬ strBytes "IEND" = strBytes "acTL" := by decide
      simp [e1, e2, e3, e4, e5]
  · rw [h4]
    simp
  · rw [h4]
    simp
  · rw [hsplit, ← acTLChunk_bytes]
    exact slice_after _ _ _ 33 53 hpre (by rw [acTLChunk_bytes_length])
  · have hg := getUint32_be32 (header ++ (IHDRChunk cfg).bytes ++ be32 8 ++ strBytes "acTL")
      (be32 0 ++ be32 (crc32 (strBytes "acTL" ++ be32 frames.length ++ be32 0))
        ++ ((fcTLChunk cfg 0 :: rest).map Chunk.bytes).flatten)
      (frames.length % 4294967296) (Nat.mod_lt _ (by decide))
    have hl : (header ++ (IHDRChunk cfg).bytes ++ be32 8 ++ strBytes "acTL").length = 41 := by
      simp only [List.length_append, hpre, be32_length]
      rfl
    rw [hl, be32_mod] at hg
    rw [hsplit, acTLChunk_bytes, ← hg]
    simp [List.append_assoc]
  · have hg := getUint32_be32 (header ++ (IHDRChunk cfg).bytes ++ be32 8 ++ strBytes "acTL"
        ++ be32 frames.length)
      (be32 (crc32 (strBytes "acTL" ++ be32 frames.length ++ be32 0))
        ++ ((fcTLChunk cfg 0 :: rest).map Chunk.bytes).flatten) 0 (by decide)
    have hl : (header ++ (IHDRChunk cfg).bytes ++ be32 8 ++ strBytes "acTL"
        ++ be32 frames.length).length = 45 := by
      simp only [List.length_append, hpre, be32_length]
      rfl
    rw [hl] at hg
    rw [hsplit, acTLChunk_bytes, ← hg]
    simp [List.append_assoc]

theorem acTL_chunk_witness :
    [redPixel, bluePixel] ≠ [] ∧ (∀ f ∈ [redPixel, bluePixel], f.WF)
      ∧ ∃ out cs,
        createFromBlobs sampleConfig ([redPixel, bluePixel].map Frame.bytes) = .ok out
          ∧ readChunks out = some cs
          ∧ countType "acTL" cs = 1
          ∧ cs[0]? = some (IHDRChunk sampleConfig)
          ∧ cs[1]? = some (acTLChunk [redPixel, bluePixel].length)
          ∧ slice out 33 53 = be32 8 ++ strBytes "acTL" ++ be32 [redPixel, bluePixel].length
              ++ be32 0
              ++ be32 (crc32 (strBytes "acTL" ++ be32 [redPixel, bluePixel].length ++ be32 0))
          ∧ getUint32 out 41 = some ([redPixel, bluePixel].length % 4294967296)
          ∧ getUint32 out 45 = some 0 :=
  ⟨by decide, by decide, acTL_chunk sampleConfig [redPixel, bluePixel] (by decide) (by decide)⟩

end APNG

namespace APNG

theorem fcTLChunk_bytes (cfg : Config) (seq : Nat) :
    (fcTLChunk cfg seq).bytes = be32 26 ++ strBytes "fcTL" ++ be32 seq ++ be32 cfg.VIDEO_WIDTH
      ++ be32 cfg.VIDEO_HEIGHT ++ be32 0 ++ be32 0 ++ be16 (1000 / cfg.VIDEO_FPS) ++ be16 1000
      ++ [0, 0]
      ++ be32 (crc32 (strBytes "fcTL" ++ be32 seq ++ be32 cfg.VIDEO_WIDTH
          ++ be32 cfg.VIDEO_HEIGHT ++ be32 0 ++ be32 0 ++ be16 (1000 / cfg.VIDEO_FPS)
          ++ be16 1000 ++ [0, 0])) := by
  simp [fcTLChunk, mkChunk_bytes, List.append_assoc]

/-- C9: for `N ≥ 1` well-formed frames with configured width `W`, height `H` and frame
rate `fps`, the run succeeds and the output holds exactly `N` `fcTL` chunks, one per input
frame in frame order: the one of frame `i` sits at chunk index `fcTLIndex frames i`, carries
the sequence number `fcTLSeq frames i` and is directly followed by that frame's pixel data
(the `IDAT` chunks of frame 0, the `fdAT` chunks of a later frame).  Each is the 38 bytes
`BE32(26) ++ 'fcTL' ++ BE32(seq) ++ BE32(W) ++ BE32(H) ++ BE32(0) ++ BE32(0) ++
BE16(1000 / fps) ++ BE16(1000) ++ 00 ++ 00 ++ BE32(crc32 of the 30 type and data bytes)`,
the quotient being the integer quotient; the delay fields are the same in every `fcTL`,
and for `fps = 10` they are 100 and 1000. -/
theorem fcTL_chunks (cfg : Config) (frames : List Frame) (hne : frames ≠ [])
    (hwf : ∀ f ∈ frames, f.WF) :
    ∃ out cs,
      createFromBlobs cfg (frames.map Frame.bytes) = .ok out
        ∧ out = header ++ (cs.map Chunk.bytes).flatten
        ∧ readChunks out = some cs
        ∧ countType "fcTL" cs = frames.length
        ∧ (∀ i f, frames[i]? = some f →
            cs[fcTLIndex frames i]? = some (fcTLChunk cfg (fcTLSeq frames i))
              ∧ (cs.drop (fcTLIndex frames i + 1)).take f.idats.length
                  = (if i = 0 then f.idats else fdATChunks (fcTLSeq frames i + 1) f.idats))
        ∧ (∀ seq, (fcTLChunk cfg seq).bytes.length = 38
            ∧ (fcTLChunk cfg seq).bytes = be32 26 ++ strBytes "fcTL" ++ be32 seq
                ++ be32 cfg.VIDEO_WIDTH ++ be32 cfg.VIDEO_HEIGHT ++ be32 0 ++ be32 0
                ++ be16 (1000 / cfg.VIDEO_FPS) ++ be16 1000 ++ [0, 0]
                ++ be32 (crc32 (strBytes "fcTL" ++ be32 seq ++ be32 cfg.VIDEO_WIDTH
                    ++ be32 cfg.VIDEO_HEIGHT ++ be32 0 ++ be32 0 ++ be16 (1000 / cfg.VIDEO_FPS)
                    ++ be16 1000 ++ [0, 0])))
        ∧ (cfg.VIDEO_FPS = 10 →
            be16 (1000 / cfg.VIDEO_FPS) = be16 100 ∧ be16 100 = [0, 100]
              ∧ be16 1000 = [3, 232]) := by
  obtain ⟨out, h1, h2, h3⟩ := output_chunks cfg frames hne hwf
  refine ⟨out, _, h1, h2, h3, ?_, ?_, ?_, ?_⟩
  · cases frames with
    | nil => exact absurd rfl hne
    | cons f fs =>
      rw [countType_apngChunks]
      have e1 : ¬ strBytes "IHDR" = strBytes "fcTL" := by decide
      have e2 : ¬ strBytes "acTL" = strBytes "fcTL" := by decide
      have e3 : ¬ [0x49, 0x44, 0x41, 0x54] = strBytes "fcTL" := by decide
      have e4 : ¬ strBytes "fdAT" = strBytes "fcTL" := by decide
      have e5 : ¬ strBytes "IEND" = strBytes "fcTL" := by decide
      simp [e1, e2, e3, e4, e5]
  · intro i f hf
    obtain ⟨pre, post, h4, h5⟩ := apngChunks_segment cfg frames i f hf
    refine ⟨?_, ?_⟩
    · rw [List.append_assoc] at h4
      exact getElem?_of_segment _ pre _ _ _ h4 h5
    · have h6 : apngChunks cfg frames = (pre ++ [fcTLChunk cfg (fcTLSeq frames i)])
          ++ (if i = 0 then f.idats else fdATChunks (fcTLSeq frames i + 1) f.idats)
          ++ post := by
        rw [h4]
        simp
      have h7 := take_drop_of_segment _ _ _ _ (fcTLIndex frames i + 1) h6 (by simp [h5])
      have h8 : (if i = 0 then f.idats else fdATChunks (fcTLSeq frames i + 1) f.idats).length
          = f.idats.length := by
        split
        · rfl
        · exact fdATChunks_length _ _
      rw [h8] at h7
      exact h7
  · intro seq
    refine ⟨?_, fcTLChunk_bytes cfg seq⟩
    rw [Chunk.bytes_length _ (fcTLChunk_readable cfg seq)]
    simp [fcTLChunk, mkChunk]
  · intro hfps
    rw [hfps]
    exact ⟨rfl, rfl, rfl⟩

theorem fcTL_chunks_witness :
    [redPixel, bluePixel] ≠ [] ∧ (∀ f ∈ [redPixel, bluePixel], f.WF)
      ∧ ∃ out cs,
        createFromBlobs sampleConfig ([redPixel, bluePixel].map Frame.bytes) = .ok out
          ∧ out = header ++ (cs.map Chunk.bytes).flatten
          ∧ readChunks out = some cs
          ∧ countType "fcTL" cs = [redPixel, bluePixel].length
          ∧ (∀ i f, [redPixel, bluePixel][i]? = some f →
              cs[fcTLIndex [redPixel, bluePixel] i]?
                  = some (fcTLChunk sampleConfig (fcTLSeq [redPixel, bluePixel] i))
                ∧ (cs.drop (fcTLIndex [redPixel, bluePixel] i + 1)).take f.idats.length
                    = (if i = 0 then f.idats
                        else fdATChunks (fcTLSeq [redPixel, bluePixel] i + 1) f.idats))
          ∧ (∀ seq, (fcTLChunk sampleConfig seq).bytes.length = 38
              ∧ (fcTLChunk sampleConfig seq).bytes = be32 26 ++ strBytes "fcTL" ++ be32 seq
                  ++ be32 sampleConfig.VIDEO_WIDTH ++ be32 sampleConfig.VIDEO_HEIGHT ++ be32 0
                  ++ be32 0 ++ be16 (1000 / sampleConfig.VIDEO_FPS) ++ be16 1000 ++ [0, 0]
                  ++ be32 (crc32 (strBytes "fcTL" ++ be32 seq ++ be32 sampleConfig.VIDEO_WIDTH
                      ++ be32 sampleConfig.VIDEO_HEIGHT ++ be32 0 ++ be32 0
                      ++ be16 (1000 / sampleConfig.VIDEO_FPS) ++ be16 1000 ++ [0, 0])))
          ∧ (sampleConfig.VIDEO_FPS = 10 →
              be16 (1000 / sampleConfig.VIDEO_FPS) = be16 100 ∧ be16 100 = [0, 100]
                ∧ be16 1000 = [3, 232]) :=
  ⟨by decide, by decide, fcTL_chunks sampleConfig [redPixel, bluePixel] (by decide) (by decide)⟩

end APNG

namespace APNG

theorem apngChunks_last (cfg : Config) (frames : List Frame) (hne : frames ≠ []) :
    ∃ init, apngChunks cfg frames = init ++ [IENDChunk] := by
  cases frames with
  | nil => exact absurd rfl hne
  | cons f fs =>
    exact ⟨[IHDRChunk cfg, acTLChunk (fs.length + 1), fcTLChunk cfg 0] ++ f.idats
      ++ restChunks cfg 1 fs, rfl⟩

set_option maxRecDepth 100000 in
theorem IEND_crc_value :
    ToUint32 (_crc [0x49, 0x45, 0x4E, 0x44] 0 4) = 0xAE426082
      ∧ be32 (ToUint32 (_crc [0x49, 0x45, 0x4E, 0x44] 0 4)) = [0xAE, 0x42, 0x60, 0x82] := by
  decide

/-- C10: for `N ≥ 1` well-formed frames the run succeeds and the last 12 bytes of the
output are the fixed bytes `00 00 00 00 49 45 4E 44 AE 42 60 82`; the output holds exactly
one `IEND` chunk, the last one; and the hard-coded checksum bytes `AE 42 60 82` are the
bytes a `setUint32` store writes for `_crc` over the 4 type bytes `'IEND'` with empty data,
whose unsigned 32-bit reading is `0xAE426082`. -/
theorem IEND_chunk (cfg : Config) (frames : List Frame) (hne : frames ≠ [])
    (hwf : ∀ f ∈ frames, f.WF) :
    ∃ out cs,
      createFromBlobs cfg (frames.map Frame.bytes) = .ok out
        ∧ readChunks out = some cs
        ∧ 12 ≤ out.length
        ∧ out.drop (out.length - 12)
            = [0x00, 0x00, 0x00, 0x00, 0x49, 0x45, 0x4E, 0x44, 0xAE, 0x42, 0x60, 0x82]
        ∧ countType "IEND" cs = 1
        ∧ cs.getLast? = some IENDChunk
        ∧ be32 (ToUint32 (_crc [0x49, 0x45, 0x4E, 0x44] 0 4)) = [0xAE, 0x42, 0x60, 0x82]
        ∧ ToUint32 (_crc [0x49, 0x45, 0x4E, 0x44] 0 4) = 0xAE426082 := by
  obtain ⟨out, h1, h2, h3⟩ := output_chunks cfg frames hne hwf
  obtain ⟨init, h4⟩ := apngChunks_last cfg frames hne
  have hI : IENDChunk.bytes
      = [0x00, 0x00, 0x00, 0x00, 0x49, 0x45, 0x4E, 0x44, 0xAE, 0x42, 0x60, 0x82] := by decide
  have hsplit : out = (header ++ (init.map Chunk.bytes).flatten)
      ++ [0x00, 0x00, 0x00, 0x00, 0x49, 0x45, 0x4E, 0x44, 0xAE, 0x42, 0x60, 0x82] := by
    rw [h2, h4, ← hI]
    simp
  have hlen : out.length = (header ++ (init.map Chunk.bytes).flatten).length + 12 := by
    rw [hsplit, List.length_append]
    rfl
  refine ⟨out, _, h1, h3, by omega, ?_, ?_, ?_, IEND_crc_value.2, IEND_crc_value.1⟩
  · have e : out.length - 12 = (header ++ (init.map Chunk.bytes).flatten).length := by omega
    rw [e]
    conv_lhs => rw [hsplit]
    exact List.drop_left' rfl
  · cases frames with
    | nil => exact absurd rfl hne
    | cons f fs =>
      rw [countType_apngChunks]
      have e1 : ¬ strBytes "IHDR" = strBytes "IEND" := by decide
      have e2 : ¬ strBytes "acTL" = strBytes "IEND" := by decide
      have e3 : ¬ strBytes "fcTL" = strBytes "IEND" := by decide
      have e4 : ¬ [0x49, 0x44, 0x41, 0x54] = strBytes "IEND" := by decide
      have e5 : ¬ strBytes "fdAT" = strBytes "IEND" := by decide
      simp [e1, e2, e3, e4, e5]
  · rw [h4]
    simp

theorem IEND_chunk_witness :
    [redPixel, bluePixel] ≠ [] ∧ (∀ f ∈ [redPixel, bluePixel], f.WF)
      ∧ ∃ out cs,
        createFromBlobs sampleConfig ([redPixel, bluePixel].map Frame.bytes) = .ok out
          ∧ readChunks out = some cs
          ∧ 12 ≤ out.length
          ∧ out.drop (out.length - 12)
              = [0x00, 0x00, 0x00, 0x00, 0x49, 0x45, 0x4E, 0x44, 0xAE, 0x42, 0x60, 0x82]
          ∧ countType "IEND" cs = 1
          ∧ cs.getLast? = some IENDChunk
          ∧ be32 (ToUint32 (_crc [0x49, 0x45, 0x4E, 0x44] 0 4)) = [0xAE, 0x42, 0x60, 0x82]
          ∧ ToUint32 (_crc [0x49, 0x45, 0x4E, 0x44] 0 4) = 0xAE426082 :=
  ⟨by decide, by decide, IEND_chunk sampleConfig [redPixel, bluePixel] (by decide) (by decide)⟩

end APNG

namespace APNG

/-! ## Output length -/

theorem fdATChunk_bytes_length (seq : Nat) (data : List Nat) :
    (fdATChunk seq data).bytes.length = data.length + 16 := by
  rw [fdATChunk_bytes]
  simp [strBytes]
  omega

theorem fcTLChunk_bytes_length (cfg : Config) (seq : Nat) :
    (fcTLChunk cfg seq).bytes.length = 38 := by
  rw [Chunk.bytes_length _ (fcTLChunk_readable cfg seq)]
  simp [fcTLChunk, mkChunk]

theorem flatten_bytes_length (cs : List Chunk) :
    ((cs.map Chunk.bytes).flatten).length = (cs.map (fun c => c.bytes.length)).sum := by
  induction cs with
  | nil => rfl
  | cons c rest ih => simp [ih]

theorem fdATChunks_bytes_length (cs : List Chunk) :
    ∀ seq, (((fdATChunks seq cs).map Chunk.bytes).flatten).length
      = (cs.map (fun c => c.data.length + 16)).sum := by
  induction cs with
  | nil => intro _; rfl
  | cons c rest ih =>
    intro seq
    simp only [fdATChunks, List.map_cons, List.flatten_cons, List.length_append, List.sum_cons,
      fdATChunk_bytes_length, ih]

theorem restChunks_bytes_length (cfg : Config) (fs : List Frame) :
    ∀ seq, (((restChunks cfg seq fs).map Chunk.bytes).flatten).length
      = fs.length * 38
        + (fs.map (fun f => (f.idats.map (fun c => c.data.length + 16)).sum)).sum := by
  induction fs with
  | nil => intro _; rfl
  | cons f rest ih =>
    intro seq
    simp only [restChunks, List.cons_append, List.map_cons, List.map_append, List.flatten_cons,
      List.flatten_append, List.length_append, List.sum_cons, List.length_cons,
      fcTLChunk_bytes_length, fdATChunks_bytes_length, ih]
    omega

set_option maxRecDepth 100000 in
/-- C11, as stated, fails: for the two well-formed 1x1 frames `redPixel`, `bluePixel` the
output has 195 bytes, while the claimed formula gives 191 with the image header chunk
counted as its 25 bytes (and 179 with its declared length 13): an `fdAT` chunk takes its
declared source length plus 16 bytes, not plus 12. -/
theorem output_length_not_claimed :
    (∀ f ∈ [redPixel, bluePixel], f.WF)
      ∧ ∃ out, createFromBlobs sampleConfig ([redPixel, bluePixel].map Frame.bytes) = .ok out
        ∧ out.length = 195
        ∧ claimedLength 25 [redPixel, bluePixel] = 191
        ∧ claimedLength 13 [redPixel, bluePixel] = 179 :=
  ⟨by decide, _, rfl, by decide, by decide, by decide⟩

/-- C11, amended: for `N ≥ 1` well-formed frames the run succeeds and the length of the
output is `8 + 25 + 20 + N*38 + (bytes of frame 0's IDAT chunks) + (sum over frames
1..N-1 and each of their IDAT chunks of declared length + 16) + 12`. -/
theorem output_length (cfg : Config) (frames : List Frame) (hne : frames ≠ [])
    (hwf : ∀ f ∈ frames, f.WF) :
    ∃ out, createFromBlobs cfg (frames.map Frame.bytes) = .ok out
      ∧ out.length = emittedLength frames
      ∧ emittedLength frames = 8 + 25 + 20 + frames.length * 38
          + ((frames.take 1).map (fun f => (f.idats.map (fun c => c.bytes.length)).sum)).sum
          + ((frames.drop 1).map
              (fun f => (f.idats.map (fun c => c.data.length + 16)).sum)).sum
          + 12 := by
  refine ⟨_, createFromBlobs_wf cfg frames hne hwf, ?_, rfl⟩
  cases frames with
  | nil => exact absurd rfl hne
  | cons f fs =>
    have h1 := IHDRChunk_bytes_length cfg
    have h2 := acTLChunk_bytes_length (fs.length + 1)
    have h3 := fcTLChunk_bytes_length cfg 0
    have h4 := flatten_bytes_length f.idats
    have h5 := restChunks_bytes_length cfg fs 1
    have h6 : IENDChunk.bytes.length = 12 := by decide
    simp only [apngChunks, List.cons_append, List.nil_append, List.map_cons, List.map_append,
      List.flatten_cons, List.flatten_append, List.length_append, h1, h2, h3, h4, h5, h6,
      List.map_nil, List.flatten_nil, List.length_nil, emittedLength, List.take_succ_cons,
      List.take_zero, List.drop_succ_cons, List.drop_zero, List.sum_cons, List.sum_nil,
      List.length_cons]
    have h7 : header.length = 8 := rfl
    omega

theorem output_length_witness :
    [redPixel, bluePixel] ≠ [] ∧ (∀ f ∈ [redPixel, bluePixel], f.WF)
      ∧ ∃ out, createFromBlobs sampleConfig ([redPixel, bluePixel].map Frame.bytes) = .ok out
        ∧ out.length = emittedLength [redPixel, bluePixel]
        ∧ emittedLength [redPixel, bluePixel] = 8 + 25 + 20 + [redPixel, bluePixel].length * 38
            + (([redPixel, bluePixel].take 1).map
                (fun f => (f.idats.map (fun c => c.bytes.length)).sum)).sum
            + (([redPixel, bluePixel].drop 1).map
                (fun f => (f.idats.map (fun c => c.data.length + 16)).sum)).sum
            + 12 :=
  ⟨by decide, by decide, output_length sampleConfig [redPixel, bluePixel] (by decide) (by decide)⟩

/-! ## No frame -/

/-- C13: with an empty frame array the run fails (the `TypeError` that
`readAsArrayBuffer(undefined)` raises): no configuration yields an output buffer, so the
completion callback is never called. -/
theorem no_frames_no_output (cfg : Config) :
    createFromBlobs cfg [] = .error .typeError
      ∧ ∀ out, createFromBlobs cfg [] ≠ .ok out := by
  refine ⟨rfl, ?_⟩
  intro out h
  cases h

/-! ## One frame -/

/-- C15: for `N = 1` and a well-formed frame 0 the output is exactly signature ++ `IHDR`
++ `acTL` (frame count 1) ++ `fcTL` (sequence number 0) ++ frame 0's `IDAT` chunks
unchanged and in order ++ `IEND`; it holds exactly one `fcTL` chunk and no `fdAT`
chunk. -/
theorem single_frame_output (cfg : Config) (f : Frame) (hf : f.WF) :
    createFromBlobs cfg [f.bytes]
        = .ok (header ++ (IHDRChunk cfg).bytes ++ (acTLChunk 1).bytes ++ (fcTLChunk cfg 0).bytes
            ++ (f.idats.map Chunk.bytes).flatten ++ IEND)
      ∧ readChunks (header ++ (IHDRChunk cfg).bytes ++ (acTLChunk 1).bytes
            ++ (fcTLChunk cfg 0).bytes ++ (f.idats.map Chunk.bytes).flatten ++ IEND)
          = some ([IHDRChunk cfg, acTLChunk 1, fcTLChunk cfg 0] ++ f.idats ++ [IENDChunk])
      ∧ countType "fcTL" ([IHDRChunk cfg, acTLChunk 1, fcTLChunk cfg 0] ++ f.idats
          ++ [IENDChunk]) = 1
      ∧ countType "fdAT" ([IHDRChunk cfg, acTLChunk 1, fcTLChunk cfg 0] ++ f.idats
          ++ [IENDChunk]) = 0 := by
  have hwf : ∀ g ∈ [f], g.WF := by
    intro g hg
    rw [List.mem_singleton] at hg
    exact hg ▸ hf
  obtain ⟨out, h1, h2, h3⟩ := output_chunks cfg [f] (by simp) hwf
  have hI : IEND = IENDChunk.bytes := by decide
  have ha : apngChunks cfg [f]
      = [IHDRChunk cfg, acTLChunk 1, fcTLChunk cfg 0] ++ f.idats ++ [IENDChunk] := by
    simp [apngChunks, restChunks]
  have hout : out = header ++ (IHDRChunk cfg).bytes ++ (acTLChunk 1).bytes
      ++ (fcTLChunk cfg 0).bytes ++ (f.idats.map Chunk.bytes).flatten ++ IEND := by
    rw [h2, ha, hI]
    simp [List.append_assoc]
  have hc := countType_apngChunks "fcTL" cfg f []
  have hd := countType_apngChunks "fdAT" cfg f []
  rw [← ha]
  refine ⟨?_, ?_, ?_, ?_⟩
  · rw [← hout]
    exact h1
  · rw [← hout]
    exact h3
  · rw [hc]
    have e1 : ¬ strBytes "IHDR" = strBytes "fcTL" := by decide
    have e2 : ¬ strBytes "acTL" = strBytes "fcTL" := by decide
    have e3 : ¬ [0x49, 0x44, 0x41, 0x54] = strBytes "fcTL" := by decide
    have e4 : ¬ strBytes "fdAT" = strBytes "fcTL" := by decide
    have e5 : ¬ strBytes "IEND" = strBytes "fcTL" := by decide
    simp [e1, e2, e3, e4, e5]
  · rw [hd]
    have e1 : ¬ strBytes "IHDR" = strBytes "fdAT" := by decide
    have e2 : ¬ strBytes "acTL" = strBytes "fdAT" := by decide
    have e3 : ¬ [0x49, 0x44, 0x41, 0x54] = strBytes "fdAT" := by decide
    have e4 : ¬ strBytes "fcTL" = strBytes "fdAT" := by decide
    have e5 : ¬ strBytes "IEND" = strBytes "fdAT" := by decide
    simp [e1, e2, e3, e4, e5, idatTotal_nil]

theorem single_frame_output_witness :
    redPixel.WF
      ∧ (createFromBlobs sampleConfig [redPixel.bytes]
          = .ok (header ++ (IHDRChunk sampleConfig).bytes ++ (acTLChunk 1).bytes
              ++ (fcTLChunk sampleConfig 0).bytes
              ++ (redPixel.idats.map Chunk.bytes).flatten ++ IEND)
        ∧ readChunks (header ++ (IHDRChunk sampleConfig).bytes ++ (acTLChunk 1).bytes
              ++ (fcTLChunk sampleConfig 0).bytes
              ++ (redPixel.idats.map Chunk.bytes).flatten ++ IEND)
            = some ([IHDRChunk sampleConfig, acTLChunk 1, fcTLChunk sampleConfig 0]
                ++ redPixel.idats ++ [IENDChunk])
        ∧ countType "fcTL" ([IHDRChunk sampleConfig, acTLChunk 1, fcTLChunk sampleConfig 0]
            ++ redPixel.idats ++ [IENDChunk]) = 1
        ∧ countType "fdAT" ([IHDRChunk sampleConfig, acTLChunk 1, fcTLChunk sampleConfig 0]
            ++ redPixel.idats ++ [IENDChunk]) = 0) :=
  ⟨by decide, single_frame_output sampleConfig redPixel (by decide)⟩

end APNG

namespace APNG

/-! ## Only the pixel-data chunks of the input matter -/

theorem fdATChunks_data (cs : List Chunk) :
    ∀ (ds : List Chunk) (seq : Nat), cs.map (fun c => c.data) = ds.map (fun c => c.data) →
      fdATChunks seq cs = fdATChunks seq ds := by
  induction cs with
  | nil =>
    intro ds seq h
    cases ds with
    | nil => rfl
    | cons d ds => simp at h
  | cons c rest ih =>
    intro ds seq h
    cases ds with
    | nil => simp at h
    | cons d ds =>
      simp only [List.map_cons, List.cons.injEq] at h
      simp only [fdATChunks, h.1, ih ds (seq + 1) h.2]

theorem restChunks_data (cfg : Config) (fs : List Frame) :
    ∀ (gs : List Frame) (seq : Nat),
      fs.map (fun f => f.idats.map (fun c => c.data))
          = gs.map (fun g => g.idats.map (fun c => c.data)) →
      restChunks cfg seq fs = restChunks cfg seq gs := by
  induction fs with
  | nil =>
    intro gs seq h
    cases gs with
    | nil => rfl
    | cons g gs => simp at h
  | cons f rest ih =>
    intro gs seq h
    cases gs with
    | nil => simp at h
    | cons g gs =>
      simp only [List.map_cons, List.cons.injEq] at h
      have hl : f.idats.length = g.idats.length := by
        have := congrArg List.length h.1
        simpa using this
      simp only [restChunks, fdATChunks_data f.idats g.idats (seq + 1) h.1, hl,
        ih gs (seq + 1 + g.idats.length) h.2]

/-- C18: two lists of well-formed frames that have, frame by frame, the same `IDAT`
chunks (for frame 0 with the same stored checksums, for the later frames the same
payloads) give, under the same configuration, the same output bytes, whatever their
signatures, their `IHDR`, `IEND` and other chunks hold; and the run succeeds. -/
theorem output_depends_on_IDAT_only (cfg : Config) (f0 g0 : Frame) (fs gs : List Frame)
    (hf : ∀ f ∈ f0 :: fs, f.WF) (hg : ∀ g ∈ g0 :: gs, g.WF) (h0 : f0.idats = g0.idats)
    (hrest : fs.map (fun f => f.idats.map (fun c => c.data))
      = gs.map (fun g => g.idats.map (fun c => c.data))) :
    createFromBlobs cfg ((f0 :: fs).map Frame.bytes)
        = createFromBlobs cfg ((g0 :: gs).map Frame.bytes)
      ∧ ∃ out, createFromBlobs cfg ((f0 :: fs).map Frame.bytes) = .ok out := by
  have hl : fs.length = gs.length := by
    have := congrArg List.length hrest
    simpa using this
  have ha : apngChunks cfg (f0 :: fs) = apngChunks cfg (g0 :: gs) := by
    simp only [apngChunks, h0, hl, restChunks_data cfg fs gs 1 hrest]
  refine ⟨?_, _, createFromBlobs_wf cfg (f0 :: fs) (by simp) hf⟩
  rw [createFromBlobs_wf cfg (f0 :: fs) (by simp) hf,
    createFromBlobs_wf cfg (g0 :: gs) (by simp) hg, ha]

theorem output_depends_on_IDAT_only_witness :
    (∀ f ∈ redPixel :: [bluePixel], f.WF) ∧ (∀ g ∈ redVariant :: [blueVariant], g.WF)
      ∧ redPixel.idats = redVariant.idats
      ∧ [bluePixel].map (fun f => f.idats.map (fun c => c.data))
          = [blueVariant].map (fun g => g.idats.map (fun c => c.data))
      ∧ (createFromBlobs sampleConfig ((redPixel :: [bluePixel]).map Frame.bytes)
            = createFromBlobs sampleConfig ((redVariant :: [blueVariant]).map Frame.bytes)
          ∧ ∃ out,
            createFromBlobs sampleConfig ((redPixel :: [bluePixel]).map Frame.bytes) = .ok out) :=
  ⟨by decide, by decide, by decide, by decide,
    output_depends_on_IDAT_only sampleConfig redPixel redVariant [bluePixel] [blueVariant]
      (by decide) (by decide) (by decide) (by decide)⟩

end APNG

namespace APNG

/-! ## Frame regions and delays -/

theorem restChunks_fcTL (cfg : Config) (fs : List Frame) :
    ∀ seq, ∀ c ∈ restChunks cfg seq fs, c.type = strBytes "fcTL" →
      ∃ s, c = fcTLChunk cfg s := by
  induction fs with
  | nil => intro _ c hc; simp [restChunks] at hc
  | cons f rest ih =>
    intro seq c hc ht
    simp only [restChunks, List.cons_append, List.mem_cons, List.mem_append] at hc
    rcases hc with rfl | hc | hc
    · exact ⟨seq, rfl⟩
    · have h := fdATChunks_type f.idats (seq + 1) c hc
      rw [h] at ht
      exact absurd ht (by decide)
    · exact ih _ c hc ht

theorem apngChunks_fcTL (cfg : Config) (frames : List Frame) :
    ∀ c ∈ apngChunks cfg frames, c.type = strBytes "fcTL" → ∃ s, c = fcTLChunk cfg s := by
  cases frames with
  | nil => intro c hc; simp [apngChunks] at hc
  | cons f fs =>
    intro c hc ht
    simp only [apngChunks, List.cons_append, List.nil_append, List.mem_cons, List.mem_append,
      List.mem_singleton] at hc
    have e1 : ¬ strBytes "IHDR" = strBytes "fcTL" := by decide
    have e2 : ¬ strBytes "acTL" = strBytes "fcTL" := by decide
    rcases hc with rfl | rfl | rfl | hc
    · exact absurd ht e1
    · exact absurd ht e2
    · exact ⟨0, rfl⟩
    · rcases hc with (hc | hc) | hc
      · rw [(mem_idats hc).2] at ht
        exact absurd ht (by decide)
      · exact restChunks_fcTL cfg fs 1 c hc ht
      · rcases hc with rfl | hc
        · exact absurd ht (by decide)
        · exact absurd hc (List.not_mem_nil _)

theorem getUint32_field (pre rest : List Nat) (v n : Nat) (hn : pre.length = n) :
    getUint32 (pre ++ be32 v ++ rest) n = some (v % 4294967296) := by
  have h := getUint32_be32 pre rest (v % 4294967296) (Nat.mod_lt _ (by decide))
  rw [be32_mod, hn] at h
  exact h

theorem fcTLChunk_fields (cfg : Config) (seq : Nat) :
    getUint32 (fcTLChunk cfg seq).data 4 = some (cfg.VIDEO_WIDTH % 4294967296)
      ∧ getUint32 (fcTLChunk cfg seq).data 8 = some (cfg.VIDEO_HEIGHT % 4294967296)
      ∧ getUint32 (fcTLChunk cfg seq).data 12 = some 0
      ∧ getUint32 (fcTLChunk cfg seq).data 16 = some 0 := by
  refine ⟨?_, ?_, ?_, ?_⟩
  · have h := getUint32_field (be32 seq) (be32 cfg.VIDEO_HEIGHT ++ be32 0 ++ be32 0
      ++ be16 (1000 / cfg.VIDEO_FPS) ++ be16 1000 ++ [0, 0]) cfg.VIDEO_WIDTH 4 rfl
    simpa [fcTLChunk, mkChunk, List.append_assoc] using h
  · have h := getUint32_field (be32 seq ++ be32 cfg.VIDEO_WIDTH) (be32 0 ++ be32 0
      ++ be16 (1000 / cfg.VIDEO_FPS) ++ be16 1000 ++ [0, 0]) cfg.VIDEO_HEIGHT 8 rfl
    simpa [fcTLChunk, mkChunk, List.append_assoc] using h
  · have h := getUint32_field (be32 seq ++ be32 cfg.VIDEO_WIDTH ++ be32 cfg.VIDEO_HEIGHT)
      (be32 0 ++ be16 (1000 / cfg.VIDEO_FPS) ++ be16 1000 ++ [0, 0]) 0 12 rfl
    simpa [fcTLChunk, mkChunk, List.append_assoc] using h
  · have h := getUint32_field (be32 seq ++ be32 cfg.VIDEO_WIDTH ++ be32 cfg.VIDEO_HEIGHT
      ++ be32 0) (be16 (1000 / cfg.VIDEO_FPS) ++ be16 1000 ++ [0, 0]) 0 16 rfl
    simpa [fcTLChunk, mkChunk, List.append_assoc] using h

theorem IHDRChunk_fields (cfg : Config) :
    getUint32 (IHDRChunk cfg).data 0 = some (cfg.VIDEO_WIDTH % 4294967296)
      ∧ getUint32 (IHDRChunk cfg).data 4 = some (cfg.VIDEO_HEIGHT % 4294967296) := by
  refine ⟨?_, ?_⟩
  · have h := getUint32_field [] (be32 cfg.VIDEO_HEIGHT ++ [8, 6, 0, 0, 0]) cfg.VIDEO_WIDTH 0 rfl
    simpa [IHDRChunk, mkChunk, List.append_assoc] using h
  · have h := getUint32_field (be32 cfg.VIDEO_WIDTH) [8, 6, 0, 0, 0] cfg.VIDEO_HEIGHT 4 rfl
    simpa [IHDRChunk, mkChunk, List.append_assoc] using h

/-- C19: in the output for `N ≥ 1` well-formed frames, the width `w` and height `h`
declared in the `IHDR` chunk are the width and height declared in every `fcTL` chunk, and
every `fcTL` has x-offset 0 and y-offset 0: each frame's region satisfies
`x_offset + width ≤ w`, `y_offset + height ≤ h` and is the full canvas. -/
theorem frame_regions_fit (cfg : Config) (frames : List Frame) (hne : frames ≠ [])
    (hwf : ∀ f ∈ frames, f.WF) :
    ∃ out cs ihdr w h,
      createFromBlobs cfg (frames.map Frame.bytes) = .ok out
        ∧ readChunks out = some cs
        ∧ cs[0]? = some ihdr ∧ ihdr.type = strBytes "IHDR"
        ∧ getUint32 ihdr.data 0 = some w ∧ getUint32 ihdr.data 4 = some h
        ∧ ∀ c ∈ cs, c.type = strBytes "fcTL" →
            ∃ x y fw fh, getUint32 c.data 4 = some fw ∧ getUint32 c.data 8 = some fh
              ∧ getUint32 c.data 12 = some x ∧ getUint32 c.data 16 = some y
              ∧ fw = w ∧ fh = h ∧ x = 0 ∧ y = 0 ∧ x + fw ≤ w ∧ y + fh ≤ h := by
  obtain ⟨out, h1, _, h3⟩ := output_chunks cfg frames hne hwf
  obtain ⟨rest, h4, _⟩ := apngChunks_head cfg frames hne
  refine ⟨out, _, IHDRChunk cfg, _, _, h1, h3, ?_, rfl, (IHDRChunk_fields cfg).1,
    (IHDRChunk_fields cfg).2, ?_⟩
  · rw [h4]
    simp
  · intro c hc ht
    obtain ⟨s, rfl⟩ := apngChunks_fcTL cfg frames c hc ht
    obtain ⟨f1, f2, f3, f4⟩ := fcTLChunk_fields cfg s
    exact ⟨0, 0, _, _, f1, f2, f3, f4, rfl, rfl, rfl, rfl, by omega, by omega⟩

theorem frame_regions_fit_witness :
    [redPixel, bluePixel] ≠ [] ∧ (∀ f ∈ [redPixel, bluePixel], f.WF)
      ∧ ∃ out cs ihdr w h,
        createFromBlobs sampleConfig ([redPixel, bluePixel].map Frame.bytes) = .ok out
          ∧ readChunks out = some cs
          ∧ cs[0]? = some ihdr ∧ ihdr.type = strBytes "IHDR"
          ∧ getUint32 ihdr.data 0 = some w ∧ getUint32 ihdr.data 4 = some h
          ∧ ∀ c ∈ cs, c.type = strBytes "fcTL" →
              ∃ x y fw fh, getUint32 c.data 4 = some fw ∧ getUint32 c.data 8 = some fh
                ∧ getUint32 c.data 12 = some x ∧ getUint32 c.data 16 = some y
                ∧ fw = w ∧ fh = h ∧ x = 0 ∧ y = 0 ∧ x + fw ≤ w ∧ y + fh ≤ h :=
  ⟨by decide, by decide,
    frame_regions_fit sampleConfig [redPixel, bluePixel] (by decide) (by decide)⟩

theorem fcTLChunk_delay_bytes (cfg : Config) (seq : Nat) :
    slice (fcTLChunk cfg seq).bytes 28 30 = be16 (1000 / cfg.VIDEO_FPS)
      ∧ slice (fcTLChunk cfg seq).bytes 30 32 = be16 1000 := by
  rw [fcTLChunk_bytes]
  refine ⟨?_, ?_⟩
  · exact slice_at _ (be32 26 ++ strBytes "fcTL" ++ be32 seq ++ be32 cfg.VIDEO_WIDTH
      ++ be32 cfg.VIDEO_HEIGHT ++ be32 0 ++ be32 0) (be16 (1000 / cfg.VIDEO_FPS))
      (be16 1000 ++ [0, 0] ++ be32 (crc32 (strBytes "fcTL" ++ be32 seq ++ be32 cfg.VIDEO_WIDTH
        ++ be32 cfg.VIDEO_HEIGHT ++ be32 0 ++ be32 0 ++ be16 (1000 / cfg.VIDEO_FPS)
        ++ be16 1000 ++ [0, 0]))) 28 30 (by simp only [List.append_assoc]) rfl rfl
  · exact slice_at _ (be32 26 ++ strBytes "fcTL" ++ be32 seq ++ be32 cfg.VIDEO_WIDTH
      ++ be32 cfg.VIDEO_HEIGHT ++ be32 0 ++ be32 0 ++ be16 (1000 / cfg.VIDEO_FPS)) (be16 1000)
      ([0, 0] ++ be32 (crc32 (strBytes "fcTL" ++ be32 seq ++ be32 cfg.VIDEO_WIDTH
        ++ be32 cfg.VIDEO_HEIGHT ++ be32 0 ++ be32 0 ++ be16 (1000 / cfg.VIDEO_FPS)
        ++ be16 1000 ++ [0, 0]))) 30 32 (by simp only [List.append_assoc]) rfl rfl

theorem u16_be16 (v : Nat) (hv : v < 65536) : u16 (be16 v) = v := by
  simp only [u16, be16, List.getD_cons_zero, List.getD_cons_succ]
  omega

/-- C20: for a positive whole frame rate `fps` the `fcTL` array the encoder builds holds
`delay_num = floor(1000 / fps)` at bytes 28-29 and `delay_den = 1000` at bytes 30-31; the
encoded delay `delay_num / delay_den` seconds equals `1 / fps` exactly if and only if
`fps` divides 1000.  For the shipped configuration (`fps = 15`) the field is 66: the
delay is 66/1000 s, not 1/15 s. -/
theorem delay_fields (cfg : Config) (seq : Nat) (hfps : 0 < cfg.VIDEO_FPS) :
    mkfcTL cfg seq = .ok (fcTLChunk cfg seq).bytes
      ∧ u16 (slice (fcTLChunk cfg seq).bytes 28 30) = 1000 / cfg.VIDEO_FPS
      ∧ u16 (slice (fcTLChunk cfg seq).bytes 30 32) = 1000
      ∧ ((((1000 / cfg.VIDEO_FPS : Nat) : ℚ) / 1000 = 1 / (cfg.VIDEO_FPS : ℚ))
          ↔ cfg.VIDEO_FPS ∣ 1000)
      ∧ u16 (slice (fcTLChunk shippedConfig seq).bytes 28 30) = 66
      ∧ (66 : ℚ) / 1000 ≠ 1 / 15 := by
  have hq : 1000 / cfg.VIDEO_FPS ≤ 1000 := Nat.div_le_self _ _
  refine ⟨bytes_fcTLChunk cfg seq, ?_, ?_, ?_, ?_, by norm_num⟩
  · rw [(fcTLChunk_delay_bytes cfg seq).1]
    exact u16_be16 _ (by omega)
  · rw [(fcTLChunk_delay_bytes cfg seq).2]
    rfl
  · have hne : (cfg.VIDEO_FPS : ℚ) ≠ 0 := by
      exact_mod_cast Nat.pos_iff_ne_zero.mp hfps
    rw [div_eq_div_iff (by norm_num) hne]
    constructor
    · intro h
      have h' : 1000 / cfg.VIDEO_FPS * cfg.VIDEO_FPS = 1000 := by exact_mod_cast h
      exact Dvd.intro_left _ h'
    · intro h
      have h' := Nat.div_mul_cancel h
      exact_mod_cast h'
  · rw [(fcTLChunk_delay_bytes shippedConfig seq).1]
    rfl

theorem delay_fields_witness :
    0 < sampleConfig.VIDEO_FPS
      ∧ (mkfcTL sampleConfig 0 = .ok (fcTLChunk sampleConfig 0).bytes
        ∧ u16 (slice (fcTLChunk sampleConfig 0).bytes 28 30) = 1000 / sampleConfig.VIDEO_FPS
        ∧ u16 (slice (fcTLChunk sampleConfig 0).bytes 30 32) = 1000
        ∧ ((((1000 / sampleConfig.VIDEO_FPS : Nat) : ℚ) / 1000
              = 1 / (sampleConfig.VIDEO_FPS : ℚ))
            ↔ sampleConfig.VIDEO_FPS ∣ 1000)
        ∧ u16 (slice (fcTLChunk shippedConfig 0).bytes 28 30) = 66
        ∧ (66 : ℚ) / 1000 ≠ 1 / 15) :=
  ⟨by decide, delay_fields sampleConfig 0 (by decide)⟩

end APNG

namespace APNG

/-! ## The recorded chunk loop -/

/-- Dropping the record from `walkTrace` gives `walk`. -/
theorem walkTrace_erase (frame_num : Nat) (result : List Nat) :
    ∀ (fuel pos : Nat) (st : State),
      (walkTrace frame_num result fuel pos st).map (fun r => r.1)
        = walk frame_num result fuel pos st := by
  intro fuel
  induction fuel with
  | zero => intro pos st; rfl
  | succ n ih =>
    intro pos st
    unfold walkTrace walk
    cases hb : walkBody frame_num result pos st with
    | error e => rfl
    | ok r =>
      obtain ⟨st', pos'⟩ := r
      simp only [bind, Except.bind]
      by_cases hend : pos' ≥ result.length
      · simp only [if_pos hend]
        rfl
      · simp only [if_neg hend]
        rw [← ih pos' st']
        cases walkTrace frame_num result n pos' st' with
        | error e => rfl
        | ok r2 => rfl

theorem tagNat_four (a b c d : Nat) :
    tagNat [a, b, c, d] = a * 16777216 + b * 65536 + c * 256 + d := rfl

theorem visit_reads (pre post : List Nat) (c : Chunk) (hc : c.Readable) :
    getUint32 (pre ++ c.bytes ++ post) pre.length = some c.data.length
      ∧ getUint32 (pre ++ c.bytes ++ post) (pre.length + 4) = some (tagNat c.type) := by
  obtain ⟨ht, _, _, hd⟩ := hc
  obtain ⟨t0, t1, t2, t3, htype⟩ := length_four ht
  refine ⟨?_, ?_⟩
  · have := getUint32_be32 pre (c.type ++ c.data ++ c.crc ++ post) c.data.length hd
    simpa [Chunk.bytes, List.append_assoc] using this
  · have := getUint32_at (pre ++ be32 c.data.length) (c.data ++ c.crc ++ post) t0 t1 t2 t3
    rw [htype, tagNat_four]
    simpa [Chunk.bytes, List.append_assoc, htype] using this

/-- The recorded loop over a buffer made of readable chunks: one visit per chunk, in
order, and the cursor stops at the end of the buffer. -/
theorem walkTrace_chunks (frame_num : Nat) (cs : List Chunk) :
    ∀ (pre : List Nat) (st : State) (fuel : Nat), cs ≠ [] → (∀ c ∈ cs, c.Readable) →
      cs.length ≤ fuel →
      walkTrace frame_num (pre ++ (cs.map Chunk.bytes).flatten) fuel pre.length st
        = .ok (cs.foldl (emitChunk frame_num) st, visitsOf pre.length cs,
            (pre ++ (cs.map Chunk.bytes).flatten).length) := by
  induction cs with
  | nil => intro _ _ _ h; exact absurd rfl h
  | cons c rest ih =>
    intro pre st fuel _ hr hf
    have hc : c.Readable := hr c (List.mem_cons_self _ _)
    have hlen := Chunk.bytes_length c hc
    obtain ⟨fuel, rfl⟩ : ∃ k, fuel = k + 1 := ⟨fuel - 1, by simp at hf; omega⟩
    have hbody := walkBody_chunk frame_num pre ((rest.map Chunk.bytes).flatten) c hc st
    obtain ⟨hr1, hr2⟩ := visit_reads pre ((rest.map Chunk.bytes).flatten) c hc
    have hres : pre ++ ((c :: rest).map Chunk.bytes).flatten
        = pre ++ c.bytes ++ (rest.map Chunk.bytes).flatten := by simp
    rw [hres]
    unfold walkTrace
    simp only [hbody, hr1, hr2, bind, Except.bind, Option.getD_some]
    cases rest with
    | nil => simp [pure, Except.pure, visitsOf]
    | cons c2 rest2 =>
      have hc2 : c2.Readable := hr c2 (by simp)
      have hpos := flatten_bytes_length_pos c2 rest2 hc2
      have hlt : ¬ (pre.length + c.bytes.length
          ≥ (pre ++ c.bytes ++ ((c2 :: rest2).map Chunk.bytes).flatten).length) := by
        simp only [List.length_append]
        omega
      rw [if_neg hlt]
      have h := ih (pre ++ c.bytes) (emitChunk frame_num st c) fuel (by simp)
        (fun x hx => hr x (List.mem_cons_of_mem _ hx)) (by simp at hf ⊢; omega)
      have hl : (pre ++ c.bytes).length = pre.length + c.data.length + 12 := by
        rw [List.length_append, hlen]
        omega
      rw [hl] at h
      have hl2 : pre.length + c.bytes.length = pre.length + c.data.length + 12 := by omega
      rw [hl2, h]
      simp [pure, Except.pure, visitsOf]

theorem visitsOf_map_chunkLen (cs : List Chunk) :
    ∀ o, (visitsOf o cs).map (fun v => v.chunkLen) = cs.map (fun c => c.data.length) := by
  induction cs with
  | nil => intro _; rfl
  | cons c rest ih => intro o; simp [visitsOf, ih]

theorem visitsOf_map_type (cs : List Chunk) :
    ∀ o, (visitsOf o cs).map (fun v => v.type) = cs.map (fun c => tagNat c.type) := by
  induction cs with
  | nil => intro _; rfl
  | cons c rest ih => intro o; simp [visitsOf, ih]

theorem visitsOf_offset (cs : List Chunk) :
    ∀ (o i : Nat), i < cs.length →
      ((visitsOf o cs)[i]?).map (fun v => v.offset)
        = some (o + ((cs.take i).map (fun c => c.data.length + 12)).sum) := by
  induction cs with
  | nil => intro _ i h; simp at h
  | cons c rest ih =>
    intro o i h
    cases i with
    | zero => simp [visitsOf]
    | succ i =>
      simp only [List.length_cons] at h
      simp only [visitsOf, List.getElem?_cons_succ, List.take_succ_cons, List.map_cons,
        List.sum_cons]
      rw [ih (o + c.data.length + 12) i (by omega)]
      congr 1
      omega

theorem visitsOf_in_bounds (cs : List Chunk) (hr : ∀ c ∈ cs, c.Readable) :
    ∀ (o : Nat), ∀ v ∈ visitsOf o cs,
      v.offset + v.chunkLen + 12 ≤ o + ((cs.map Chunk.bytes).flatten).length := by
  induction cs with
  | nil => intro _ v hv; simp [visitsOf] at hv
  | cons c rest ih =>
    intro o v hv
    have hlen := Chunk.bytes_length c (hr c (List.mem_cons_self _ _))
    simp only [visitsOf, List.mem_cons] at hv
    simp only [List.map_cons, List.flatten_cons, List.length_append]
    rcases hv with rfl | hv
    · simp only
      omega
    · have := ih (fun x hx => hr x (List.mem_cons_of_mem _ hx)) _ v hv
      omega

end APNG

namespace APNG

/-- C16: for a buffer made of an 8-byte signature followed by `k ≥ 1` chunks laid out
consistently with their declared lengths, the chunk loop of `createFromBlobs` (started at
cursor 8, for any frame number and state) returns, having visited exactly those `k`
chunks in order: the `i`-th visit is at offset `8 + (L1 + 12) + ... + (Li-1 + 12)` and
reads that chunk's declared length and 4-byte type; every visited chunk lies inside the
buffer, and the loop stops with the cursor equal to the buffer length. -/
theorem chunk_walk_visits (frame_num : Nat) (sig : List Nat) (cs : List Chunk) (st : State)
    (hs : sig.length = 8) (hne : cs ≠ []) (hr : ∀ c ∈ cs, c.Readable) :
    ∃ st' vs,
      walkTrace frame_num (sig ++ (cs.map Chunk.bytes).flatten)
          ((sig ++ (cs.map Chunk.bytes).flatten).length + 1) 8 st
        = .ok (st', vs, (sig ++ (cs.map Chunk.bytes).flatten).length)
      ∧ walk frame_num (sig ++ (cs.map Chunk.bytes).flatten)
          ((sig ++ (cs.map Chunk.bytes).flatten).length + 1) 8 st = .ok st'
      ∧ vs.length = cs.length
      ∧ vs.map (fun v => v.chunkLen) = cs.map (fun c => c.data.length)
      ∧ vs.map (fun v => v.type) = cs.map (fun c => tagNat c.type)
      ∧ (∀ i, i < cs.length →
          (vs[i]?).map (fun v => v.offset)
            = some (8 + ((cs.take i).map (fun c => c.data.length + 12)).sum))
      ∧ (∀ v ∈ vs,
          v.offset + v.chunkLen + 12 ≤ (sig ++ (cs.map Chunk.bytes).flatten).length) := by
  have h := walkTrace_chunks frame_num cs sig st
    ((sig ++ (cs.map Chunk.bytes).flatten).length + 1) hne hr (by
      have := length_le_flatten_bytes cs hr
      simp only [List.length_append]
      omega)
  rw [hs] at h
  refine ⟨_, _, h, ?_, ?_, visitsOf_map_chunkLen cs 8, visitsOf_map_type cs 8,
    visitsOf_offset cs 8, ?_⟩
  · rw [← walkTrace_erase, h]
    rfl
  · have := congrArg List.length (visitsOf_map_chunkLen cs 8)
    simpa using this
  · intro v hv
    have := visitsOf_in_bounds cs hr 8 v hv
    rw [List.length_append, hs]
    exact this

theorem chunk_walk_visits_witness :
    redPixel.signature.length = 8 ∧ redPixel.chunks ≠ [] ∧ (∀ c ∈ redPixel.chunks, c.Readable)
      ∧ ∃ st' vs,
        walkTrace 1 (redPixel.signature ++ (redPixel.chunks.map Chunk.bytes).flatten)
            ((redPixel.signature ++ (redPixel.chunks.map Chunk.bytes).flatten).length + 1) 8
            { chunks := [], sequence_number := 0 }
          = .ok (st', vs,
              (redPixel.signature ++ (redPixel.chunks.map Chunk.bytes).flatten).length)
        ∧ walk 1 (redPixel.signature ++ (redPixel.chunks.map Chunk.bytes).flatten)
            ((redPixel.signature ++ (redPixel.chunks.map Chunk.bytes).flatten).length + 1) 8
            { chunks := [], sequence_number := 0 } = .ok st'
        ∧ vs.length = redPixel.chunks.length
        ∧ vs.map (fun v => v.chunkLen) = redPixel.chunks.map (fun c => c.data.length)
        ∧ vs.map (fun v => v.type) = redPixel.chunks.map (fun c => tagNat c.type)
        ∧ (∀ i, i < redPixel.chunks.length →
            (vs[i]?).map (fun v => v.offset)
              = some (8 + ((redPixel.chunks.take i).map (fun c => c.data.length + 12)).sum))
        ∧ (∀ v ∈ vs, v.offset + v.chunkLen + 12
            ≤ (redPixel.signature ++ (redPixel.chunks.map Chunk.bytes).flatten).length) :=
  ⟨by decide, by decide, by decide,
    chunk_walk_visits 1 redPixel.signature redPixel.chunks { chunks := [], sequence_number := 0 }
      (by decide) (by decide) (by decide)⟩

theorem fdATChunks_map_type (cs : List Chunk) :
    ∀ seq, (fdATChunks seq cs).map (fun c => c.type)
      = List.replicate cs.length (strBytes "fdAT") := by
  induction cs with
  | nil => intro _; rfl
  | cons c rest ih =>
    intro seq
    simp only [fdATChunks, List.map_cons, ih, List.length_cons, List.replicate_succ]
    rfl

theorem idats_map_type (f : Frame) :
    f.idats.map (fun c => c.type) = List.replicate f.idats.length (strBytes "IDAT") := by
  rw [List.eq_replicate_iff]
  refine ⟨by simp, ?_⟩
  intro b hb
  obtain ⟨c, hc, rfl⟩ := List.mem_map.mp hb
  rw [(mem_idats hc).2]
  decide

theorem restChunks_map_type (cfg : Config) (fs : List Frame) :
    ∀ seq, (restChunks cfg seq fs).map (fun c => c.type)
      = (fs.map (fun f => strBytes "fcTL"
          :: List.replicate f.idats.length (strBytes "fdAT"))).flatten := by
  induction fs with
  | nil => intro _; rfl
  | cons f rest ih =>
    intro seq
    simp only [restChunks, List.cons_append, List.map_cons, List.map_append,
      fdATChunks_map_type, ih, List.flatten_cons]
    rfl

/-- C12: for `N ≥ 1` well-formed frames the run succeeds, and the chunk loop run over the
output (cursor from 8, steps of declared length + 12) stops with the cursor exactly at
the output's length, having visited the chunk types `IHDR`, `acTL`, then for frame 0
`fcTL` and one `IDAT` per `IDAT` chunk of frame 0, then for each later frame in order
`fcTL` and one `fdAT` per `IDAT` chunk of that frame, then `IEND`; the frame count read
back from the `acTL` chunk is `N` (as a 32-bit field). -/
theorem output_chunk_sequence (cfg : Config) (f0 : Frame) (fs : List Frame)
    (hwf : ∀ f ∈ f0 :: fs, f.WF) (st : State) :
    ∃ out st' vs cs actl,
      createFromBlobs cfg ((f0 :: fs).map Frame.bytes) = .ok out
        ∧ walkTrace 0 out (out.length + 1) 8 st = .ok (st', vs, out.length)
        ∧ readChunks out = some cs
        ∧ vs.map (fun v => v.type) = cs.map (fun c => tagNat c.type)
        ∧ cs.map (fun c => c.type)
            = [strBytes "IHDR", strBytes "acTL"]
              ++ (strBytes "fcTL" :: List.replicate f0.idats.length (strBytes "IDAT"))
              ++ (fs.map (fun f => strBytes "fcTL"
                  :: List.replicate f.idats.length (strBytes "fdAT"))).flatten
              ++ [strBytes "IEND"]
        ∧ cs[1]? = some actl ∧ actl.type = strBytes "acTL"
        ∧ getUint32 actl.data 0 = some ((fs.length + 1) % 4294967296) := by
  obtain ⟨out, h1, h2, h3⟩ := output_chunks cfg (f0 :: fs) (by simp) hwf
  have hr := apngChunks_readable cfg (f0 :: fs) hwf
  have hne := apngChunks_ne_nil cfg (f0 :: fs) (by simp)
  have ht := walkTrace_chunks 0 (apngChunks cfg (f0 :: fs)) header st (out.length + 1) hne hr (by
    have := length_le_flatten_bytes _ hr
    rw [h2, List.length_append]
    omega)
  rw [← h2] at ht
  have hh : header.length = 8 := rfl
  rw [hh] at ht
  refine ⟨out, _, _, _, acTLChunk (fs.length + 1), h1, ht, h3, visitsOf_map_type _ 8, ?_, ?_,
    rfl, ?_⟩
  · simp only [apngChunks, List.cons_append, List.nil_append, List.map_cons, List.map_append,
      idats_map_type, restChunks_map_type, List.map_nil]
    rfl
  · simp [apngChunks]
  · have h := getUint32_field [] (be32 0) (fs.length + 1) 0 rfl
    simpa [acTLChunk, mkChunk] using h

theorem output_chunk_sequence_witness :
    (∀ f ∈ redPixel :: [bluePixel], f.WF)
      ∧ ∃ out st' vs cs actl,
        createFromBlobs sampleConfig ((redPixel :: [bluePixel]).map Frame.bytes) = .ok out
          ∧ walkTrace 0 out (out.length + 1) 8 { chunks := [], sequence_number := 0 }
              = .ok (st', vs, out.length)
          ∧ readChunks out = some cs
          ∧ vs.map (fun v => v.type) = cs.map (fun c => tagNat c.type)
          ∧ cs.map (fun c => c.type)
              = [strBytes "IHDR", strBytes "acTL"]
                ++ (strBytes "fcTL" :: List.replicate redPixel.idats.length (strBytes "IDAT"))
                ++ ([bluePixel].map (fun f => strBytes "fcTL"
                    :: List.replicate f.idats.length (strBytes "fdAT"))).flatten
                ++ [strBytes "IEND"]
          ∧ cs[1]? = some actl ∧ actl.type = strBytes "acTL"
          ∧ getUint32 actl.data 0 = some (([bluePixel].length + 1) % 4294967296) :=
  ⟨by decide,
    output_chunk_sequence sampleConfig redPixel [bluePixel] (by decide)
      { chunks := [], sequence_number := 0 }⟩

end APNG

namespace APNG

/-! ## The number of passes of the chunk loop -/

theorem walkPasses_pos (frame_num : Nat) (result : List Nat) (fuel pos : Nat) (st : State) :
    1 ≤ walkPasses frame_num result (fuel + 1) pos st := by
  unfold walkPasses
  cases walkBody frame_num result pos st with
  | error e => exact Nat.le_refl 1
  | ok r =>
    obtain ⟨st', pos'⟩ := r
    simp only
    split
    · exact Nat.le_refl 1
    · omega

theorem walkPasses_le (frame_num : Nat) (result : List Nat) :
    ∀ (fuel pos : Nat) (st : State),
      walkPasses frame_num result fuel pos st ≤ max 1 ((result.length - pos + 11) / 12) := by
  intro fuel
  induction fuel with
  | zero => intro pos st; simp [walkPasses]
  | succ n ih =>
    intro pos st
    unfold walkPasses
    rcases walkBody_result frame_num result pos st with hb | ⟨st', pos', hb, hp⟩
    · rw [hb]
      exact Nat.le_max_left _ _
    · rw [hb]
      simp only
      by_cases hend : pos' ≥ result.length
      · rw [if_pos hend]
        exact Nat.le_max_left _ _
      · rw [if_neg hend]
        have h := ih pos' st'
        have h1 : max 1 ((result.length - pos' + 11) / 12) = (result.length - pos' + 11) / 12 := by
          apply Nat.max_eq_right
          omega
        rw [h1] at h
        have h2 : (result.length - pos' + 11) / 12 + 1 ≤ (result.length - pos + 11) / 12 := by
          omega
        exact Nat.le_trans (by omega) (Nat.le_trans h2 (Nat.le_max_right _ _))

/-- Allowing more passes than the loop needs changes neither its result nor the number
of passes. -/
theorem walk_fuel_indep (frame_num : Nat) (result : List Nat) :
    ∀ (fuel pos : Nat) (st : State), result.length < pos + 12 * (fuel + 1) →
      ∀ big, fuel + 1 ≤ big →
        walk frame_num result big pos st = walk frame_num result (fuel + 1) pos st
          ∧ walkPasses frame_num result big pos st
              = walkPasses frame_num result (fuel + 1) pos st := by
  intro fuel
  induction fuel with
  | zero =>
    intro pos st h big hbig
    obtain ⟨b, rfl⟩ : ∃ b, big = b + 1 := ⟨big - 1, by omega⟩
    unfold walk walkPasses
    rcases walkBody_result frame_num result pos st with hb | ⟨st', pos', hb, hp⟩
    · simp [hb, bind, Except.bind]
    · simp only [hb, bind, Except.bind]
      have hend : pos' ≥ result.length := by omega
      simp only [if_pos hend]
      refine ⟨?_, ?_⟩ <;> first | rfl | trivial
  | succ n ih =>
    intro pos st h big hbig
    obtain ⟨b, rfl⟩ : ∃ b, big = b + 1 := ⟨big - 1, by omega⟩
    unfold walk walkPasses
    rcases walkBody_result frame_num result pos st with hb | ⟨st', pos', hb, hp⟩
    · simp [hb, bind, Except.bind]
    · simp only [hb, bind, Except.bind]
      by_cases hend : pos' ≥ result.length
      · simp only [if_pos hend]
        refine ⟨?_, ?_⟩ <;> first | rfl | trivial
      · simp only [if_neg hend]
        obtain ⟨h1, h2⟩ := ih pos' st' (by omega) b (by omega)
        rw [h1, h2]
        exact ⟨rfl, rfl⟩

/-- C17: for every byte buffer, frame number and state, the chunk loop of `createFromBlobs`
is finite: each pass that does not raise a `RangeError` moves the cursor forward by at
least 12; the loop started at cursor 8 ends by itself (it returns or raises a
`RangeError`, the bound on passes is never what stops it) after at least one and at most
`max(1, ceil((len - 8) / 12))` passes, and allowing more passes changes nothing. -/
theorem chunk_walk_terminates (frame_num : Nat) (result : List Nat) (st : State) :
    walk frame_num result (result.length + 1) 8 st ≠ .error .outOfFuel
      ∧ 1 ≤ walkPasses frame_num result (result.length + 1) 8 st
      ∧ walkPasses frame_num result (result.length + 1) 8 st
          ≤ max 1 ((result.length - 8 + 11) / 12)
      ∧ (∀ pos st0, walkBody frame_num result pos st0 = .error .rangeError
          ∨ ∃ st1 pos1, walkBody frame_num result pos st0 = .ok (st1, pos1) ∧ pos + 12 ≤ pos1)
      ∧ (∀ big, result.length + 1 ≤ big →
          walk frame_num result big 8 st = walk frame_num result (result.length + 1) 8 st
            ∧ walkPasses frame_num result big 8 st
                = walkPasses frame_num result (result.length + 1) 8 st) :=
  ⟨onload_walk_fuel frame_num result st, walkPasses_pos frame_num result result.length 8 st,
    walkPasses_le frame_num result (result.length + 1) 8 st,
    walkBody_result frame_num result,
    walk_fuel_indep frame_num result result.length 8 st (by omega)⟩

end APNG

namespace APNG

/-! ## Malformed frames -/

theorem foldl_set_length (idx : List Nat) (g : Nat → Nat) (p : Nat) :
    ∀ arr : List Nat, (idx.foldl (fun a i => a.set (p + i) (g i)) arr).length = arr.length := by
  induction idx with
  | nil => intro arr; rfl
  | cons i rest ih =>
    intro arr
    rw [List.foldl_cons, ih, List.length_set]

theorem _writeStr_length (arr : List Nat) (pos : Nat) (str : String) :
    (_writeStr arr pos str).length = arr.length := by
  unfold _writeStr
  exact foldl_set_length _ _ pos arr

theorem writeAt_length (arr : List Nat) (pos : Nat) (bytes : List Nat)
    (h : pos + bytes.length ≤ arr.length) : (writeAt arr pos bytes).length = arr.length := by
  unfold writeAt
  simp only [List.length_append, List.length_take, List.length_drop]
  omega

theorem slice_length (buf : List Nat) (a b : Nat) :
    (slice buf a b).length = min b buf.length - a := by
  unfold slice
  simp only [List.length_drop, List.length_take]

theorem setUint32_length (arr out : List Nat) (pos : Nat) (v : Int)
    (h : setUint32 arr pos v = some out) : out.length = arr.length := by
  unfold setUint32 at h
  split at h
  · simp only [Option.some.injEq] at h
    rw [← h]
    exact writeAt_length _ _ _ (by simpa using ‹pos + 4 ≤ arr.length›)
  · simp at h

theorem walkBody_header_cut (frame_num : Nat) (buf : List Nat) (pos : Nat) (st : State)
    (h : buf.length < pos + 8) : walkBody frame_num buf pos st = .error .rangeError := by
  unfold walkBody
  by_cases h4 : pos + 4 ≤ buf.length
  · have h2 : getUint32 buf (pos + 4) = none := getUint32_none _ _ (by omega)
    cases h1 : getUint32 buf pos with
    | none => rfl
    | some chunkLen => simp [h2, orRange, bind, Except.bind]
  · have h1 : getUint32 buf pos = none := getUint32_none _ _ (by omega)
    simp [h1, orRange, bind, Except.bind]

theorem fdATBranch_overrun (buf : List Nat) (pos chunkLen : Nat) (st : State)
    (h : buf.length < pos + chunkLen + 12) :
    fdATBranch buf pos chunkLen st = .error .rangeError := by
  cases hb : fdATBranch buf pos chunkLen st with
  | error e => rw [fdATBranch_error _ _ _ _ _ hb]
  | ok st' =>
    exfalso
    unfold fdATBranch at hb
    simp only [bind, Except.bind, pure, Except.pure] at hb
    split at hb
    next => cases hb
    next a1 h1 =>
      split at hb
      next => cases hb
      next a2 h2 =>
        split at hb
        next => cases hb
        next a3 h3 =>
          have hl2 : a2.length
              = (_writeStr (slice buf pos (pos + chunkLen + 8 + 4)) 0 "fdAT").length := by
            cases hs : setUint32 (_writeStr (slice buf pos (pos + chunkLen + 8 + 4)) 0 "fdAT") 4
                (st.sequence_number : Int) with
            | none => rw [hs] at h2; simp [orRange] at h2
            | some o =>
              rw [hs] at h2
              simp only [orRange, Except.ok.injEq] at h2
              rw [← h2]
              exact setUint32_length _ _ _ _ hs
          rw [_writeStr_length, slice_length] at hl2
          have hnone : setUint32 a2 (chunkLen + 8) (_crc a2 0 (chunkLen + 8)) = none := by
            unfold setUint32
            rw [if_neg (by omega)]
          rw [hnone] at h3
          simp [orRange] at h3

theorem walkBody_overrun (frame_num : Nat) (hk : frame_num ≠ 0) (pre rest : List Nat)
    (L : Nat) (hL : L < 4294967296) (hrest : rest.length < L + 4) (st : State) :
    walkBody frame_num (pre ++ be32 L ++ [0x49, 0x44, 0x41, 0x54] ++ rest) pre.length st
      = .error .rangeError := by
  have hg1 : getUint32 (pre ++ be32 L ++ [0x49, 0x44, 0x41, 0x54] ++ rest) pre.length
      = some L := by
    have := getUint32_be32 pre ([0x49, 0x44, 0x41, 0x54] ++ rest) L hL
    simpa [List.append_assoc] using this
  have hg2 : getUint32 (pre ++ be32 L ++ [0x49, 0x44, 0x41, 0x54] ++ rest) (pre.length + 4)
      = some 0x49444154 := by
    have := getUint32_at (pre ++ be32 L) rest 0x49 0x44 0x41 0x54
    simpa using this
  have hov := fdATBranch_overrun (pre ++ be32 L ++ [0x49, 0x44, 0x41, 0x54] ++ rest)
    pre.length L st (by simp only [List.length_append, be32_length, List.length_cons,
      List.length_nil]; omega)
  unfold walkBody
  simp only [hg1, hg2, orRange, bind, Except.bind, if_true, if_neg hk, hov]

theorem walk_prefix (frame_num : Nat) (cs : List Chunk) (tail : List Nat) (ht : tail ≠ []) :
    ∀ (pre : List Nat) (st : State) (fuel : Nat), (∀ c ∈ cs, c.Readable) →
      walk frame_num (pre ++ (cs.map Chunk.bytes).flatten ++ tail) (cs.length + fuel)
          pre.length st
        = walk frame_num (pre ++ (cs.map Chunk.bytes).flatten ++ tail) fuel
            (pre ++ (cs.map Chunk.bytes).flatten).length (cs.foldl (emitChunk frame_num) st) := by
  induction cs with
  | nil => intro pre st fuel _; simp
  | cons c rest ih =>
    intro pre st fuel hr
    have hc : c.Readable := hr c (List.mem_cons_self _ _)
    have hbody := walkBody_chunk frame_num pre ((rest.map Chunk.bytes).flatten ++ tail) c hc st
    have hres : pre ++ ((c :: rest).map Chunk.bytes).flatten ++ tail
        = pre ++ c.bytes ++ ((rest.map Chunk.bytes).flatten ++ tail) := by simp
    have hres2 : pre ++ ((c :: rest).map Chunk.bytes).flatten ++ tail
        = pre ++ c.bytes ++ (rest.map Chunk.bytes).flatten ++ tail := by simp
    have hfuel : (c :: rest).length + fuel = (rest.length + fuel) + 1 := by
      simp only [List.length_cons]
      omega
    have htl : 0 < tail.length := List.length_pos.mpr ht
    rw [hfuel]
    conv_lhs => unfold walk
    rw [hres]
    simp only [hbody, bind, Except.bind]
    rw [if_neg (by simp only [List.length_append]; omega)]
    have h := ih (pre ++ c.bytes) (emitChunk frame_num st c) fuel
      (fun x hx => hr x (List.mem_cons_of_mem _ hx))
    rw [← hres, hres2]
    rw [List.length_append] at h
    rw [h]
    simp

end APNG

namespace APNG

theorem walk_step_error (frame_num : Nat) (buf : List Nat) (fuel pos : Nat) (st : State)
    (h : walkBody frame_num buf pos st = .error .rangeError) :
    walk frame_num buf (fuel + 1) pos st = .error .rangeError := by
  unfold walk
  simp only [h, bind, Except.bind]

/-- The chunk loop of `onload` on a buffer that, after some readable chunks, is cut inside
a chunk header or (in a frame after the first) holds an `IDAT` chunk running past the end,
raises a `RangeError`. -/
theorem walk_malformed (frame_num : Nat) (sig : List Nat) (cs : List Chunk) (tail : List Nat)
    (st : State) (hs : sig.length = 8) (hr : ∀ c ∈ cs, c.Readable)
    (hbad : (tail.length < 8 ∧ (tail = [] → cs = []))
      ∨ (frame_num ≠ 0 ∧ ∃ L rest, tail = be32 L ++ [0x49, 0x44, 0x41, 0x54] ++ rest
          ∧ L < 4294967296 ∧ rest.length < L + 4)) :
    walk frame_num (sig ++ (cs.map Chunk.bytes).flatten ++ tail)
        ((sig ++ (cs.map Chunk.bytes).flatten ++ tail).length + 1) 8 st
      = .error .rangeError := by
  by_cases ht : tail = []
  · rcases hbad with ⟨_, h2⟩ | ⟨_, L, rest, h2, _, _⟩
    · have hcs := h2 ht
      subst hcs
      subst ht
      exact walk_step_error _ _ _ _ _
        (walkBody_header_cut _ _ _ _ (by simp [hs]))
    · rw [ht] at h2
      have := congrArg List.length h2
      simp only [List.length_nil, List.length_append, be32_length, List.length_cons] at this
      omega
  · have hlen := length_le_flatten_bytes cs hr
    obtain ⟨k, hk⟩ : ∃ k, (sig ++ (cs.map Chunk.bytes).flatten ++ tail).length + 1
        = cs.length + (k + 1) := by
      refine ⟨(sig ++ (cs.map Chunk.bytes).flatten ++ tail).length - cs.length, ?_⟩
      simp only [List.length_append]
      omega
    have hp := walk_prefix frame_num cs tail ht sig st (k + 1) hr
    rw [hs] at hp
    rw [hk, hp]
    apply walk_step_error
    rcases hbad with ⟨h1, _⟩ | ⟨hk0, L, rest, h2, hL, hrest⟩
    · exact walkBody_header_cut _ _ _ _ (by
        simp only [List.length_append] at *
        omega)
    · have := walkBody_overrun frame_num hk0 (sig ++ (cs.map Chunk.bytes).flatten) rest L hL
        hrest (cs.foldl (emitChunk frame_num) st)
      rw [h2]
      simpa [List.append_assoc] using this

theorem onload_error (cfg : Config) (n k : Nat) (buf : List Nat) (st : State)
    (h : ∀ st', walk k buf (buf.length + 1) 8 st' = .error .rangeError) :
    onload cfg n k buf st = .error .rangeError := by
  unfold onload
  by_cases hk : k = 0
  · subst hk
    simp only [bytes_IHDRChunk, bytes_acTLChunk, bytes_fcTLChunk, h]
    simp only [↓reduceIte, bind, Except.bind, pure, Except.pure]
  · rw [if_neg hk]
    simp only [bytes_fcTLChunk, h]
    simp only [bind, Except.bind, pure, Except.pure]

theorem readFrames_cons (cfg : Config) (n k : Nat) (x : List Nat) (l : List (List Nat))
    (st : State) :
    readFrames cfg n (x :: l) k st
      = (onload cfg n k x st).bind (fun st1 => readFrames cfg n l (k + 1) st1) := rfl

theorem readFrames_append (cfg : Config) (n : Nat) (a : List (List Nat)) :
    ∀ (b : List (List Nat)) (k : Nat) (st : State),
      readFrames cfg n (a ++ b) k st
        = (readFrames cfg n a k st).bind (fun st' => readFrames cfg n b (k + a.length) st') := by
  induction a with
  | nil => intro b k st; rfl
  | cons x rest ih =>
    intro b k st
    rw [List.cons_append, readFrames_cons, readFrames_cons]
    cases onload cfg n k x st with
    | error e => rfl
    | ok st1 =>
      show readFrames cfg n (rest ++ b) (k + 1) st1
        = (readFrames cfg n rest (k + 1) st1).bind
            (fun st' => readFrames cfg n b (k + (x :: rest).length) st')
      rw [ih b (k + 1) st1]
      have e : k + 1 + rest.length = k + (x :: rest).length := by
        simp only [List.length_cons]
        omega
      rw [e]

theorem readFrames_bad (cfg : Config) (n k : Nat) (bad : List Nat) (later : List (List Nat))
    (st : State) (h : ∀ st', walk k bad (bad.length + 1) 8 st' = .error .rangeError) :
    readFrames cfg n (bad :: later) k st = .error .rangeError := by
  rw [readFrames_cons, onload_error cfg n k bad st h]
  rfl

end APNG

namespace APNG

theorem readFrames_good (cfg : Config) (n : Nat) (good : List Frame)
    (hgood : ∀ f ∈ good, f.WF) (hne : good ≠ []) (st : State) :
    ∃ st', readFrames cfg n (good.map Frame.bytes) 0 st = .ok st' := by
  cases good with
  | nil => exact absurd rfl hne
  | cons f fs =>
    obtain ⟨st1, h1, _, _⟩ := onload_zero cfg n f (hgood f (List.mem_cons_self _ _)) st
    obtain ⟨st2, h2, _⟩ := readFrames_rest cfg n fs 1 st1 (by omega)
      (fun x hx => hgood x (List.mem_cons_of_mem _ hx))
    refine ⟨st2, ?_⟩
    rw [List.map_cons, readFrames_cons, h1]
    exact h2

theorem ok_bind {α β : Type} (a : α) (f : α → Except Failure β) :
    (Except.ok a : Except Failure α).bind f = f a := rfl

theorem readFrames_then_bad (cfg : Config) (n : Nat) (good : List Frame)
    (hgood : ∀ f ∈ good, f.WF) (bad : List Nat) (later : List (List Nat)) (st : State)
    (hw : ∀ st', walk good.length bad (bad.length + 1) 8 st' = .error .rangeError) :
    readFrames cfg n (good.map Frame.bytes ++ bad :: later) 0 st = .error .rangeError := by
  by_cases hne : good = []
  · subst hne
    rw [List.map_nil, List.nil_append]
    exact readFrames_bad cfg n 0 bad later st hw
  · obtain ⟨st1, h1⟩ := readFrames_good cfg n good hgood hne st
    rw [readFrames_append, h1, ok_bind, List.length_map, Nat.zero_add]
    exact readFrames_bad cfg n good.length bad later st1 hw

theorem createFromBlobs_of_readFrames_error (cfg : Config) (blobs : List (List Nat))
    (hne : blobs ≠ []) (e : Failure)
    (h : readFrames cfg blobs.length blobs 0 { chunks := [header], sequence_number := 0 }
      = .error e) :
    createFromBlobs cfg blobs = .error e := by
  cases blobs with
  | nil => exact absurd rfl hne
  | cons x rest =>
    unfold createFromBlobs createFromBlobsChunks
    simp only
    erw [h]
    rfl

set_option maxRecDepth 100000 in
/-- C14, as stated, fails: `truncatedRed` is a malformed frame 0 (its `IDAT` chunk at
offset 33 declares 13 payload bytes, the buffer of 50 bytes ends after 9 of them), yet
the run returns an output buffer, and that buffer carries the cut chunk as it is: 17
bytes of a chunk that declares 13 + 12, followed by `IEND`. -/
theorem malformed_frame0_accepted :
    truncatedRed.length = 50 ∧ getUint32 truncatedRed 33 = some 13
      ∧ getUint32 truncatedRed 37 = some 0x49444154
      ∧ truncatedRed.length < 33 + 13 + 12
      ∧ createFromBlobs sampleConfig [truncatedRed]
          = .ok (header ++ (IHDRChunk sampleConfig).bytes ++ (acTLChunk 1).bytes
              ++ (fcTLChunk sampleConfig 0).bytes ++ truncatedRed.drop 33 ++ IEND)
      ∧ (truncatedRed.drop 33).length = 17 := by
  refine ⟨by decide, by decide, by decide, by decide, ?_, by decide⟩
  rfl

/-- C14, amended: the run fails with a `RangeError`, handing no buffer to the callback,
when after well-formed frames comes a frame that, behind its signature and some complete
chunks, either (a) is cut inside the 8 bytes of a chunk's length and type fields, or holds
no chunk at all, whatever its index; or (b) is not frame 0 and holds an `IDAT` chunk
whose declared length runs past the end of the buffer.  The frames that follow are never
read. -/
theorem malformed_frame_detected (cfg : Config) (good : List Frame) (sig : List Nat)
    (cs : List Chunk) (tail : List Nat) (later : List (List Nat))
    (hgood : ∀ f ∈ good, f.WF) (hs : sig.length = 8) (hr : ∀ c ∈ cs, c.Readable)
    (hbad : (tail.length < 8 ∧ (tail = [] → cs = []))
      ∨ (good ≠ [] ∧ ∃ L rest, tail = be32 L ++ [0x49, 0x44, 0x41, 0x54] ++ rest
          ∧ L < 4294967296 ∧ rest.length < L + 4)) :
    createFromBlobs cfg
        (good.map Frame.bytes ++ (sig ++ (cs.map Chunk.bytes).flatten ++ tail) :: later)
      = .error .rangeError
      ∧ ∀ out, createFromBlobs cfg
          (good.map Frame.bytes ++ (sig ++ (cs.map Chunk.bytes).flatten ++ tail) :: later)
        ≠ .ok out := by
  have hw : ∀ st', walk good.length (sig ++ (cs.map Chunk.bytes).flatten ++ tail)
      ((sig ++ (cs.map Chunk.bytes).flatten ++ tail).length + 1) 8 st'
      = .error .rangeError := by
    intro st'
    apply walk_malformed good.length sig cs tail st' hs hr
    rcases hbad with h | ⟨hne, h⟩
    · exact Or.inl h
    · exact Or.inr ⟨fun h0 => hne (List.length_eq_zero.mp h0), h⟩
  have hmain : createFromBlobs cfg
      (good.map Frame.bytes ++ (sig ++ (cs.map Chunk.bytes).flatten ++ tail) :: later)
      = .error .rangeError :=
    createFromBlobs_of_readFrames_error cfg _ (by simp) _
      (readFrames_then_bad cfg _ good hgood _ later _ hw)
  refine ⟨hmain, ?_⟩
  intro out h
  rw [hmain] at h
  cases h

theorem malformed_frame_detected_witness :
    (∀ f ∈ [redPixel], f.WF) ∧ header.length = 8 ∧ (∀ c ∈ [sampleIHDR], c.Readable)
      ∧ ((cutIDAT.length < 8 ∧ (cutIDAT = [] → [sampleIHDR] = []))
        ∨ ([redPixel] ≠ [] ∧ ∃ L rest, cutIDAT = be32 L ++ [0x49, 0x44, 0x41, 0x54] ++ rest
            ∧ L < 4294967296 ∧ rest.length < L + 4))
      ∧ (createFromBlobs sampleConfig
            ([redPixel].map Frame.bytes
              ++ (header ++ ([sampleIHDR].map Chunk.bytes).flatten ++ cutIDAT) :: [])
          = .error .rangeError
        ∧ ∀ out, createFromBlobs sampleConfig
            ([redPixel].map Frame.bytes
              ++ (header ++ ([sampleIHDR].map Chunk.bytes).flatten ++ cutIDAT) :: [])
          ≠ .ok out) :=
  ⟨by decide, by decide, by decide,
    Or.inr ⟨by decide, 13, [120, 156, 99, 96, 96], rfl, by decide, by decide⟩,
    malformed_frame_detected sampleConfig [redPixel] header [sampleIHDR] cutIDAT []
      (by decide) (by decide) (by decide)
      (Or.inr ⟨by decide, 13, [120, 156, 99, 96, 96], rfl, by decide, by decide⟩)⟩

theorem chunk_walk_terminates_witness :
    walk 1 truncatedRed (truncatedRed.length + 1) 8 { chunks := [], sequence_number := 0 }
        ≠ .error .outOfFuel
      ∧ 1 ≤ walkPasses 1 truncatedRed (truncatedRed.length + 1) 8
          { chunks := [], sequence_number := 0 }
      ∧ walkPasses 1 truncatedRed (truncatedRed.length + 1) 8
            { chunks := [], sequence_number := 0 }
          ≤ max 1 ((truncatedRed.length - 8 + 11) / 12)
      ∧ (∀ pos st0, walkBody 1 truncatedRed pos st0 = .error .rangeError
          ∨ ∃ st1 pos1, walkBody 1 truncatedRed pos st0 = .ok (st1, pos1) ∧ pos + 12 ≤ pos1)
      ∧ (∀ big, truncatedRed.length + 1 ≤ big →
          walk 1 truncatedRed big 8 { chunks := [], sequence_number := 0 }
              = walk 1 truncatedRed (truncatedRed.length + 1) 8
                  { chunks := [], sequence_number := 0 }
            ∧ walkPasses 1 truncatedRed big 8 { chunks := [], sequence_number := 0 }
                = walkPasses 1 truncatedRed (truncatedRed.length + 1) 8
                    { chunks := [], sequence_number := 0 }) :=
  chunk_walk_terminates 1 truncatedRed { chunks := [], sequence_number := 0 }

end APNG
